import Mathlib

/-!
ArtemisBot: the SockJS/STOMP frame codec, the session and the retrigger controller

A shallow embedding of `internal/sockjs/sockjs.go` and of the event handling of
`cmd/retrigger.go`, followed by theorems about them.

Conventions of the embedding.

* A Go `string` is a list of characters (`Str`).
* A Go function that can fail at run time (nil dereference, failed type assertion, closing a
  closed channel, index out of range) returns an `Outcome`: either its Go results or `panic`.
* A Go `error` result is an `Option GoError` (`none` is `nil`); a pointer result is an `Option`.
* Package-level variables and the fields of a receiver are passed in and returned explicitly.
* What the network or a standard-library decoder answers is a parameter of the function that
  asks for it.
-/

namespace ArtemisBot

/-- A Go string. -/
abbrev Str := List Char

/-- A Go `error` value, identified with its message. -/
structure GoError where
  msg : Str
deriving DecidableEq, Repr

/-- The result of running a Go function: it returns `a`, or the goroutine panics. -/
inductive Outcome (α : Type) where
  | ok (a : α)
  | panic (why : String)
deriving Repr

/-- Sequencing of Go statements: a panic aborts what follows. -/
def Outcome.bind {α β : Type} (o : Outcome α) (f : α → Outcome β) : Outcome β :=
  match o with
  | .ok a => f a
  | .panic w => .panic w

/-- Go slice indexing `xs[i]`, which panics when `i` is out of range. -/
def index {α : Type} (xs : List α) (i : Int) : Outcome α :=
  if i < 0 then .panic "index out of range"
  else
    match xs.get? i.toNat with
    | some a => .ok a
    | none => .panic "index out of range"

/-! ## Package `strings` -/

/-- Scanning loop of `Split`: `skip` counts the characters of a separator occurrence still to be
stepped over, `acc` is the piece being collected, reversed. -/
def splitGo (sep : Str) : Nat → Str → Str → List Str
  | _, acc, [] => [acc.reverse]
  | skip + 1, acc, _ :: s => splitGo sep skip acc s
  | 0, acc, c :: s =>
    if sep.isPrefixOf (c :: s) then acc.reverse :: splitGo sep (sep.length - 1) [] s
    else splitGo sep 0 (c :: acc) s

/-- Go `strings.Split(s, sep)`: the pieces of `s` between the non-overlapping occurrences of
`sep`, found left to right; with an empty `sep`, the characters of `s`. -/
def Split (s sep : Str) : List Str :=
  if sep = [] then s.map (fun c => [c]) else splitGo sep 0 [] s

/-- Scanning loop of `ReplaceAll`. -/
def replaceGo (old new : Str) : Nat → Str → Str
  | _, [] => []
  | skip + 1, _ :: s => replaceGo old new skip s
  | 0, c :: s =>
    if old.isPrefixOf (c :: s) then new ++ replaceGo old new (old.length - 1) s
    else c :: replaceGo old new 0 s

/-- Go `strings.ReplaceAll(s, old, new)` for a non-empty `old`. -/
def ReplaceAll (s old new : Str) : Str :=
  replaceGo old new 0 s

/-! ## Package `regexp`: the constructs of `sockJSRegex`, with leftmost-first matching -/

/-- Regular-expression syntax. `cls` is a bracket class given by its ranges, `anyNotNL` is `.`,
`star` carries its greediness (`x*` / `x*?`), `group` is a named capture group. -/
inductive Regex where
  | beginText
  | endText
  | empty
  | lit (c : Char)
  | cls (ranges : List (Char × Char))
  | anyNotNL
  | cat (a b : Regex)
  | alt (a b : Regex)
  | star (greedy : Bool) (r : Regex)
  | group (idx : Nat) (name : String) (r : Regex)

/-- The regexp `x+` (greedy) or `x+?`. -/
def Regex.plus (greedy : Bool) (r : Regex) : Regex :=
  .cat r (.star greedy r)

/-- The regexp `x?`, preferring one occurrence. -/
def Regex.opt (r : Regex) : Regex :=
  .alt r .empty

/-- The regexp matching the literal text `w`. -/
def Regex.text : Str → Regex
  | [] => .empty
  | c :: w => .cat (.lit c) (Regex.text w)

/-- Membership of a character in a bracket class. -/
def inClass (ranges : List (Char × Char)) (c : Char) : Bool :=
  ranges.any (fun r => decide (r.1.toNat ≤ c.toNat) && decide (c.toNat ≤ r.2.toNat))

/-- A position of the matcher in the input: the offset, the text still ahead, and the capture
groups closed so far (group index and captured text), most recent first. -/
structure MState where
  pos : Nat
  rest : Str
  caps : List (Nat × Str)
deriving DecidableEq, Repr

/-- Iteration of a starred sub-expression. `body k` matches one occurrence and continues with
`k`. A greedy star first tries one more occurrence and exits only when that fails; a lazy one
first exits. An occurrence must consume input, so `x.rest.length` rounds always suffice. -/
def starLoop (greedy : Bool)
    (body : (MState → Option MState) → MState → Option MState)
    (k : MState → Option MState) : Nat → MState → Option MState
  | 0, x => k x
  | n + 1, x =>
    if greedy then
      (body (fun y => if y.rest.length < x.rest.length then starLoop greedy body k n y
                      else none) x).or (k x)
    else
      (k x).or (body (fun y => if y.rest.length < x.rest.length then starLoop greedy body k n y
                               else none) x)

/-- Backtracking matcher in continuation-passing style: `r.run k x` matches `r` at `x` and hands
the position reached to `k`; alternatives are tried in priority order and the first overall
success is the result, which is Go's leftmost-first rule. -/
def Regex.run : Regex → (MState → Option MState) → MState → Option MState
  | .beginText, k, x => if x.pos = 0 then k x else none
  | .endText, k, x => if x.rest = [] then k x else none
  | .empty, k, x => k x
  | .lit c, k, x =>
    match x.rest with
    | d :: s => if d = c then k ⟨x.pos + 1, s, x.caps⟩ else none
    | [] => none
  | .cls ranges, k, x =>
    match x.rest with
    | d :: s => if inClass ranges d then k ⟨x.pos + 1, s, x.caps⟩ else none
    | [] => none
  | .anyNotNL, k, x =>
    match x.rest with
    | d :: s => if d ≠ '\n' then k ⟨x.pos + 1, s, x.caps⟩ else none
    | [] => none
  | .cat a b, k, x => a.run (b.run k) x
  | .alt a b, k, x => (a.run k x).or (b.run k x)
  | .star greedy r, k, x => starLoop greedy r.run k x.rest.length x
  | .group idx _ r, k, x =>
    r.run (fun y => k ⟨y.pos, y.rest,
      (idx, x.rest.take (x.rest.length - y.rest.length)) :: y.caps⟩) x

/-- The highest capture-group index of a regexp. -/
def Regex.numSubexp : Regex → Nat
  | .cat a b => max a.numSubexp b.numSubexp
  | .alt a b => max a.numSubexp b.numSubexp
  | .star _ r => r.numSubexp
  | .group idx _ r => max idx r.numSubexp
  | _ => 0

/-- Go `(*Regexp).SubexpIndex(name)`: the index of the first group with that name, or -1. -/
def Regex.SubexpIndex : Regex → String → Int
  | .cat a b, name => if a.SubexpIndex name ≠ -1 then a.SubexpIndex name else b.SubexpIndex name
  | .alt a b, name => if a.SubexpIndex name ≠ -1 then a.SubexpIndex name else b.SubexpIndex name
  | .star _ r, name => r.SubexpIndex name
  | .group idx n r, name => if n = name then (idx : Int) else r.SubexpIndex name
  | _, _ => -1

/-- The unanchored search: the match starting at the leftmost offset that has one, as the text
from that offset on and the position where the match ends. -/
def findFrom (re : Regex) : Nat → Str → Option (Str × MState)
  | i, [] => (re.run some ⟨i, [], []⟩).map (fun y => ([], y))
  | i, c :: s =>
    match re.run some ⟨i, c :: s, []⟩ with
    | some y => some (c :: s, y)
    | none => findFrom re (i + 1) s

/-- The text captured by group `idx`: its most recent closing, or the empty string. -/
def capture (caps : List (Nat × Str)) (idx : Nat) : Str :=
  match caps.find? (fun c => c.1 = idx) with
  | some c => c.2
  | none => []

/-- Go `(*Regexp).FindStringSubmatch(s)`: the whole match followed by the text of each group, or
the empty (nil) slice when there is no match. -/
def Regex.FindStringSubmatch (re : Regex) (s : Str) : List Str :=
  match findFrom re 0 s with
  | none => []
  | some (from_, y) =>
    from_.take (from_.length - y.rest.length) ::
      (List.range re.numSubexp).map (fun j => capture y.caps (j + 1))

/-- The concatenation of a list of regexps. -/
def Regex.seq : List Regex → Regex
  | [] => .empty
  | r :: rs => .cat r (Regex.seq rs)

/-! ## `internal/sockjs/sockjs.go` -/

/-- The bracket class of header names and values: letters, digits and the characters
dash, underscore, slash, hash, comma, dot and space. -/
def headerClass : List (Char × Char) :=
  [('a', 'z'), ('A', 'Z'), ('0', '9'), ('-', '-'), ('_', '_'), ('/', '/'), ('#', '#'),
   (',', ','), ('.', '.'), (' ', ' ')]

/-- One header line of `sockJSRegex`: name, colon, value, escaped newline. -/
def headerLine : Regex :=
  Regex.seq [Regex.plus true (.cls headerClass), .lit ':', Regex.plus true (.cls headerClass),
    Regex.text "\\n".toList]

/-- The envelope pattern `sockJSRegex` (line 23), whose source text is

  `^a?\["(?P<command>.+?)\\n(?P<headers>(?:[a-zA-Z0-9-_/#,. ]+:[a-zA-Z0-9-_/#,. ]+\\n)*)\\n(?P<body>.*)\\u0000"]$`

that is: start of text, an optional `a`, an opening bracket and a quote, group `command` (lazy,
one or more characters), an escaped newline (a backslash and the letter n), group `headers` (any
number of header lines), an escaped newline, group `body` (greedy), the escaped NUL (a backslash
and `u0000`), a quote and a closing bracket, end of text. -/
def sockJSRegex : Regex :=
  Regex.seq [.beginText, Regex.opt (.lit 'a'), Regex.text "[\"".toList,
    .group 1 "command" (Regex.plus false .anyNotNL),
    Regex.text "\\n".toList,
    .group 2 "headers" (.star true headerLine),
    Regex.text "\\n".toList,
    .group 3 "body" (.star true .anyNotNL),
    Regex.text "\\u0000\"]".toList, .endText]

/-- A value stored in a Go `interface{}` by the JSON decoder. A `float64` that comes from JSON
text is finite, and is represented by its exact rational value. -/
inductive JSONValue where
  | null
  | bool (b : Bool)
  | number (f : ℚ)
  | string (s : Str)
  | array (xs : List JSONValue)
  | object (kvs : List (Str × JSONValue))

/-- A Go `map[string]interface{}`, as its key/value entries. -/
abbrev JSONMap := List (Str × JSONValue)

/-- Go map read `m[key]`: the value stored under `key`, if any. -/
def JSONMap.get (m : JSONMap) (key : Str) : Option JSONValue :=
  (m.find? (fun kv => kv.1 = key)).map (fun kv => kv.2)

/-- A Go `map[string]string`, as its entries in order of first insertion. -/
abbrev Headers := List (Str × Str)

/-- Go map write `m[key] = value`. -/
def Headers.set : Headers → Str → Str → Headers
  | [], key, value => [(key, value)]
  | (k, v) :: m, key, value =>
    if k = key then (k, value) :: m else (k, v) :: Headers.set m key value

/-- Go map read `value, ok := m[key]`. -/
def Headers.get (m : Headers) (key : Str) : Option Str :=
  (m.find? (fun kv => kv.1 = key)).map (fun kv => kv.2)

/-- The struct `SockJSMessage`; a nil `Body` pointer is `none`. -/
structure SockJSMessage where
  Command : Str
  Headers : Headers
  Body : Option JSONMap

/-- Go `fmt.Errorf(format, data)` for a format that ends in the verb `%s`. -/
def Errorf (fmt : Str) (data : Str) : GoError :=
  ⟨fmt ++ data⟩

/-- The header loop of `ParseSockJSMessage` (lines 48 to 55): empty lines are skipped, every
other line is split at its colons and its first two parts are stored. -/
def parseHeaders : List Str → Headers → Outcome Headers
  | [], m => .ok m
  | header :: rest, m =>
    if header = [] then parseHeaders rest m
    else
      (index (Split header ":".toList) 0).bind fun name =>
      (index (Split header ":".toList) 1).bind fun value =>
      parseHeaders rest (m.set name value)

/-- The function `ParseSockJSMessage`. `unmarshal` is `json.Unmarshal` into a pointer to an empty
`map[string]interface{}`: the decoded map, or the decoder's error. The Go results are the pair
of a message pointer and an error. -/
def ParseSockJSMessage (unmarshal : Str → Except GoError JSONMap) (data : Str) :
    Outcome (Option SockJSMessage × Option GoError) :=
  if data = "o".toList then .ok (none, none)
  else if data = "a[\"\\n\"]".toList then .ok (none, none)
  else
    let submatches := sockJSRegex.FindStringSubmatch data
    if submatches.length = 0 then
      .ok (none, some (Errorf "failed to parse SockJS message: ".toList data))
    else
      (index submatches (sockJSRegex.SubexpIndex "command")).bind fun command =>
      (index submatches (sockJSRegex.SubexpIndex "headers")).bind fun headers =>
      (parseHeaders (Split headers "\\n".toList) []).bind fun hs =>
      (index submatches (sockJSRegex.SubexpIndex "body")).bind fun body =>
      if body ≠ [] then
        match unmarshal (ReplaceAll body "\\\"".toList "\"".toList) with
        | .error err => .ok (none, some err)
        | .ok m => .ok (some ⟨command, hs, some m⟩, none)
      else .ok (some ⟨command, hs, none⟩, none)

/-! ## Packages `fmt` and `strconv`: decimal integers -/

/-- The decimal digit character of a number below ten. -/
def digitChar (d : Nat) : Char :=
  Char.ofNat (48 + d)

/-- Decimal digits of a natural number, most significant first; `fuel` bounds the number of
digits. -/
def formatNatGo : Nat → Nat → Str
  | 0, _ => []
  | fuel + 1, n =>
    if n < 10 then [digitChar n] else formatNatGo fuel (n / 10) ++ [digitChar (n % 10)]

/-- The decimal text of a natural number. -/
def formatNat (n : Nat) : Str :=
  formatNatGo (n + 1) n

/-- The verb `%d` of `fmt.Sprintf` on an integer. -/
def formatInt (i : Int) : Str :=
  if i < 0 then '-' :: formatNat i.natAbs else formatNat i.toNat

/-- Whether a character is a decimal digit. -/
def isDigit (c : Char) : Bool :=
  decide (48 ≤ c.toNat) && decide (c.toNat ≤ 57)

/-- The number written by a string of decimal digits. -/
def digitsValue (s : Str) : Nat :=
  s.foldl (fun acc c => acc * 10 + (c.toNat - 48)) 0

/-- A value of Go type `int64` (and of `int` on a 64-bit platform) after wrap-around. -/
def wrapInt64 (x : Int) : Int :=
  (x + 2 ^ 63) % 2 ^ 64 - 2 ^ 63

/-- Go `strconv.Atoi`: an optional sign followed by one or more decimal digits, denoting a value
in the range of `int`; anything else is an error. -/
def Atoi (s : Str) : Int × Option GoError :=
  let neg := s.head? = some '-'
  let ds := if s.head? = some '-' ∨ s.head? = some '+' then s.tail else s
  if ds = [] ∨ ds.all isDigit = false then
    (0, some ⟨"strconv.Atoi: parsing \"".toList ++ s ++ "\": invalid syntax".toList⟩)
  else
    let v : Int := if neg then -(digitsValue ds : Int) else (digitsValue ds : Int)
    if v < -(2 ^ 63) then
      (-(2 ^ 63), some ⟨"strconv.Atoi: parsing \"".toList ++ s ++ "\": value out of range".toList⟩)
    else if 2 ^ 63 ≤ v then
      (2 ^ 63 - 1, some ⟨"strconv.Atoi: parsing \"".toList ++ s ++ "\": value out of range".toList⟩)
    else (v, none)

/-! ## The session: `SockJSClient` -/

/-- The struct `SockJSClient`. Each channel and the socket are represented by whether they have
been closed; `msgCounter` is the value of the atomic 64-bit counter. -/
structure SockJSClient where
  wsClosed : Bool
  msgCounter : Int
  sessionID : Str
  msgChanClosed : Bool
  errChanClosed : Bool
  doneChanClosed : Bool
  isClosed : Bool
deriving DecidableEq, Repr

/-- The client as `NewSockJSClient` builds it around a fresh connection, once the handshake has
given the session id. -/
def SockJSClient.fresh (sessionID : Str) : SockJSClient :=
  { wsClosed := false, msgCounter := 0, sessionID := sessionID, msgChanClosed := false,
    errChanClosed := false, doneChanClosed := false, isClosed := false }

/-- Go `close(ch)`: closing a closed channel panics. The result is the new closed flag. -/
def closeChan (closed : Bool) : Outcome Bool :=
  if closed then .panic "close of closed channel" else .ok true

/-- The method `Close` (lines 115 to 127): return at once when `isClosed` is set; otherwise close
the done channel, the socket, the message channel and the error channel. No statement of the
method, or of the package, assigns `isClosed`. -/
def SockJSClient.Close (c : SockJSClient) : Outcome SockJSClient :=
  if c.isClosed then .ok c
  else
    (closeChan c.doneChanClosed).bind fun done =>
    (closeChan c.msgChanClosed).bind fun msgs =>
    (closeChan c.errChanClosed).bind fun errs =>
    .ok { c with doneChanClosed := done, wsClosed := true, msgChanClosed := msgs,
                 errChanClosed := errs }

/-- The text that `Subscribe` formats for a subscription id and a destination. -/
def subscribeFrame (id destination : Str) : Str :=
  "[\"SUBSCRIBE\\nid:".toList ++ id ++ "\\ndestination:".toList ++ destination ++
    "\\n\\n\\u0000\"]".toList

/-- The subscription id that `Subscribe` formats (`%s-%d`) from the session id and the counter
value. -/
def subscriptionID (sessionID : Str) (counter : Int) : Str :=
  sessionID ++ "-".toList ++ formatInt counter

/-- The method `Subscribe` (lines 152 to 160). The counter is incremented first, then the frame
is written; `writeErr` is what `WriteMessage` answers. The results are the client afterwards, the
text handed to `WriteMessage`, and the returned error. -/
def SockJSClient.Subscribe (c : SockJSClient) (destination : Str) (writeErr : Option GoError) :
    SockJSClient × Str × Option GoError :=
  ({ c with msgCounter := wrapInt64 (c.msgCounter + 1) },
   subscribeFrame (subscriptionID c.sessionID (wrapInt64 (c.msgCounter + 1))) destination,
   writeErr)

/-- The texts written by a sequence of `Subscribe` calls, each given by its destination and by
what `WriteMessage` answers, in call order. -/
def subscribeAll : SockJSClient → List (Str × Option GoError) → List Str
  | _, [] => []
  | c, (destination, writeErr) :: calls =>
    (c.Subscribe destination writeErr).2.1 :: subscribeAll (c.Subscribe destination writeErr).1 calls

/-- The CONNECT frame that `handleConnect` writes (line 167). -/
def connectFrame : Str :=
  "[\"CONNECT\\naccept-version:1.2\\nheart-beat:10000,10000\\n\\n\\u0000\"]".toList

/-- What `ReadMessage` answers: the message type, the payload and an error. -/
structure ReadResult where
  messageType : Int
  data : Str
  err : Option GoError

/-- The constant `websocket.TextMessage`. -/
def TextMessage : Int := 1

/-- What `handleConnect` does: the two Go results, and the interval (in milliseconds) with which
the heartbeat goroutine is started, if it is started. -/
structure ConnectResult where
  sessionID : Str
  err : Option GoError
  heartbeatSendInterval : Option Int
deriving DecidableEq, Repr

/-- An error return of `handleConnect`. -/
def ConnectResult.fail (e : GoError) : ConnectResult :=
  ⟨[], some e, none⟩

/-- The method `handleConnect` (lines 163 to 216). The first read is discarded, the CONNECT frame
is written, `reply` is what the second read answers. -/
def handleConnect (unmarshal : Str → Except GoError JSONMap) (_first reply : ReadResult) :
    Outcome ConnectResult :=
  match reply.err with
  | some err => .ok (.fail err)
  | none =>
    if reply.messageType ≠ TextMessage then
      .ok (.fail ⟨"unexpected message type ".toList ++ formatInt reply.messageType⟩)
    else
      (ParseSockJSMessage unmarshal reply.data).bind fun parsed =>
      match parsed.2 with
      | some err => .ok (.fail err)
      | none =>
        match parsed.1 with
        | none => .panic "invalid memory address or nil pointer dereference"
        | some msg =>
          match msg.Headers.get "session".toList with
          | none => .ok (.fail ⟨"session ID not found in CONNECT message".toList⟩)
          | some sessionID =>
            match msg.Headers.get "heart-beat".toList with
            | none => .ok (.fail ⟨"heartbeat not found in CONNECT message".toList⟩)
            | some heartbeat =>
              if (Split heartbeat ",".toList).length ≠ 2 then
                .ok (.fail ⟨"invalid heartbeat format".toList⟩)
              else
                (index (Split heartbeat ",".toList) 0).bind fun part =>
                match (Atoi part).2 with
                | some err => .ok (.fail err)
                | none => .ok ⟨sessionID, none, some (Atoi part).1⟩

/-! ## `cmd/retrigger.go` -/

/-- The package-level variables `expectingResult` and `isExiting`. -/
structure Globals where
  expectingResult : Bool
  isExiting : Bool
deriving DecidableEq, Repr

/-- The values the package-level variables are initialised with (lines 18 and 19). -/
def Globals.initial : Globals :=
  ⟨true, false⟩

/-- The struct `artemis.ArtemisClient`, reduced to its session. -/
structure ArtemisClient where
  WS : SockJSClient
deriving DecidableEq, Repr

/-- The method `ArtemisClient.Close`. -/
def ArtemisClient.Close (c : ArtemisClient) : Outcome ArtemisClient :=
  c.WS.Close.bind fun ws => .ok ⟨ws⟩

/-- The struct `artemis.Task`, reduced to its identifiers and percentages. -/
structure Task where
  CourseID : Str
  TaskID : Str
  CurrentPercentage : Int
  DesiredPercentage : Int

/-- The value truncated toward zero. -/
def truncate (f : ℚ) : Int :=
  Int.tdiv f.num f.den

/-- Go conversion `int(f)` of a `float64`: the value truncated toward zero when that is an
`int`; otherwise the result is implementation-dependent, given here by `overflow`. -/
def floatToInt (overflow : ℚ → Int) (f : ℚ) : Int :=
  if -(2 ^ 63) ≤ truncate f ∧ truncate f < 2 ^ 63 then truncate f else overflow f

/-- What `handleWSMessage` leaves behind: the package-level variables, the client, and the two Go
results. -/
structure Handled where
  globals : Globals
  client : ArtemisClient
  err : Option GoError
  shouldRetrigger : Bool
deriving DecidableEq, Repr

/-- The function `handleWSMessage` (lines 190 to 223). A nil message, a nil body and a `score`
entry that is not a `float64` make the goroutine panic. -/
def handleWSMessage (overflow : ℚ → Int) (g : Globals) (client : ArtemisClient) (task : Task)
    (msg : Option SockJSMessage) : Outcome Handled :=
  match msg with
  | none => .panic "invalid memory address or nil pointer dereference"
  | some msg =>
    if msg.Command ≠ "MESSAGE".toList then .ok ⟨g, client, none, false⟩
    else if (msg.Headers.get "destination".toList).getD [] = "/user/topic/newSubmissions".toList then
      if g.expectingResult then .ok ⟨g, client, none, true⟩
      else .ok ⟨{ g with expectingResult := true }, client, none, false⟩
    else if (msg.Headers.get "destination".toList).getD [] = "/user/topic/newResults".toList then
      match msg.Body with
      | none => .panic "invalid memory address or nil pointer dereference"
      | some body =>
        match body.get "score".toList with
        | some (.number f) =>
          if floatToInt overflow f ≥ task.DesiredPercentage then
            client.Close.bind fun closed => .ok ⟨{ g with isExiting := true }, closed, none, false⟩
          else .ok ⟨{ g with expectingResult := false }, client, none, true⟩
        | _ => .panic "interface conversion: interface \x7b\x7d is not float64"
    else .ok ⟨g, client, none, false⟩

/-! ## The language of a regexp, and the envelopes -/

/-- Whether a regexp has neither anchors nor capture groups. -/
def Regex.plain : Regex → Bool
  | .beginText => false
  | .endText => false
  | .group _ _ _ => false
  | .cat a b => a.plain && b.plain
  | .alt a b => a.plain && b.plain
  | .star _ r => r.plain
  | _ => true

/-- The set of texts a regexp without anchors matches. -/
def Regex.Lang : Regex → Str → Prop
  | .beginText, w => w = []
  | .endText, w => w = []
  | .empty, w => w = []
  | .lit c, w => w = [c]
  | .cls ranges, w => ∃ d, inClass ranges d = true ∧ w = [d]
  | .anyNotNL, w => ∃ d, d ≠ '\n' ∧ w = [d]
  | .cat a b, w => ∃ u v, a.Lang u ∧ b.Lang v ∧ w = u ++ v
  | .alt a b, w => a.Lang w ∨ b.Lang w
  | .star _ r, w => ∃ ws : List Str, (∀ u ∈ ws, r.Lang u) ∧ w = ws.flatten
  | .group _ _ r, w => r.Lang w

/-- The matcher moves from `x` to `y` by reading a text that satisfies `P`, leaving the capture
groups as they are. -/
def Eats (P : Str → Prop) (x y : MState) : Prop :=
  ∃ w, P w ∧ x.rest = w ++ y.rest ∧ y.pos = x.pos + w.length ∧ y.caps = x.caps

/-- Text over the header alphabet. -/
def headerText (w : Str) : Prop :=
  ∀ c ∈ w, inClass headerClass c = true

/-- Text without a line break, which is what `.` can read. -/
def noNewline (w : Str) : Prop :=
  ∀ c ∈ w, c ≠ '\n'

/-- The header block that encodes a list of name/value pairs: each pair as `name:value` followed
by an escaped newline. -/
def encodeHeaders : List (Str × Str) → Str
  | [] => []
  | (name, value) :: rest => name ++ ':' :: value ++ "\\n".toList ++ encodeHeaders rest

/-- The envelope of a command, a list of header pairs and a body text, after the prefix `pre`. -/
def envelope (pre command : Str) (pairs : List (Str × Str)) (body : Str) : Str :=
  pre ++ "[\"".toList ++ command ++ "\\n".toList ++ encodeHeaders pairs ++ "\\n".toList ++ body ++
    "\\u0000\"]".toList

/-- The texts that the pattern `sockJSRegex` accepts, written out (`FindStringSubmatch_iff_grammar`
proves that these are exactly the texts it matches): an optional `a`, the opening `["`, a command
that is any non-empty text without a line feed (it may itself hold escaped newlines, quotes and
colons), an escaped newline, header lines `name:value` with name and value non-empty over the
header alphabet, each followed by an escaped newline, a blank escaped newline, a body without a
line feed, and the closing escaped NUL marker with `"]`. -/
def PatternEnvelope (data : Str) : Prop :=
  ∃ (pre command : Str) (pairs : List (Str × Str)) (body : Str),
    data = envelope pre command pairs body ∧
    (pre = [] ∨ pre = ['a']) ∧
    command ≠ [] ∧ noNewline command ∧
    (∀ p ∈ pairs, p.1 ≠ [] ∧ headerText p.1 ∧ p.2 ≠ [] ∧ headerText p.2) ∧
    noNewline body

/-- Text inside the string of an envelope that holds no escape sequence, no quote and no line
feed. -/
def specText (w : Str) : Prop :=
  ∀ c ∈ w, c ≠ '\\' ∧ c ≠ '"' ∧ c ≠ '\n'

/-- The envelope grammar in the words of the specification (section 4.1), to be compared with
what the pattern accepts: a one-element array literal (with or without the array marker `a`)
wrapping a single string; inside that string a command token, then a header block of zero or
more `name:value` pairs, each followed by an escaped newline (the name ends at the first colon,
the value is the text after it), then the blank escaped newline, then a body that runs to the
escaped NUL marker. A token, a name and a value hold no escape sequence and no quote. -/
def SpecEnvelope (data : Str) : Prop :=
  ∃ (pre command : Str) (pairs : List (Str × Str)) (body : Str),
    data = envelope pre command pairs body ∧
    (pre = [] ∨ pre = ['a']) ∧
    command ≠ [] ∧ specText command ∧
    (∀ p ∈ pairs, p.1 ≠ [] ∧ specText p.1 ∧ ':' ∉ p.1 ∧ specText p.2) ∧
    noNewline body

/-- The header map built by storing a list of name/value pairs in order. -/
def Headers.ofPairs (pairs : List (Str × Str)) : Headers :=
  pairs.foldl (fun m p => m.set p.1 p.2) []

instance (w : Str) : Decidable (headerText w) :=
  inferInstanceAs (Decidable (∀ c ∈ w, inClass headerClass c = true))

instance (w : Str) : Decidable (noNewline w) :=
  inferInstanceAs (Decidable (∀ c ∈ w, c ≠ '\n'))

/-- Whether a frame is a submission notification: a MESSAGE on the submission topic. -/
def isSubmissionNotification (msg : SockJSMessage) : Prop :=
  msg.Command = "MESSAGE".toList ∧
    msg.Headers.get "destination".toList = some "/user/topic/newSubmissions".toList

/-- Whether a frame is a result notification: a MESSAGE on the result topic. -/
def isResultNotification (msg : SockJSMessage) : Prop :=
  msg.Command = "MESSAGE".toList ∧
    msg.Headers.get "destination".toList = some "/user/topic/newResults".toList

/-- The package-level variables and the client after `handleWSMessage` has handled a list of
frames one after the other, as the message case of the `select` in `loop` does. -/
def handleFrames (overflow : ℚ → Int) (task : Task) :
    Globals → ArtemisClient → List SockJSMessage → Outcome (Globals × ArtemisClient)
  | g, client, [] => .ok (g, client)
  | g, client, msg :: rest =>
    (handleWSMessage overflow g client task (some msg)).bind fun h =>
    handleFrames overflow task h.globals h.client rest

/-- A session on which nothing has been closed. -/
def SockJSClient.isOpen (c : SockJSClient) : Prop :=
  c.isClosed = false ∧ c.wsClosed = false ∧ c.doneChanClosed = false ∧
    c.msgChanClosed = false ∧ c.errChanClosed = false

/-- A session on which the socket and the three channels have been closed. -/
def SockJSClient.closed (c : SockJSClient) : SockJSClient :=
  { c with doneChanClosed := true, wsClosed := true, msgChanClosed := true,
           errChanClosed := true }

/-- A JSON decoder that accepts nothing. It stands for `json.Unmarshal` in statements about
payloads with an empty body, on which the decoder is not called. -/
def decodeNothing : Str → Except GoError JSONMap :=
  fun _ => .error ⟨"unexpected end of JSON input".toList⟩

/-- A first read that answers the SockJS open frame. -/
def openRead : ReadResult :=
  ⟨TextMessage, "o".toList, none⟩

/-! ## `internal/artemis`: exercise details, the task and the client -/

/-- One element of `Results` in `ExerciseDetails`, reduced to the fields that are read. -/
structure ParticipationResult where
  ID : Int
  Score : ℚ

/-- One element of `StudentParticipations` in `ExerciseDetails`, reduced to the fields that are
read. -/
structure StudentParticipation where
  Results : List ParticipationResult
  RepositoryURI : Str
  Branch : Str
  ParticipantName : Str
  ParticipantIdentifier : Str

/-- The struct `ExerciseDetails`, reduced to its student participations. -/
structure ExerciseDetails where
  StudentParticipations : List StudentParticipation

/-- The `range` loop of `GetMostRecentScore` (lines 11 to 16), with the current values of
`mostRecentID` and `mostRecentScore`. -/
def mostRecentLoop (overflow : ℚ → Int) : List ParticipationResult → Int → Int → Int
  | [], _, mostRecentScore => mostRecentScore
  | result :: rest, mostRecentID, mostRecentScore =>
    if result.ID > mostRecentID then
      mostRecentLoop overflow rest result.ID (floatToInt overflow result.Score)
    else mostRecentLoop overflow rest mostRecentID mostRecentScore

/-- The method `GetMostRecentScore` (`misc.go`). Both variables of the loop start at the zero
value of `int`; indexing the first participation panics when there is none. -/
def ExerciseDetails.GetMostRecentScore (overflow : ℚ → Int) (d : ExerciseDetails) :
    Outcome Int :=
  (index d.StudentParticipations 0).bind fun participation =>
  if participation.Results.length = 0 then .ok 0
  else .ok (mostRecentLoop overflow participation.Results 0 0)

/-- What the HTTP request of `GetExerciseDetails` answers: a transport error, or a status code
and the decoded details. -/
structure DetailsReply where
  err : Option GoError
  statusCode : Int
  details : ExerciseDetails

/-- The method `GetExerciseDetails` (`api.go`). When the request fails or the status is not 200
the callback returns a nil value with the error, and the type assertion on that nil value
panics before the error is returned. -/
def GetExerciseDetails (reply : DetailsReply) : Outcome (Option ExerciseDetails × Option GoError) :=
  match reply.err with
  | some _ =>
    .panic "interface conversion: interface \x7b\x7d is nil, not *artemis.ExerciseDetails"
  | none =>
    if reply.statusCode ≠ 200 then
      .panic "interface conversion: interface \x7b\x7d is nil, not *artemis.ExerciseDetails"
    else .ok (some reply.details, none)

/-- The method `Task.Resolve` (`task.go`, lines 59 to 76): the git configuration is read from the
first participation, and the current percentage is its most recent score. -/
def Task.Resolve (overflow : ℚ → Int) (t : Task) (reply : DetailsReply) :
    Outcome (Task × Option GoError) :=
  (GetExerciseDetails reply).bind fun got =>
  match got.2 with
  | some err => .ok (t, some err)
  | none =>
    match got.1 with
    | none => .panic "invalid memory address or nil pointer dereference"
    | some details =>
      (index details.StudentParticipations 0).bind fun _ =>
      (details.GetMostRecentScore overflow).bind fun score =>
      .ok ({ t with CurrentPercentage := score }, none)

/-- What the collaborators of `NewRetriggerTask` answer: the details request, the creation of
the temporary directory, and the clone of the repository. -/
structure TaskEnv where
  details : DetailsReply
  tempDirErr : Option GoError
  repositoryErr : Option GoError

/-- The function `NewRetriggerTask` (`task.go`, lines 21 to 54). -/
def NewRetriggerTask (overflow : ℚ → Int) (env : TaskEnv) (courseID taskID : Str)
    (desiredPercentage : Int) : Outcome (Option Task × Option GoError) :=
  (Task.Resolve overflow ⟨courseID, taskID, 0, desiredPercentage⟩ env.details).bind fun resolved =>
  match resolved.2 with
  | some err => .ok (none, some err)
  | none =>
    match env.tempDirErr with
    | some err => .ok (none, some err)
    | none =>
      match env.repositoryErr with
      | some err => .ok (none, some err)
      | none => .ok (some resolved.1, none)

/-- The function `NewSockJSClient` (`sockjs.go`, lines 83 to 112). `dialErr` is what `Dial`
answers, `first` and `reply` are the two reads of the handshake. -/
def NewSockJSClient (unmarshal : Str → Except GoError JSONMap) (dialErr : Option GoError)
    (first reply : ReadResult) : Outcome (Option SockJSClient × Option GoError) :=
  match dialErr with
  | some err => .ok (none, some err)
  | none =>
    (handleConnect unmarshal first reply).bind fun connected =>
    match connected.err with
    | some err => .ok (none, some err)
    | none => .ok (some (SockJSClient.fresh connected.sessionID), none)

/-- The function `NewArtemisClient` (`client.go`, lines 33 to 72). `authErr` is what
`Authenticate` answers. A nil session without an error, which `NewSockJSClient` never returns, is
represented by the panic of its first use. -/
def NewArtemisClient (unmarshal : Str → Except GoError JSONMap) (authErr dialErr : Option GoError)
    (first reply : ReadResult) : Outcome (Option ArtemisClient × Option GoError) :=
  match authErr with
  | some err => .ok (none, some err)
  | none =>
    (NewSockJSClient unmarshal dialErr first reply).bind fun ws =>
    match ws.2 with
    | some err => .ok (none, some err)
    | none =>
      match ws.1 with
      | none => .panic "invalid memory address or nil pointer dereference"
      | some wsClient => .ok (some ⟨wsClient⟩, none)

/-- Go `time.NewTicker(d)` for a duration in nanoseconds: it panics unless `d` is positive. -/
def NewTicker (d : Int) : Outcome Unit :=
  if d ≤ 0 then .panic "non-positive interval for NewTicker" else .ok ()

/-- The first statement of the heartbeat goroutine of `handleConnect` (line 202): the ticker is
created with the interval times `time.Millisecond`, a 64-bit product. -/
def heartbeatTicker (heartbeatSendInterval : Int) : Outcome Unit :=
  NewTicker (wrapInt64 (wrapInt64 heartbeatSendInterval * 1000000))

/-! ## `cmd/retrigger.go`: the attempt loop and the supervising loop -/

/-- One round of the `select` statement of `loop`: the case that is taken and the value that it
receives. A receive from a closed channel yields nil. Which cases are ready is decided by the
timer and by the other goroutines; the loop is described for every sequence of rounds. -/
inductive Event where
  | timer (retriggerErr : Option GoError)
  | message (msg : Option SockJSMessage)
  | error (err : Option GoError)
  | done

/-- The state of the `for` loop of `loop`: the package-level variables, the client, the number of
calls of `retriggerTask` so far and the number of calls of `timer.Reset` so far. -/
structure LoopState where
  globals : Globals
  client : ArtemisClient
  retriggers : Nat
  timerResets : Nat
deriving DecidableEq, Repr

/-- How `loop` ends on a given sequence of rounds: it returns `shouldRunAgain`, or it panics, or
the rounds are used up and it waits in `select`. -/
inductive LoopResult where
  | returned (shouldRunAgain : Bool) (globals : Globals) (retriggers : Nat)
  | panic (why : String)
  | selecting (st : LoopState)
deriving DecidableEq, Repr

/-- The `for`/`select` loop of `loop` (lines 150 to 175). -/
def loopEvents (overflow : ℚ → Int) (task : Task) : LoopState → List Event → LoopResult
  | st, [] => .selecting st
  | st, .timer retriggerErr :: events =>
    match retriggerErr with
    | some _ => .returned true st.globals (st.retriggers + 1)
    | none => loopEvents overflow task { st with retriggers := st.retriggers + 1 } events
  | st, .message msg :: events =>
    match handleWSMessage overflow st.globals st.client task msg with
    | .panic why => .panic why
    | .ok handled =>
      match handled.err with
      | some _ => .returned true handled.globals st.retriggers
      | none =>
        loopEvents overflow task
          { globals := handled.globals, client := handled.client, retriggers := st.retriggers,
            timerResets := if handled.shouldRetrigger then st.timerResets + 1
                           else st.timerResets } events
  | st, .error err :: events =>
    match err with
    | none => .panic "invalid memory address or nil pointer dereference"
    | some _ => loopEvents overflow task st events
  | st, .done :: _ => .returned (!st.globals.isExiting) st.globals st.retriggers

/-- What the outside world does during one attempt: the answers to the construction of the
client and of the task and to the two subscription writes, and the rounds of the `select`. -/
structure AttemptEnv where
  authErr : Option GoError
  dialErr : Option GoError
  first : ReadResult
  reply : ReadResult
  task : TaskEnv
  subscribeSubmissions : Option GoError
  subscribeResults : Option GoError
  events : List Event

/-- The function `loop` (lines 104 to 176), started with the package-level variables `g`. -/
def loop (overflow : ℚ → Int) (unmarshal : Str → Except GoError JSONMap) (env : AttemptEnv)
    (g : Globals) (courseID taskID : Str) (desiredPercentage : Int) : LoopResult :=
  match NewArtemisClient unmarshal env.authErr env.dialErr env.first env.reply with
  | .panic why => .panic why
  | .ok made =>
    match made.2 with
    | some _ => .returned false g 0
    | none =>
      match made.1 with
      | none => .panic "invalid memory address or nil pointer dereference"
      | some client =>
        match NewRetriggerTask overflow env.task courseID taskID desiredPercentage with
        | .panic why => .panic why
        | .ok created =>
          match created.2 with
          | some _ => .returned false g 0
          | none =>
            match created.1 with
            | none => .panic "invalid memory address or nil pointer dereference"
            | some task =>
              if task.CurrentPercentage ≥ task.DesiredPercentage then .returned false g 0
              else
                match (client.WS.Subscribe "/user/topic/newSubmissions".toList
                    env.subscribeSubmissions).2.2 with
                | some _ => .returned true g 0
                | none =>
                  match ((client.WS.Subscribe "/user/topic/newSubmissions".toList
                      env.subscribeSubmissions).1.Subscribe "/user/topic/newResults".toList
                      env.subscribeResults).2.2 with
                  | some _ => .returned true g 0
                  | none =>
                    loopEvents overflow task
                      ⟨g, ⟨((client.WS.Subscribe "/user/topic/newSubmissions".toList
                        env.subscribeSubmissions).1.Subscribe "/user/topic/newResults".toList
                        env.subscribeResults).1⟩, 0, 0⟩ env.events

/-- How the supervising loop ends: it stops after a number of attempts and sleeps, or an attempt
panics, or an attempt does not end on its rounds, or the next attempt is due and its answers are
not given. -/
inductive RunResult where
  | stopped (attempts sleeps : Nat) (globals : Globals)
  | panic (why : String)
  | blocked (attempts sleeps : Nat)
  | pending (attempts sleeps : Nat) (globals : Globals)
deriving DecidableEq, Repr

/-- The supervising loop of `retriggerCmd.Run` (lines 84 to 92): `loop` is called again, after a
sleep of five seconds, for as long as it returns true. Each attempt has its own answers of the
outside world; the package-level variables pass from one attempt to the next. -/
def supervise (overflow : ℚ → Int) (unmarshal : Str → Except GoError JSONMap)
    (courseID taskID : Str) (desiredPercentage : Int) :
    Globals → List AttemptEnv → Nat → Nat → RunResult
  | g, [], attempts, sleeps => .pending attempts sleeps g
  | g, env :: envs, attempts, sleeps =>
    match loop overflow unmarshal env g courseID taskID desiredPercentage with
    | .panic why => .panic why
    | .selecting _ => .blocked (attempts + 1) sleeps
    | .returned shouldRunAgain g' _ =>
      if shouldRunAgain then
        supervise overflow unmarshal courseID taskID desiredPercentage g' envs (attempts + 1)
          (sleeps + 1)
      else .stopped (attempts + 1) sleeps g'

/-! ## `internal/git/commit.go` and `internal/util/bit.go` -/

/-- The loop of `FindLeftmostSetBit` on a positive `n`: shift right and count until `n` is 0.
`fuel` bounds the number of rounds, 64 being enough for an `int`. -/
def leftmostLoop : Nat → Nat → Nat → Nat
  | 0, _, pos => pos
  | fuel + 1, n, pos => if n > 0 then leftmostLoop fuel (n >>> 1) (pos + 1) else pos

/-- The function `FindLeftmostSetBit`: -1 for 0, and otherwise the number of right shifts that
take `n` to 0, which is the bit length of a positive `n` and 0 for a negative one. -/
def FindLeftmostSetBit (n : Int) : Int :=
  if n = 0 then -1 else (leftmostLoop 64 n.toNat 0 : Nat)

/-- The variables of the loop of `encodeAsVariableLengthInt`. -/
structure EncodeState where
  bytes : List Nat
  currentByte : Nat
  currentByteIndex : Nat
  isFirst : Bool
deriving DecidableEq, Repr

/-- One round of the loop of `encodeAsVariableLengthInt` (lines 77 to 93), for the bit index
`i`. -/
def encodeStep (decompressedSize : Nat) (s : EncodeState) (i : Nat) : EncodeState :=
  if s.currentByteIndex + 1 > 6 || (s.isFirst && s.currentByteIndex + 1 > 3) then
    { bytes := s.bytes ++
        [(if (decompressedSize >>> i) > 0 then
            (s.currentByte ||| (((decompressedSize >>> i) &&& 1) <<< s.currentByteIndex)) ||| 0x80
          else s.currentByte ||| (((decompressedSize >>> i) &&& 1) <<< s.currentByteIndex))
          % 256],
      currentByte := 0, currentByteIndex := 0, isFirst := false }
  else
    { s with
      currentByte := s.currentByte ||| (((decompressedSize >>> i) &&& 1) <<< s.currentByteIndex),
      currentByteIndex := s.currentByteIndex + 1 }

/-- The function `encodeAsVariableLengthInt` (lines 68 to 105), on a size that is not negative;
the bytes are given by their values. -/
def encodeAsVariableLengthInt (decompressedSize : Int) : List Nat :=
  let final := (List.range (FindLeftmostSetBit decompressedSize).toNat).foldl
    (encodeStep decompressedSize.toNat) ⟨[], 0, 0, true⟩
  if final.currentByteIndex > 0 then final.bytes ++ [final.currentByte % 256] else final.bytes

/-- The size encoding of git's packfile format, as the specification words it: the low 4 bits of
the first byte are bits 0 to 3 of the size, each following byte gives the next 7 bits in its low
7 bits, and the high bit of a byte says that another byte follows. The result is the size and
the bytes that are left over, or nothing when a byte that must follow is missing. -/
def decodeFollowing : List Nat → Nat → Option (Nat × List Nat)
  | [], _ => none
  | b :: rest, shift =>
    if b &&& 0x80 = 0 then some ((b &&& 0x7f) <<< shift, rest)
    else (decodeFollowing rest (shift + 7)).map fun r => (((b &&& 0x7f) <<< shift) + r.1, r.2)

/-- The decoder of a size in git's packfile format, starting at the first byte. -/
def decodeVariableLengthInt : List Nat → Option (Nat × List Nat)
  | [] => none
  | b :: rest =>
    if b &&& 0x80 = 0 then some (b &&& 0x0f, rest)
    else (decodeFollowing rest 4).map fun r => ((b &&& 0x0f) + r.1, r.2)

/-! ## Notions used in the statements about the attempt loop -/

/-- A frame that is a result notification carrying the numeric score `s`. -/
def hasScore (msg : SockJSMessage) (s : ℚ) : Prop :=
  isResultNotification msg ∧
    ∃ body, msg.Body = some body ∧ body.get "score".toList = some (.number s)

/-- A result notification whose score, converted as `handleWSMessage` converts it, reaches the
desired percentage `d`. -/
def isPassingResult (overflow : ℚ → Int) (d : Int) (msg : SockJSMessage) : Prop :=
  ∃ s, hasScore msg s ∧ d ≤ floatToInt overflow s

/-- A result notification whose score, converted as `handleWSMessage` converts it, is below the
desired percentage `d`. -/
def isFailingResult (overflow : ℚ → Int) (d : Int) (msg : SockJSMessage) : Prop :=
  ∃ s, hasScore msg s ∧ floatToInt overflow s < d

/-- Whether a case of the `select` of `loop` can be taken. The timer case needs an armed timer;
a receive of a value needs the channel open (a goroutine sends on it), and a receive of nil needs
it closed; the closure case needs the done channel closed. -/
def Event.ready (armed : Bool) (client : ArtemisClient) : Event → Bool
  | .timer _ => armed
  | .message (some _) => !client.WS.msgChanClosed
  | .message none => client.WS.msgChanClosed
  | .error (some _) => !client.WS.errChanClosed
  | .error none => client.WS.errChanClosed
  | .done => client.WS.doneChanClosed

/-- The loop of `loop` on rounds that the `select` can take: each round is run by `loopEvents`
when its case is ready, and there is no run (`none`) when it is not. The timer is armed by
`time.NewTimer` (line 149) and by `timer.Reset` (line 167), which the loop calls when the handler
asks for a retrigger, and it is no longer armed once it has fired. -/
def loopSelect (overflow : ℚ → Int) (task : Task) : Bool → LoopState → List Event →
    Option LoopResult
  | _, st, [] => some (.selecting st)
  | armed, st, ev :: events =>
    if Event.ready armed st.client ev then
      match loopEvents overflow task st [ev] with
      | .selecting st' =>
        loopSelect overflow task
          (match ev with
           | .timer _ => false
           | _ => armed || decide (st.timerResets < st'.timerResets)) st' events
      | result => some result
    else none

/-- The result notification with score `s` and no other header or field. -/
def resultNotification (s : ℚ) : SockJSMessage :=
  ⟨"MESSAGE".toList, [("destination".toList, "/user/topic/newResults".toList)],
    some [("score".toList, .number s)]⟩

/-! ## Soundness of the matcher -/

theorem Eats.comp {P Q : Str → Prop} {x z y : MState} (h1 : Eats P x z) (h2 : Eats Q z y) :
    Eats (fun w => ∃ u v, P u ∧ Q v ∧ w = u ++ v) x y := by
  obtain ⟨u, hu, hr1, hp1, hc1⟩ := h1
  obtain ⟨v, hv, hr2, hp2, hc2⟩ := h2
  refine ⟨u ++ v, ⟨u, v, hu, hv, rfl⟩, ?_, ?_, ?_⟩
  · rw [hr1, hr2, List.append_assoc]
  · rw [hp2, hp1, List.length_append, Nat.add_assoc]
  · rw [hc2, hc1]

/-- A starred body that is sound reads a concatenation of texts of the body. -/
theorem starLoop_sound {L : Str → Prop} {greedy : Bool}
    {body : (MState → Option MState) → MState → Option MState}
    (hbody : ∀ k x res, body k x = some res → ∃ y, Eats L x y ∧ k y = some res)
    (k : MState → Option MState) :
    ∀ (n : Nat) (x res : MState), starLoop greedy body k n x = some res →
      ∃ y, Eats (fun w => ∃ ws : List Str, (∀ u ∈ ws, L u) ∧ w = ws.flatten) x y ∧
        k y = some res := by
  have exit : ∀ x res, k x = some res →
      ∃ y, Eats (fun w => ∃ ws : List Str, (∀ u ∈ ws, L u) ∧ w = ws.flatten) x y ∧
        k y = some res := by
    intro x res h
    exact ⟨x, ⟨[], ⟨[], by simp, by simp⟩, by simp, by simp, rfl⟩, h⟩
  intro n
  induction n with
  | zero =>
    intro x res h
    exact exit x res (by simpa [starLoop] using h)
  | succ n ih =>
    intro x res h
    have again : ∀ res, body (fun y => if y.rest.length < x.rest.length
          then starLoop greedy body k n y else none) x = some res →
        ∃ y, Eats (fun w => ∃ ws : List Str, (∀ u ∈ ws, L u) ∧ w = ws.flatten) x y ∧
          k y = some res := by
      intro res hb
      obtain ⟨z, hz, hk⟩ := hbody _ _ _ hb
      by_cases hlt : z.rest.length < x.rest.length
      · rw [if_pos hlt] at hk
        obtain ⟨y, hy, hky⟩ := ih z res hk
        obtain ⟨u, hu, hr1, hp1, hc1⟩ := hz
        obtain ⟨v, ⟨ws, hws, hv⟩, hr2, hp2, hc2⟩ := hy
        refine ⟨y, ⟨u ++ v, ⟨u :: ws, ?_, ?_⟩, ?_, ?_, ?_⟩, hky⟩
        · intro t ht
          rcases List.mem_cons.mp ht with rfl | ht
          · exact hu
          · exact hws t ht
        · rw [List.flatten_cons, hv]
        · rw [hr1, hr2, List.append_assoc]
        · rw [hp2, hp1, List.length_append, Nat.add_assoc]
        · rw [hc2, hc1]
      · rw [if_neg hlt] at hk
        exact absurd hk (by simp)
    cases greedy with
    | true =>
      simp only [starLoop, if_true, Option.or_eq_some] at h
      rcases h with h | ⟨_, h⟩
      · exact again res h
      · exact exit x res h
    | false =>
      simp only [starLoop, Bool.false_eq_true, if_false, Option.or_eq_some] at h
      rcases h with h | ⟨_, h⟩
      · exact exit x res h
      · exact again res h

/-- Soundness of the matcher: when `r.run k x` succeeds, `r` has read a text of its language from
`x` to some position `y`, and the continuation succeeded from `y` with the same result. -/
theorem run_sound : ∀ (r : Regex), r.plain = true → ∀ (k : MState → Option MState) (x res : MState),
    r.run k x = some res → ∃ y, Eats r.Lang x y ∧ k y = some res := by
  intro r
  induction r with
  | beginText => intro hp; simp [Regex.plain] at hp
  | endText => intro hp; simp [Regex.plain] at hp
  | group idx name r _ => intro hp; simp [Regex.plain] at hp
  | empty =>
    intro _ k x res h
    exact ⟨x, ⟨[], rfl, by simp, by simp, rfl⟩, by simpa [Regex.run] using h⟩
  | lit c =>
    intro _ k x res h
    obtain ⟨p, rest, caps⟩ := x
    cases rest with
    | nil => simp [Regex.run] at h
    | cons d s =>
      simp only [Regex.run] at h
      by_cases hd : d = c
      · rw [if_pos hd] at h
        exact ⟨⟨p + 1, s, caps⟩, ⟨[c], rfl, by simp [hd], by simp, rfl⟩, h⟩
      · rw [if_neg hd] at h
        exact absurd h (by simp)
  | cls ranges =>
    intro _ k x res h
    obtain ⟨p, rest, caps⟩ := x
    cases rest with
    | nil => simp [Regex.run] at h
    | cons d s =>
      simp only [Regex.run] at h
      by_cases hd : inClass ranges d = true
      · rw [if_pos hd] at h
        exact ⟨⟨p + 1, s, caps⟩, ⟨[d], ⟨d, hd, rfl⟩, by simp, by simp, rfl⟩, h⟩
      · rw [if_neg hd] at h
        exact absurd h (by simp)
  | anyNotNL =>
    intro _ k x res h
    obtain ⟨p, rest, caps⟩ := x
    cases rest with
    | nil => simp [Regex.run] at h
    | cons d s =>
      simp only [Regex.run] at h
      by_cases hd : d ≠ '\n'
      · rw [if_pos hd] at h
        exact ⟨⟨p + 1, s, caps⟩, ⟨[d], ⟨d, hd, rfl⟩, by simp, by simp, rfl⟩, h⟩
      · rw [if_neg hd] at h
        exact absurd h (by simp)
  | cat a b iha ihb =>
    intro hp k x res h
    simp only [Regex.plain, Bool.and_eq_true] at hp
    simp only [Regex.run] at h
    obtain ⟨z, hz, hk⟩ := iha hp.1 _ _ _ h
    obtain ⟨y, hy, hky⟩ := ihb hp.2 _ _ _ hk
    exact ⟨y, Eats.comp hz hy, hky⟩
  | alt a b iha ihb =>
    intro hp k x res h
    simp only [Regex.plain, Bool.and_eq_true] at hp
    simp only [Regex.run, Option.or_eq_some] at h
    rcases h with h | ⟨_, h⟩
    · obtain ⟨y, ⟨w, hw, hrest⟩, hk⟩ := iha hp.1 _ _ _ h
      exact ⟨y, ⟨w, Or.inl hw, hrest⟩, hk⟩
    · obtain ⟨y, ⟨w, hw, hrest⟩, hk⟩ := ihb hp.2 _ _ _ h
      exact ⟨y, ⟨w, Or.inr hw, hrest⟩, hk⟩
  | star greedy r ih =>
    intro hp k x res h
    simp only [Regex.plain] at hp
    simp only [Regex.run] at h
    exact starLoop_sound (ih hp) k _ x res h

theorem starLoop_greedy_succ (body : (MState → Option MState) → MState → Option MState)
    (k : MState → Option MState) (n : Nat) (x : MState) :
    starLoop true body k (n + 1) x =
      (body (fun y => if y.rest.length < x.rest.length then starLoop true body k n y
                      else none) x).or (k x) := rfl

theorem starLoop_lazy_succ (body : (MState → Option MState) → MState → Option MState)
    (k : MState → Option MState) (n : Nat) (x : MState) :
    starLoop false body k (n + 1) x =
      (k x).or (body (fun y => if y.rest.length < x.rest.length then starLoop false body k n y
                               else none) x) := rfl

/-! ## The rounds of a starred expression never run out -/

theorem starLoop_congr (greedy : Bool)
    (body : (MState → Option MState) → MState → Option MState)
    (hbody : ∀ (k k' : MState → Option MState) (x : MState),
      (∀ y : MState, y.rest.length ≤ x.rest.length → k y = k' y) → body k x = body k' x)
    (k k' : MState → Option MState) :
    ∀ (n : Nat) (x : MState), (∀ y : MState, y.rest.length ≤ x.rest.length → k y = k' y) →
      starLoop greedy body k n x = starLoop greedy body k' n x := by
  intro n
  induction n with
  | zero =>
    intro x h
    exact h x (Nat.le_refl _)
  | succ n ih =>
    intro x h
    have hb : body (fun y => if y.rest.length < x.rest.length then starLoop greedy body k n y
          else none) x =
        body (fun y => if y.rest.length < x.rest.length then starLoop greedy body k' n y
          else none) x := by
      apply hbody
      intro y hy
      by_cases hlt : y.rest.length < x.rest.length
      · simp only [if_pos hlt]
        exact ih y (fun z hz => h z (Nat.le_trans hz hy))
      · simp only [if_neg hlt]
    simp only [starLoop, hb, h x (Nat.le_refl _)]

/-- The matcher consults its continuation only at positions that are not behind the current
one. -/
theorem run_congr : ∀ (r : Regex) (k k' : MState → Option MState) (x : MState),
    (∀ y : MState, y.rest.length ≤ x.rest.length → k y = k' y) → r.run k x = r.run k' x := by
  intro r
  induction r with
  | beginText =>
    intro k k' x h
    simp only [Regex.run, h x (Nat.le_refl _)]
  | endText =>
    intro k k' x h
    simp only [Regex.run, h x (Nat.le_refl _)]
  | empty =>
    intro k k' x h
    exact h x (Nat.le_refl _)
  | lit c =>
    intro k k' x h
    obtain ⟨p, rest, caps⟩ := x
    cases rest with
    | nil => rfl
    | cons d s => simp only [Regex.run, h ⟨p + 1, s, caps⟩ (by simp)]
  | cls ranges =>
    intro k k' x h
    obtain ⟨p, rest, caps⟩ := x
    cases rest with
    | nil => rfl
    | cons d s => simp only [Regex.run, h ⟨p + 1, s, caps⟩ (by simp)]
  | anyNotNL =>
    intro k k' x h
    obtain ⟨p, rest, caps⟩ := x
    cases rest with
    | nil => rfl
    | cons d s => simp only [Regex.run, h ⟨p + 1, s, caps⟩ (by simp)]
  | cat a b iha ihb =>
    intro k k' x h
    simp only [Regex.run]
    exact iha _ _ x (fun y hy => ihb k k' y (fun z hz => h z (Nat.le_trans hz hy)))
  | alt a b iha ihb =>
    intro k k' x h
    simp only [Regex.run, iha k k' x h, ihb k k' x h]
  | star greedy r ih =>
    intro k k' x h
    simp only [Regex.run]
    exact starLoop_congr greedy r.run ih k k' _ x h
  | group idx name r ih =>
    intro k k' x h
    simp only [Regex.run]
    exact ih _ _ x (fun y hy => h _ hy)

theorem starLoop_none (greedy : Bool)
    (body : (MState → Option MState) → MState → Option MState)
    (hbody : ∀ x, body (fun _ => none) x = none) :
    ∀ (n : Nat) (x : MState), starLoop greedy body (fun _ => none) n x = none := by
  intro n
  induction n with
  | zero =>
    intro x
    rfl
  | succ n ih =>
    intro x
    have hk : (fun y : MState => if y.rest.length < x.rest.length
        then starLoop greedy body (fun _ => none) n y else none) = fun _ => none := by
      funext y
      by_cases hlt : y.rest.length < x.rest.length
      · simp only [if_pos hlt, ih y]
      · simp only [if_neg hlt]
    cases greedy <;> simp [starLoop, hk, hbody x]

/-- The matcher fails when its continuation always fails. -/
theorem run_none : ∀ (r : Regex) (x : MState), r.run (fun _ => none) x = none := by
  intro r
  induction r with
  | beginText => intro x; simp [Regex.run]
  | endText => intro x; simp [Regex.run]
  | empty => intro x; rfl
  | lit c =>
    intro x
    obtain ⟨p, rest, caps⟩ := x
    cases rest <;> simp [Regex.run]
  | cls ranges =>
    intro x
    obtain ⟨p, rest, caps⟩ := x
    cases rest <;> simp [Regex.run]
  | anyNotNL =>
    intro x
    obtain ⟨p, rest, caps⟩ := x
    cases rest <;> simp [Regex.run]
  | cat a b iha ihb =>
    intro x
    have hb : b.run (fun _ => none) = fun _ => none := funext ihb
    simp only [Regex.run, hb, iha x]
  | alt a b iha ihb =>
    intro x
    simp [Regex.run, iha x, ihb x]
  | star greedy r ih =>
    intro x
    simp only [Regex.run]
    exact starLoop_none greedy r.run ih _ x
  | group idx name r ih =>
    intro x
    simp only [Regex.run]
    exact ih x

/-- The number of rounds that `Regex.run` gives a starred expression, the length of the text
ahead, is never the reason for a round not to be tried: any larger number gives the same
result. -/
theorem starLoop_rounds (greedy : Bool) (r : Regex) (k : MState → Option MState) :
    ∀ (n : Nat) (x : MState), x.rest.length ≤ n →
      starLoop greedy r.run k (n + 1) x = starLoop greedy r.run k n x := by
  intro n
  induction n with
  | zero =>
    intro x hx
    have hk : (fun y : MState => if y.rest.length < x.rest.length
        then starLoop greedy r.run k 0 y else none) = fun _ => none := by
      funext y
      rw [if_neg (by omega)]
    cases greedy
    · rw [starLoop_lazy_succ, hk, run_none, Option.or_none]
      rfl
    · rw [starLoop_greedy_succ, hk, run_none, Option.none_or]
      rfl
  | succ n ih =>
    intro x hx
    have hb : r.run (fun y => if y.rest.length < x.rest.length
          then starLoop greedy r.run k (n + 1) y else none) x =
        r.run (fun y => if y.rest.length < x.rest.length
          then starLoop greedy r.run k n y else none) x := by
      apply run_congr
      intro y _
      by_cases hlt : y.rest.length < x.rest.length
      · simp only [if_pos hlt]
        exact ih y (by omega)
      · simp only [if_neg hlt]
    cases greedy
    · rw [starLoop_lazy_succ, hb, ← starLoop_lazy_succ]
    · rw [starLoop_greedy_succ, hb, ← starLoop_greedy_succ]

/-! ## The language of the pieces of `sockJSRegex` -/

theorem run_seq_nil (k : MState → Option MState) : (Regex.seq []).run k = k := rfl

theorem run_seq_cons (r : Regex) (rs : List Regex) (k : MState → Option MState) :
    (Regex.seq (r :: rs)).run k = r.run ((Regex.seq rs).run k) := rfl

theorem run_beginText (k : MState → Option MState) (x : MState) :
    Regex.beginText.run k x = if x.pos = 0 then k x else none := rfl

theorem run_endText (k : MState → Option MState) (x : MState) :
    Regex.endText.run k x = if x.rest = [] then k x else none := rfl

theorem run_group (idx : Nat) (name : String) (r : Regex) (k : MState → Option MState)
    (x : MState) :
    (Regex.group idx name r).run k x =
      r.run (fun y => k ⟨y.pos, y.rest,
        (idx, x.rest.take (x.rest.length - y.rest.length)) :: y.caps⟩) x := rfl

theorem plain_text (w : Str) : (Regex.text w).plain = true := by
  induction w with
  | nil => rfl
  | cons c w ih => simp [Regex.text, Regex.plain, ih]

theorem lang_text (t w : Str) : (Regex.text t).Lang w ↔ w = t := by
  induction t generalizing w with
  | nil => simp [Regex.text, Regex.Lang]
  | cons c t ih =>
    simp only [Regex.text, Regex.Lang, ih]
    constructor
    · rintro ⟨u, v, rfl, rfl, rfl⟩
      rfl
    · rintro rfl
      exact ⟨[c], t, rfl, rfl, rfl⟩

theorem lang_star_any (greedy : Bool) (w : Str) (h : (Regex.star greedy .anyNotNL).Lang w) :
    noNewline w := by
  obtain ⟨ws, hws, rfl⟩ := h
  intro c hc
  obtain ⟨u, hu, hcu⟩ := List.mem_flatten.mp hc
  obtain ⟨d, hd, rfl⟩ := hws u hu
  rw [List.mem_singleton] at hcu
  rw [hcu]
  exact hd

theorem lang_plus_any (greedy : Bool) (w : Str) (h : (Regex.plus greedy .anyNotNL).Lang w) :
    w ≠ [] ∧ noNewline w := by
  obtain ⟨u, v, ⟨d, hd, rfl⟩, hv, rfl⟩ := h
  refine ⟨by simp, ?_⟩
  intro c hc
  rcases List.mem_cons.mp hc with rfl | hc
  · exact hd
  · exact lang_star_any greedy v hv c hc

theorem lang_plus_cls (greedy : Bool) (ranges : List (Char × Char)) (w : Str)
    (h : (Regex.plus greedy (.cls ranges)).Lang w) :
    w ≠ [] ∧ ∀ c ∈ w, inClass ranges c = true := by
  obtain ⟨u, v, ⟨d, hd, rfl⟩, ⟨ws, hws, rfl⟩, rfl⟩ := h
  refine ⟨by simp, ?_⟩
  intro c hc
  rcases List.mem_cons.mp hc with rfl | hc
  · exact hd
  · obtain ⟨u, hu, hcu⟩ := List.mem_flatten.mp hc
    obtain ⟨e, he, rfl⟩ := hws u hu
    rw [List.mem_singleton] at hcu
    rw [hcu]
    exact he

theorem lang_headerLine (w : Str) (h : headerLine.Lang w) :
    ∃ name value, w = name ++ ':' :: value ++ "\\n".toList ∧
      name ≠ [] ∧ headerText name ∧ value ≠ [] ∧ headerText value := by
  simp only [headerLine, Regex.seq] at h
  obtain ⟨name, r1, hname, ⟨colon, r2, hcolon, ⟨value, r3, hvalue, ⟨nl, e, hnl, he, rfl⟩, rfl⟩,
    rfl⟩, rfl⟩ := h
  rw [lang_text] at hnl
  have hcolon' : colon = [':'] := hcolon
  have he' : e = [] := he
  obtain ⟨hn1, hn2⟩ := lang_plus_cls _ _ _ hname
  obtain ⟨hv1, hv2⟩ := lang_plus_cls _ _ _ hvalue
  refine ⟨name, value, ?_, hn1, hn2, hv1, hv2⟩
  subst hnl hcolon' he'
  simp

theorem lang_headers (greedy : Bool) (w : Str) (h : (Regex.star greedy headerLine).Lang w) :
    ∃ pairs : List (Str × Str), w = encodeHeaders pairs ∧
      ∀ p ∈ pairs, p.1 ≠ [] ∧ headerText p.1 ∧ p.2 ≠ [] ∧ headerText p.2 := by
  obtain ⟨ws, hws, rfl⟩ := h
  induction ws with
  | nil => exact ⟨[], rfl, by simp⟩
  | cons u ws ih =>
    obtain ⟨pairs, hp, hall⟩ := ih (fun t ht => hws t (List.mem_cons_of_mem _ ht))
    obtain ⟨name, value, rfl, h1, h2, h3, h4⟩ := lang_headerLine u (hws u (List.mem_cons_self _ _))
    refine ⟨(name, value) :: pairs, ?_, ?_⟩
    · rw [List.flatten_cons, hp]
      simp [encodeHeaders]
    · intro p hp
      rcases List.mem_cons.mp hp with rfl | hp
      · exact ⟨h1, h2, h3, h4⟩
      · exact hall p hp

theorem take_of_eats {P : Str → Prop} {x y : MState} (h : Eats P x y) :
    ∃ w, P w ∧ x.rest = w ++ y.rest ∧ x.rest.take (x.rest.length - y.rest.length) = w := by
  obtain ⟨w, hw, hr, _, _⟩ := h
  refine ⟨w, hw, hr, ?_⟩
  rw [hr]
  simp

/-- What a successful match of `sockJSRegex` from the start of `data` says about `data`: it is
an envelope, and the three groups hold its command, its header block and its body. -/
theorem sockJSRegex_sound (data : Str) (y : MState)
    (h : sockJSRegex.run some ⟨0, data, []⟩ = some y) :
    ∃ (pre command : Str) (pairs : List (Str × Str)) (body : Str),
      data = envelope pre command pairs body ∧
      (pre = [] ∨ pre = ['a']) ∧
      command ≠ [] ∧ noNewline command ∧
      (∀ p ∈ pairs, p.1 ≠ [] ∧ headerText p.1 ∧ p.2 ≠ [] ∧ headerText p.2) ∧
      noNewline body ∧
      y.rest = [] ∧
      y.caps = [(3, body), (2, encodeHeaders pairs), (1, command)] := by
  simp only [sockJSRegex, run_seq_cons, run_seq_nil] at h
  rw [run_beginText, if_pos rfl] at h
  obtain ⟨⟨p1, r1, c1⟩, e1, h1⟩ := run_sound (Regex.opt (.lit 'a')) rfl _ _ _ h
  obtain ⟨⟨p2, r2, c2⟩, e2, h2⟩ := run_sound _ (plain_text _) _ _ _ h1
  rw [run_group] at h2
  obtain ⟨⟨p3, r3, c3⟩, e3, h3⟩ := run_sound (Regex.plus false .anyNotNL) rfl _ _ _ h2
  obtain ⟨⟨p4, r4, c4⟩, e4, h4⟩ := run_sound _ (plain_text _) _ _ _ h3
  rw [run_group] at h4
  obtain ⟨⟨p5, r5, c5⟩, e5, h5⟩ := run_sound (Regex.star true headerLine) rfl _ _ _ h4
  obtain ⟨⟨p6, r6, c6⟩, e6, h6⟩ := run_sound _ (plain_text _) _ _ _ h5
  rw [run_group] at h6
  obtain ⟨⟨p7, r7, c7⟩, e7, h7⟩ := run_sound (Regex.star true .anyNotNL) rfl _ _ _ h6
  obtain ⟨⟨p8, r8, c8⟩, e8, h8⟩ := run_sound _ (plain_text _) _ _ _ h7
  rw [run_endText] at h8
  obtain ⟨w1, hw1, hr1, -, hc1⟩ := e1
  obtain ⟨w2, hw2, hr2, -, hc2⟩ := e2
  obtain ⟨command, hcmd, hr3, ht3⟩ := take_of_eats e3
  obtain ⟨-, -, -, -, hc3⟩ := e3
  obtain ⟨w4, hw4, hr4, -, hc4⟩ := e4
  obtain ⟨hdrs, hhdrs, hr5, ht5⟩ := take_of_eats e5
  obtain ⟨-, -, -, -, hc5⟩ := e5
  obtain ⟨w6, hw6, hr6, -, hc6⟩ := e6
  obtain ⟨body, hbody, hr7, ht7⟩ := take_of_eats e7
  obtain ⟨-, -, -, -, hc7⟩ := e7
  obtain ⟨w8, hw8, hr8, -, hc8⟩ := e8
  rw [lang_text] at hw2 hw4 hw6 hw8
  dsimp only at hr1 hc1 hr2 hc2 hr3 ht3 hc3 hr4 hc4 hr5 ht5 hc5 hr6 hc6 hr7 ht7 hc7 hr8 hc8 h8
  by_cases hend : r8 = []
  · rw [if_pos hend] at h8
    injection h8 with h8
    obtain ⟨pairs, hpairs, hall⟩ := lang_headers _ _ hhdrs
    obtain ⟨hne, hnn⟩ := lang_plus_any _ _ hcmd
    refine ⟨w1, command, pairs, body, ?_, ?_, hne, hnn, hall, lang_star_any _ _ hbody, ?_, ?_⟩
    · rw [hr1, hr2, hr3, hr4, hr5, hr6, hr7, hr8, hend, hw2, hw4, hw6, hw8, hpairs]
      simp [envelope]
    · simp only [Regex.opt, Regex.Lang] at hw1
      rcases hw1 with hw1 | hw1
      · exact Or.inr hw1
      · exact Or.inl hw1
    · rw [← h8]
      exact hend
    · rw [← h8]
      dsimp only
      rw [hc8, hc7, ht7, hc6, hc5, ht5, hc4, hc3, ht3, hc2, hc1, hpairs]
  · rw [if_neg hend] at h8
    exact absurd h8 (by simp)

/-! ## What the matcher finds on a well-formed envelope -/

theorem run_lit_cons (a : Char) (k : MState → Option MState) (p : Nat) (d : Char) (s : Str)
    (c : List (Nat × Str)) :
    (Regex.lit a).run k ⟨p, d :: s, c⟩ = if d = a then k ⟨p + 1, s, c⟩ else none := rfl

theorem run_cls_cons (ranges : List (Char × Char)) (k : MState → Option MState) (p : Nat)
    (d : Char) (s : Str) (c : List (Nat × Str)) :
    (Regex.cls ranges).run k ⟨p, d :: s, c⟩ =
      if inClass ranges d = true then k ⟨p + 1, s, c⟩ else none := rfl

theorem run_cls_nil (ranges : List (Char × Char)) (k : MState → Option MState) (p : Nat)
    (c : List (Nat × Str)) :
    (Regex.cls ranges).run k ⟨p, [], c⟩ = none := rfl

theorem run_any_cons (k : MState → Option MState) (p : Nat) (d : Char) (s : Str)
    (c : List (Nat × Str)) :
    Regex.anyNotNL.run k ⟨p, d :: s, c⟩ = if d ≠ '\n' then k ⟨p + 1, s, c⟩ else none := rfl

theorem run_any_nil (k : MState → Option MState) (p : Nat) (c : List (Nat × Str)) :
    Regex.anyNotNL.run k ⟨p, [], c⟩ = none := rfl

theorem run_cat (a b : Regex) (k : MState → Option MState) (x : MState) :
    (Regex.cat a b).run k x = a.run (b.run k) x := rfl

theorem run_star (greedy : Bool) (r : Regex) (k : MState → Option MState) (x : MState) :
    (Regex.star greedy r).run k x = starLoop greedy r.run k x.rest.length x := rfl

theorem take_sub_append (w s : Str) : (w ++ s).take ((w ++ s).length - s.length) = w := by
  simp

theorem run_text (w : Str) (k : MState → Option MState) (p : Nat) (s : Str)
    (c : List (Nat × Str)) :
    (Regex.text w).run k ⟨p, w ++ s, c⟩ = k ⟨p + w.length, s, c⟩ := by
  induction w generalizing p with
  | nil => rfl
  | cons d w ih =>
    rw [Regex.text, run_cat, List.cons_append, run_lit_cons, if_pos rfl, ih]
    congr 2
    simp only [List.length_cons]
    omega

theorem run_text_ne (e : Char) (w : Str) (k : MState → Option MState) (p : Nat) (d : Char)
    (s : Str) (c : List (Nat × Str)) (h : d ≠ e) :
    (Regex.text (e :: w)).run k ⟨p, d :: s, c⟩ = none := by
  rw [Regex.text, run_cat, run_lit_cons, if_neg h]

theorem run_opt_lit_skip (a : Char) (k : MState → Option MState) (x r : MState)
    (hx : x.rest.head? ≠ some a) (h : k x = some r) :
    (Regex.opt (.lit a)).run k x = some r := by
  obtain ⟨p, s, c⟩ := x
  cases s with
  | nil => simpa [Regex.opt, Regex.run] using h
  | cons d s =>
    have hd : d ≠ a := by
      intro e
      exact hx (by simp [e])
    simpa [Regex.opt, Regex.run, hd] using h

theorem run_opt_lit_take (a : Char) (k : MState → Option MState) (p : Nat) (s : Str)
    (c : List (Nat × Str)) (r : MState) (h : k ⟨p + 1, s, c⟩ = some r) :
    (Regex.opt (.lit a)).run k ⟨p, a :: s, c⟩ = some r := by
  simp [Regex.opt, Regex.run, h]

/-- The lazy loop of `.+?` over a text without backslash, before a continuation that needs a
backslash next: nothing shorter than the whole text is accepted. -/
theorem starLoop_lazy_any (k : MState → Option MState)
    (hk : ∀ p d s c, d ≠ '\\' → k ⟨p, d :: s, c⟩ = none) :
    ∀ (w : Str) (n p : Nat) (s : Str) (c : List (Nat × Str)) (r : MState),
      (∀ d ∈ w, d ≠ '\n' ∧ d ≠ '\\') → w.length ≤ n →
      k ⟨p + w.length, s, c⟩ = some r →
      starLoop false (Regex.run .anyNotNL) k n ⟨p, w ++ s, c⟩ = some r := by
  intro w
  induction w with
  | nil =>
    intro n p s c r _ _ h
    have h' : k ⟨p, s, c⟩ = some r := by simpa using h
    cases n with
    | zero => exact h'
    | succ n => rw [starLoop_lazy_succ, List.nil_append, h', Option.or_some]
  | cons d w ih =>
    intro n p s c r hw hn h
    cases n with
    | zero => simp at hn
    | succ n =>
      have hd := hw d (List.mem_cons_self _ _)
      have hstep := ih n (p + 1) s c r (fun e he => hw e (List.mem_cons_of_mem _ he))
        (by simpa using hn) (by rw [← h]; congr 2; simp only [List.length_cons]; omega)
      rw [starLoop_lazy_succ, List.cons_append, hk p d (w ++ s) c hd.2, Option.none_or,
        run_any_cons, if_pos hd.1]
      simpa using hstep

/-- Group `command` on a command text without backslash. -/
theorem run_group_lazy_any (idx : Nat) (name : String) (k : MState → Option MState)
    (hk : ∀ p d s c, d ≠ '\\' → k ⟨p, d :: s, c⟩ = none)
    (w : Str) (p : Nat) (s : Str) (c : List (Nat × Str)) (r : MState)
    (hne : w ≠ []) (hw : ∀ d ∈ w, d ≠ '\n' ∧ d ≠ '\\')
    (h : k ⟨p + w.length, s, (idx, w) :: c⟩ = some r) :
    (Regex.group idx name (Regex.plus false .anyNotNL)).run k ⟨p, w ++ s, c⟩ = some r := by
  cases w with
  | nil => exact absurd rfl hne
  | cons d w =>
    have hd := hw d (List.mem_cons_self _ _)
    rw [run_group, Regex.plus, run_cat, List.cons_append, run_any_cons, if_pos hd.1, run_star]
    apply starLoop_lazy_any _ _ w _ (p + 1) s c r (fun e he => hw e (List.mem_cons_of_mem _ he))
    · simp
    · have ht := take_sub_append (d :: w) s
      rw [← h]
      dsimp only
      rw [List.cons_append] at ht
      rw [ht]
      congr 2
      simp only [List.length_cons]
      omega
    · intro p' e s' c' he
      exact hk p' e s' _ he

/-- The greedy loop of a bracket class over a text of the class that ends before a character
outside the class. -/
theorem starLoop_greedy_cls (ranges : List (Char × Char)) (k : MState → Option MState) :
    ∀ (w : Str) (n p : Nat) (s : Str) (c : List (Nat × Str)) (r : MState),
      (∀ d ∈ w, inClass ranges d = true) →
      (∀ d s', s = d :: s' → inClass ranges d = false) → w.length ≤ n →
      k ⟨p + w.length, s, c⟩ = some r →
      starLoop true (Regex.run (.cls ranges)) k n ⟨p, w ++ s, c⟩ = some r := by
  intro w
  induction w with
  | nil =>
    intro n p s c r _ hs _ h
    have h' : k ⟨p, s, c⟩ = some r := by simpa using h
    cases n with
    | zero => exact h'
    | succ n =>
      rw [starLoop_greedy_succ, List.nil_append, h']
      cases s with
      | nil => rw [run_cls_nil, Option.none_or]
      | cons e s' =>
        rw [run_cls_cons, if_neg (by rw [hs e s' rfl]; simp), Option.none_or]
  | cons d w ih =>
    intro n p s c r hw hs hn h
    cases n with
    | zero => simp at hn
    | succ n =>
      have hstep := ih n (p + 1) s c r (fun e he => hw e (List.mem_cons_of_mem _ he)) hs
        (by simpa using hn) (by rw [← h]; congr 2; simp only [List.length_cons]; omega)
      rw [starLoop_greedy_succ, List.cons_append, run_cls_cons,
        if_pos (hw d (List.mem_cons_self _ _))]
      dsimp only
      rw [if_pos (by simp), hstep, Option.or_some]

theorem run_plus_cls (ranges : List (Char × Char)) (k : MState → Option MState)
    (w : Str) (p : Nat) (s : Str) (c : List (Nat × Str)) (r : MState)
    (hne : w ≠ []) (hw : ∀ d ∈ w, inClass ranges d = true)
    (hs : ∀ d s', s = d :: s' → inClass ranges d = false)
    (h : k ⟨p + w.length, s, c⟩ = some r) :
    (Regex.plus true (.cls ranges)).run k ⟨p, w ++ s, c⟩ = some r := by
  cases w with
  | nil => exact absurd rfl hne
  | cons d w =>
    rw [Regex.plus, run_cat, List.cons_append, run_cls_cons,
      if_pos (hw d (List.mem_cons_self _ _)), run_star]
    apply starLoop_greedy_cls ranges k w _ (p + 1) s c r
      (fun e he => hw e (List.mem_cons_of_mem _ he)) hs
    · simp
    · rw [← h]
      congr 2
      simp only [List.length_cons]
      omega

theorem nl_eq : "\\n".toList = ['\\', 'n'] := rfl

theorem colon_not_header : inClass headerClass ':' = false := by decide

theorem backslash_not_header : inClass headerClass '\\' = false := by decide

/-- One header line is read in full when name and value are non-empty header text. -/
theorem run_headerLine (k : MState → Option MState) (name value : Str) (p : Nat) (s : Str)
    (c : List (Nat × Str)) (r : MState)
    (hn : name ≠ [] ∧ headerText name) (hv : value ≠ [] ∧ headerText value)
    (h : k ⟨p + (name ++ ':' :: value ++ "\\n".toList).length, s, c⟩ = some r) :
    headerLine.run k ⟨p, name ++ ':' :: value ++ "\\n".toList ++ s, c⟩ = some r := by
  have e : name ++ ':' :: value ++ "\\n".toList ++ s
      = name ++ (':' :: (value ++ ("\\n".toList ++ s))) := by simp
  rw [e, headerLine, run_seq_cons, run_seq_cons, run_seq_cons, run_seq_cons, run_seq_nil]
  apply run_plus_cls _ _ _ _ _ _ _ hn.1 hn.2
  · intro d s' hd
    injection hd with hd _
    rw [← hd]
    exact colon_not_header
  · rw [run_lit_cons, if_pos rfl]
    apply run_plus_cls _ _ _ _ _ _ _ hv.1 hv.2
    · intro d s' hd
      rw [nl_eq] at hd
      injection hd with hd _
      rw [← hd]
      exact backslash_not_header
    · rw [run_text, ← h]
      congr 2
      simp only [List.length_append, List.length_cons]
      omega

theorem run_headerLine_none (k : MState → Option MState) (p : Nat) (s : Str)
    (c : List (Nat × Str)) (hs : ∀ d s', s = d :: s' → inClass headerClass d = false) :
    headerLine.run k ⟨p, s, c⟩ = none := by
  rw [headerLine, run_seq_cons, Regex.plus, run_cat]
  cases s with
  | nil => rfl
  | cons d s' => rw [run_cls_cons, if_neg (by rw [hs d s' rfl]; simp)]

/-- The greedy loop of header lines reads a whole header block that is followed by a character
outside the header alphabet. -/
theorem starLoop_headers (k : MState → Option MState) :
    ∀ (pairs : List (Str × Str)) (n p : Nat) (s : Str) (c : List (Nat × Str)) (r : MState),
      (∀ pr ∈ pairs, pr.1 ≠ [] ∧ headerText pr.1 ∧ pr.2 ≠ [] ∧ headerText pr.2) →
      (∀ d s', s = d :: s' → inClass headerClass d = false) → pairs.length ≤ n →
      k ⟨p + (encodeHeaders pairs).length, s, c⟩ = some r →
      starLoop true headerLine.run k n ⟨p, encodeHeaders pairs ++ s, c⟩ = some r := by
  intro pairs
  induction pairs with
  | nil =>
    intro n p s c r _ hs _ h
    have h' : k ⟨p, s, c⟩ = some r := by simpa [encodeHeaders] using h
    cases n with
    | zero => exact h'
    | succ n =>
      rw [starLoop_greedy_succ]
      simp only [encodeHeaders, List.nil_append]
      rw [run_headerLine_none _ _ _ _ hs, Option.none_or, h']
  | cons pr pairs ih =>
    intro n p s c r hall hs hn h
    obtain ⟨name, value⟩ := pr
    obtain ⟨h1, h2, h3, h4⟩ := hall (name, value) (List.mem_cons_self _ _)
    cases n with
    | zero => simp at hn
    | succ n =>
      have e : encodeHeaders ((name, value) :: pairs) ++ s
          = name ++ ':' :: value ++ "\\n".toList ++ (encodeHeaders pairs ++ s) := by
        simp [encodeHeaders]
      have hstep := ih n (p + (name ++ ':' :: value ++ "\\n".toList).length) s c r
        (fun q hq => hall q (List.mem_cons_of_mem _ hq)) hs (by simpa using hn)
        (by rw [← h]; congr 2; simp [encodeHeaders]; omega)
      rw [starLoop_greedy_succ, e, run_headerLine _ name value p _ c r ⟨h1, h2⟩ ⟨h3, h4⟩,
        Option.or_some]
      dsimp only
      rw [if_pos (by simp; omega), hstep]

/-- Group `headers` on a header block followed by a character outside the header alphabet. -/
theorem run_group_headers (idx : Nat) (name : String) (k : MState → Option MState)
    (pairs : List (Str × Str)) (p : Nat) (s : Str) (c : List (Nat × Str)) (r : MState)
    (hall : ∀ pr ∈ pairs, pr.1 ≠ [] ∧ headerText pr.1 ∧ pr.2 ≠ [] ∧ headerText pr.2)
    (hs : ∀ d s', s = d :: s' → inClass headerClass d = false)
    (h : k ⟨p + (encodeHeaders pairs).length, s, (idx, encodeHeaders pairs) :: c⟩ = some r) :
    (Regex.group idx name (Regex.star true headerLine)).run k ⟨p, encodeHeaders pairs ++ s, c⟩
      = some r := by
  rw [run_group, run_star]
  apply starLoop_headers _ pairs _ p s c r hall hs
  · dsimp only
    clear h
    induction pairs with
    | nil => simp
    | cons pr pairs ih =>
      have := ih (fun q hq => hall q (List.mem_cons_of_mem _ hq))
      simp only [encodeHeaders, List.length_cons, List.length_append] at this ⊢
      omega
  · dsimp only
    rw [take_sub_append, h]

/-- The greedy loop of `.` finds nothing when the continuation fails at every position from
here on. -/
theorem starLoop_greedy_any_none (k : MState → Option MState) :
    ∀ (n : Nat) (x : MState), (∀ y : MState, y.rest.length ≤ x.rest.length → k y = none) →
      starLoop true (Regex.run .anyNotNL) k n x = none := by
  intro n
  induction n with
  | zero =>
    intro x hx
    exact hx x (Nat.le_refl _)
  | succ n ih =>
    intro x hx
    obtain ⟨p, s, c⟩ := x
    rw [starLoop_greedy_succ, hx _ (Nat.le_refl _)]
    cases s with
    | nil => rfl
    | cons d s =>
      rw [run_any_cons]
      by_cases hd : d ≠ '\n'
      · rw [if_pos hd]
        dsimp only
        rw [if_pos (by simp), ih _ (fun y hy => hx y (by simp at hy ⊢; omega))]
        rfl
      · rw [if_neg hd]
        rfl

/-- The greedy loop of `.` before a continuation that accepts only when a text as long as `t` is
left: the loop runs to the end of the input and backs up to that position. -/
theorem starLoop_greedy_any (k : MState → Option MState) (t : Str)
    (hk : ∀ y : MState, y.rest.length < t.length → k y = none) :
    ∀ (w : Str) (n p : Nat) (c : List (Nat × Str)) (r : MState),
      noNewline w → w.length ≤ n →
      k ⟨p + w.length, t, c⟩ = some r →
      starLoop true (Regex.run .anyNotNL) k n ⟨p, w ++ t, c⟩ = some r := by
  intro w
  induction w with
  | nil =>
    intro n p c r _ _ h
    have h' : k ⟨p, t, c⟩ = some r := by simpa using h
    cases n with
    | zero => exact h'
    | succ n =>
      rw [starLoop_greedy_succ, List.nil_append, h']
      cases t with
      | nil => rfl
      | cons d t' =>
        rw [run_any_cons]
        by_cases hd : d ≠ '\n'
        · rw [if_pos hd]
          dsimp only
          rw [if_pos (by simp),
            starLoop_greedy_any_none k n _ (fun y hy => hk y (by simp at hy ⊢; omega))]
          rfl
        · rw [if_neg hd]
          rfl
  | cons d w ih =>
    intro n p c r hw hn h
    cases n with
    | zero => simp at hn
    | succ n =>
      have hstep := ih n (p + 1) c r (fun e he => hw e (List.mem_cons_of_mem _ he))
        (by simpa using hn) (by rw [← h]; congr 2; simp only [List.length_cons]; omega)
      rw [starLoop_greedy_succ, List.cons_append, run_any_cons,
        if_pos (hw d (List.mem_cons_self _ _))]
      dsimp only
      rw [if_pos (by simp), hstep, Option.or_some]

/-- Group `body` before the terminator `t` at the end of the text. -/
theorem run_group_body (idx : Nat) (name : String) (k : MState → Option MState) (t : Str)
    (hk : ∀ y : MState, y.rest.length < t.length → k y = none)
    (w : Str) (p : Nat) (c : List (Nat × Str)) (r : MState) (hw : noNewline w)
    (h : k ⟨p + w.length, t, (idx, w) :: c⟩ = some r) :
    (Regex.group idx name (Regex.star true .anyNotNL)).run k ⟨p, w ++ t, c⟩ = some r := by
  rw [run_group, run_star]
  apply starLoop_greedy_any _ t _ w _ p c r hw
  · simp
  · dsimp only
    rw [take_sub_append, h]
  · intro y hy
    exact hk _ hy

theorem run_text_exact (w : Str) (k : MState → Option MState) (p : Nat)
    (c : List (Nat × Str)) :
    (Regex.text w).run k ⟨p, w, c⟩ = k ⟨p + w.length, [], c⟩ := by
  have h := run_text w k p [] c
  rwa [List.append_nil] at h

theorem run_text_short (t : Str) (k : MState → Option MState) (y : MState)
    (hy : y.rest.length < t.length) : (Regex.text t).run k y = none := by
  cases hr : (Regex.text t).run k y with
  | none => rfl
  | some res =>
    obtain ⟨z, ⟨w, hw, hrest, _, _⟩, _⟩ := run_sound _ (plain_text t) _ _ _ hr
    rw [lang_text] at hw
    rw [hrest, hw, List.length_append] at hy
    omega

/-- The matcher accepts every envelope whose command has no backslash, and its groups then hold
the command, the header block and the body. -/
theorem sockJSRegex_complete (pre command : Str) (pairs : List (Str × Str)) (body : Str)
    (hpre : pre = [] ∨ pre = ['a'])
    (hne : command ≠ []) (hcmd : ∀ d ∈ command, d ≠ '\n' ∧ d ≠ '\\')
    (hall : ∀ pr ∈ pairs, pr.1 ≠ [] ∧ headerText pr.1 ∧ pr.2 ≠ [] ∧ headerText pr.2)
    (hbody : noNewline body) :
    ∃ y, sockJSRegex.run some ⟨0, envelope pre command pairs body, []⟩ = some y ∧
      y.rest = [] ∧ y.caps = [(3, body), (2, encodeHeaders pairs), (1, command)] := by
  have e : envelope pre command pairs body
      = pre ++ ("[\"".toList ++ (command ++ ("\\n".toList ++ (encodeHeaders pairs ++
          ("\\n".toList ++ (body ++ "\\u0000\"]".toList)))))) := by
    simp [envelope]
  have hnl : ∀ (rest : Str) (d : Char) (s' : Str), "\\n".toList ++ rest = d :: s' →
      inClass headerClass d = false := by
    intro rest d s' hd
    rw [nl_eq] at hd
    injection hd with hd _
    rw [← hd]
    exact backslash_not_header
  have tail : ∀ p c, (Regex.text "[\"".toList).run
      ((Regex.group 1 "command" (Regex.plus false .anyNotNL)).run
        ((Regex.text "\\n".toList).run
          ((Regex.group 2 "headers" (Regex.star true headerLine)).run
            ((Regex.text "\\n".toList).run
              ((Regex.group 3 "body" (Regex.star true .anyNotNL)).run
                ((Regex.text "\\u0000\"]".toList).run (Regex.endText.run some)))))))
      ⟨p, "[\"".toList ++ (command ++ ("\\n".toList ++ (encodeHeaders pairs ++
          ("\\n".toList ++ (body ++ "\\u0000\"]".toList))))), c⟩ =
      some ⟨p + "[\"".toList.length + command.length + "\\n".toList.length +
          (encodeHeaders pairs).length + "\\n".toList.length + body.length +
          "\\u0000\"]".toList.length, [],
        (3, body) :: (2, encodeHeaders pairs) :: (1, command) :: c⟩ := by
    intro p c
    rw [run_text]
    apply run_group_lazy_any _ _ _ _ _ _ _ _ _ hne hcmd
    · rw [run_text]
      apply run_group_headers _ _ _ _ _ _ _ _ hall (hnl _)
      rw [run_text]
      apply run_group_body _ _ _ _ _ _ _ _ _ hbody
      · rw [run_text_exact, run_endText, if_pos rfl]
      · intro y hy
        exact run_text_short _ _ _ hy
    · intro p' d s' c' hd
      rw [nl_eq]
      exact run_text_ne _ _ _ _ _ _ _ hd
  simp only [sockJSRegex, run_seq_cons, run_seq_nil]
  rw [run_beginText, if_pos rfl, e]
  rcases hpre with rfl | rfl
  · exact ⟨_, run_opt_lit_skip _ _ _ _ (by show some '[' ≠ some 'a'; decide) (tail 0 []),
      rfl, rfl⟩
  · exact ⟨_, run_opt_lit_take _ _ _ _ _ _ (tail (0 + 1) []), rfl, rfl⟩

theorem findFrom_of_run (re : Regex) (i : Nat) (s : Str) (y : MState)
    (h : re.run some ⟨i, s, []⟩ = some y) : findFrom re i s = some (s, y) := by
  cases s with
  | nil => simp [findFrom, h]
  | cons c s => simp [findFrom, h]

theorem sockJSRegex_run_pos (k : MState → Option MState) (i : Nat) (s : Str)
    (c : List (Nat × Str)) : sockJSRegex.run k ⟨i + 1, s, c⟩ = none := by
  simp only [sockJSRegex, run_seq_cons]
  rw [run_beginText, if_neg (by simp)]

theorem findFrom_pos (i : Nat) (s : Str) : findFrom sockJSRegex (i + 1) s = none := by
  induction s generalizing i with
  | nil => simp [findFrom, sockJSRegex_run_pos]
  | cons c s ih => simp [findFrom, sockJSRegex_run_pos, ih]

/-- The search for `sockJSRegex` succeeds exactly when the match from offset 0 does. -/
theorem findFrom_sockJSRegex (s : Str) :
    findFrom sockJSRegex 0 s = (sockJSRegex.run some ⟨0, s, []⟩).map (fun y => (s, y)) := by
  cases s with
  | nil => rfl
  | cons c s =>
    cases h : sockJSRegex.run some ⟨0, c :: s, []⟩ with
    | none => simp [findFrom, h, findFrom_pos]
    | some y => simp [findFrom, h]

theorem numSubexp_sockJSRegex : sockJSRegex.numSubexp = 3 := by decide

/-- The submatches of a well-formed envelope. -/
theorem FindStringSubmatch_envelope (pre command : Str) (pairs : List (Str × Str)) (body : Str)
    (hpre : pre = [] ∨ pre = ['a'])
    (hne : command ≠ []) (hcmd : ∀ d ∈ command, d ≠ '\n' ∧ d ≠ '\\')
    (hall : ∀ pr ∈ pairs, pr.1 ≠ [] ∧ headerText pr.1 ∧ pr.2 ≠ [] ∧ headerText pr.2)
    (hbody : noNewline body) :
    sockJSRegex.FindStringSubmatch (envelope pre command pairs body) =
      [envelope pre command pairs body, command, encodeHeaders pairs, body] := by
  obtain ⟨y, hy, h1, h2⟩ := sockJSRegex_complete pre command pairs body hpre hne hcmd hall hbody
  simp [Regex.FindStringSubmatch, findFrom_sockJSRegex, hy, h1, h2, numSubexp_sockJSRegex,
    List.range_succ, capture]

/-- The submatches of any text that `sockJSRegex` matches: the text is an envelope, and the
submatches are the text, a command, a header block and a body of it. -/
theorem FindStringSubmatch_sound (data : Str)
    (h : (sockJSRegex.FindStringSubmatch data).length ≠ 0) :
    ∃ (pre command : Str) (pairs : List (Str × Str)) (body : Str),
      data = envelope pre command pairs body ∧
      (pre = [] ∨ pre = ['a']) ∧
      command ≠ [] ∧ noNewline command ∧
      (∀ p ∈ pairs, p.1 ≠ [] ∧ headerText p.1 ∧ p.2 ≠ [] ∧ headerText p.2) ∧
      noNewline body ∧
      sockJSRegex.FindStringSubmatch data = [data, command, encodeHeaders pairs, body] := by
  cases hr : sockJSRegex.run some ⟨0, data, []⟩ with
  | none => simp [Regex.FindStringSubmatch, findFrom_sockJSRegex, hr] at h
  | some y =>
    obtain ⟨pre, command, pairs, body, h1, h2, h3, h4, h5, h6, h7, h8⟩ :=
      sockJSRegex_sound data y hr
    refine ⟨pre, command, pairs, body, h1, h2, h3, h4, h5, h6, ?_⟩
    simp [Regex.FindStringSubmatch, findFrom_sockJSRegex, hr, h7, h8, numSubexp_sockJSRegex,
      List.range_succ, capture]

/-- The lazy loop of `.+?` succeeds with some result as soon as the continuation succeeds after
some text without a line break. -/
theorem starLoop_lazy_any_some (k : MState → Option MState) :
    ∀ (w : Str) (n p : Nat) (s : Str) (c : List (Nat × Str)) (r : MState),
      noNewline w → w.length ≤ n →
      k ⟨p + w.length, s, c⟩ = some r →
      ∃ r', starLoop false (Regex.run .anyNotNL) k n ⟨p, w ++ s, c⟩ = some r' := by
  intro w
  induction w with
  | nil =>
    intro n p s c r _ _ h
    have h' : k ⟨p, s, c⟩ = some r := by simpa using h
    cases n with
    | zero => exact ⟨r, h'⟩
    | succ n => exact ⟨r, by rw [starLoop_lazy_succ, List.nil_append, h', Option.or_some]⟩
  | cons d w ih =>
    intro n p s c r hw hn h
    cases n with
    | zero => simp at hn
    | succ n =>
      obtain ⟨r', hstep⟩ := ih n (p + 1) s c r (fun e he => hw e (List.mem_cons_of_mem _ he))
        (by simpa using hn) (by rw [← h]; congr 2; simp only [List.length_cons]; omega)
      rw [starLoop_lazy_succ, List.cons_append]
      cases hk : k ⟨p, d :: (w ++ s), c⟩ with
      | some r'' => exact ⟨r'', by rw [Option.or_some]⟩
      | none =>
        refine ⟨r', ?_⟩
        rw [Option.none_or, run_any_cons, if_pos (hw d (List.mem_cons_self _ _))]
        simpa using hstep

/-- Every text of `PatternEnvelope` is matched by `sockJSRegex`. -/
theorem sockJSRegex_matches (data : Str) (h : PatternEnvelope data) :
    ∃ y, sockJSRegex.run some ⟨0, data, []⟩ = some y := by
  obtain ⟨pre, command, pairs, body, rfl, hpre, hne, hcmd, hall, hbody⟩ := h
  have e : envelope pre command pairs body
      = pre ++ ("[\"".toList ++ (command ++ ("\\n".toList ++ (encodeHeaders pairs ++
          ("\\n".toList ++ (body ++ "\\u0000\"]".toList)))))) := by
    simp [envelope]
  have hnl : ∀ (rest : Str) (d : Char) (s' : Str), "\\n".toList ++ rest = d :: s' →
      inClass headerClass d = false := by
    intro rest d s' hd
    rw [nl_eq] at hd
    injection hd with hd _
    rw [← hd]
    exact backslash_not_header
  have tail : ∀ p c, ∃ y, (Regex.text "[\"".toList).run
      ((Regex.group 1 "command" (Regex.plus false .anyNotNL)).run
        ((Regex.text "\\n".toList).run
          ((Regex.group 2 "headers" (Regex.star true headerLine)).run
            ((Regex.text "\\n".toList).run
              ((Regex.group 3 "body" (Regex.star true .anyNotNL)).run
                ((Regex.text "\\u0000\"]".toList).run (Regex.endText.run some)))))))
      ⟨p, "[\"".toList ++ (command ++ ("\\n".toList ++ (encodeHeaders pairs ++
          ("\\n".toList ++ (body ++ "\\u0000\"]".toList))))), c⟩ = some y := by
    intro p c
    rw [run_text, run_group, Regex.plus, run_cat]
    cases command with
    | nil => exact absurd rfl hne
    | cons d w =>
      rw [List.cons_append, run_any_cons, if_pos (hcmd d (List.mem_cons_self _ _)), run_star]
      apply starLoop_lazy_any_some _ w _ _ _ _
        ⟨p + "[\"".toList.length + (d :: w).length + "\\n".toList.length +
          (encodeHeaders pairs).length + "\\n".toList.length + body.length +
          "\\u0000\"]".toList.length, [],
          (3, body) :: (2, encodeHeaders pairs) :: (1, d :: w) :: c⟩
        (fun e he => hcmd e (List.mem_cons_of_mem _ he))
      · simp
      · have ht := take_sub_append (d :: w)
          ("\\n".toList ++ (encodeHeaders pairs ++ ("\\n".toList ++ (body ++
            "\\u0000\"]".toList))))
        rw [List.cons_append] at ht
        dsimp only
        rw [ht, run_text]
        apply run_group_headers _ _ _ _ _ _ _ _ hall (hnl _)
        rw [run_text]
        apply run_group_body _ _ _ _ _ _ _ _ _ hbody
        · rw [run_text_exact, run_endText, if_pos rfl]
          congr 2
          simp only [List.length_cons]
          omega
        · intro y hy
          exact run_text_short _ _ _ hy
  simp only [sockJSRegex, run_seq_cons, run_seq_nil]
  rw [run_beginText, if_pos rfl, e]
  rcases hpre with rfl | rfl
  · obtain ⟨y, hy⟩ := tail 0 []
    exact ⟨y, run_opt_lit_skip _ _ _ _ (by show some '[' ≠ some 'a'; decide) hy⟩
  · obtain ⟨y, hy⟩ := tail (0 + 1) []
    exact ⟨y, run_opt_lit_take _ _ _ _ _ _ hy⟩

/-- The pattern `sockJSRegex` matches exactly the texts of `PatternEnvelope`. -/
theorem FindStringSubmatch_iff_grammar (data : Str) :
    (sockJSRegex.FindStringSubmatch data).length ≠ 0 ↔ PatternEnvelope data := by
  constructor
  · intro h
    obtain ⟨pre, command, pairs, body, e, hpre, hc1, hc2, hall, hb, _⟩ :=
      FindStringSubmatch_sound data h
    exact ⟨pre, command, pairs, body, e, hpre, hc1, hc2, hall, hb⟩
  · intro h
    obtain ⟨y, hy⟩ := sockJSRegex_matches data h
    simp [Regex.FindStringSubmatch, findFrom_sockJSRegex, hy]

/-! ## `Split`, and the header loop on a header block -/

theorem isPrefixOf_append_self (u s : Str) : u.isPrefixOf (u ++ s) = true := by
  induction u with
  | nil => simp [List.isPrefixOf]
  | cons c u ih => simp [List.isPrefixOf, ih]

theorem splitGo_skip (sep u : Str) (acc rest : Str) :
    splitGo sep u.length acc (u ++ rest) = splitGo sep 0 acc rest := by
  induction u with
  | nil => rfl
  | cons c u ih => simpa [splitGo] using ih

/-- A piece without the first character of the separator, followed by the separator. -/
theorem splitGo_piece (e : Char) (sep' : Str) (w : Str) (hw : ∀ d ∈ w, d ≠ e)
    (acc rest : Str) :
    splitGo (e :: sep') 0 acc (w ++ (e :: sep') ++ rest)
      = (acc.reverse ++ w) :: splitGo (e :: sep') 0 [] rest := by
  induction w generalizing acc with
  | nil =>
    have hp : (e :: sep').isPrefixOf (e :: (sep' ++ rest)) = true :=
      isPrefixOf_append_self (e :: sep') rest
    have hs := splitGo_skip (e :: sep') sep' [] rest
    rw [List.nil_append, List.cons_append, splitGo, if_pos hp, List.append_nil,
      List.length_cons, Nat.add_sub_cancel, hs]
  | cons d w ih =>
    have hd : d ≠ e := hw d (List.mem_cons_self _ _)
    have hp : (e :: sep').isPrefixOf (d :: (w ++ (e :: sep') ++ rest)) = false := by
      simp [List.isPrefixOf, Ne.symm hd]
    rw [List.cons_append, List.cons_append, splitGo, hp]
    simp only [Bool.false_eq_true, if_false]
    rw [ih (fun c hc => hw c (List.mem_cons_of_mem _ hc))]
    simp

/-- The last piece. -/
theorem splitGo_last (e : Char) (sep' : Str) (w : Str) (hw : ∀ d ∈ w, d ≠ e) (acc : Str) :
    splitGo (e :: sep') 0 acc w = [acc.reverse ++ w] := by
  induction w generalizing acc with
  | nil => simp [splitGo]
  | cons d w ih =>
    have hd : d ≠ e := hw d (List.mem_cons_self _ _)
    have hp : (e :: sep').isPrefixOf (d :: w) = false := by
      simp [List.isPrefixOf, Ne.symm hd]
    rw [splitGo, hp]
    simp only [Bool.false_eq_true, if_false]
    rw [ih (fun c hc => hw c (List.mem_cons_of_mem _ hc))]
    simp

theorem headerText_ne (w : Str) (hw : headerText w) (e : Char)
    (he : inClass headerClass e = false) : ∀ d ∈ w, d ≠ e := by
  intro d hd hde
  have := hw d hd
  rw [hde, he] at this
  exact absurd this (by simp)

/-- A header line splits at its colon into its name and its value. -/
theorem Split_line (name value : Str) (hn : headerText name) (hv : headerText value) :
    Split (name ++ ':' :: value) ":".toList = [name, value] := by
  have h1 := splitGo_piece ':' [] name (headerText_ne name hn ':' colon_not_header) [] value
  have h2 := splitGo_last ':' [] value (headerText_ne value hv ':' colon_not_header) []
  have e : name ++ [':'] ++ value = name ++ ':' :: value := by simp
  rw [e] at h1
  have hs : ":".toList = [':'] := rfl
  rw [Split, hs, if_neg (by simp), h1, h2]
  simp

/-- The header block splits at the escaped newlines into its lines and a final empty piece. -/
theorem Split_encodeHeaders (pairs : List (Str × Str))
    (hall : ∀ pr ∈ pairs, pr.1 ≠ [] ∧ headerText pr.1 ∧ pr.2 ≠ [] ∧ headerText pr.2) :
    Split (encodeHeaders pairs) "\\n".toList
      = pairs.map (fun pr => pr.1 ++ ':' :: pr.2) ++ [[]] := by
  rw [Split, nl_eq, if_neg (by simp)]
  induction pairs with
  | nil => rfl
  | cons pr pairs ih =>
    obtain ⟨name, value⟩ := pr
    obtain ⟨-, h2, -, h4⟩ := hall (name, value) (List.mem_cons_self _ _)
    have hline : ∀ d ∈ name ++ ':' :: value, d ≠ '\\' := by
      intro d hd
      rcases List.mem_append.mp hd with hd | hd
      · exact headerText_ne name h2 '\\' backslash_not_header d hd
      · rcases List.mem_cons.mp hd with rfl | hd
        · decide
        · exact headerText_ne value h4 '\\' backslash_not_header d hd
    have e : encodeHeaders ((name, value) :: pairs)
        = (name ++ ':' :: value) ++ ['\\', 'n'] ++ encodeHeaders pairs := by
      simp [encodeHeaders]
    rw [e, splitGo_piece '\\' ['n'] _ hline, ih (fun q hq => hall q (List.mem_cons_of_mem _ hq))]
    simp

theorem index_zero {α : Type} (a : α) (xs : List α) : index (a :: xs) 0 = .ok a := rfl

theorem index_one {α : Type} (a b : α) (xs : List α) : index (a :: b :: xs) 1 = .ok b := rfl

/-- The header loop on the lines of a header block stores the pairs in order. -/
theorem parseHeaders_lines (pairs : List (Str × Str))
    (hall : ∀ pr ∈ pairs, pr.1 ≠ [] ∧ headerText pr.1 ∧ pr.2 ≠ [] ∧ headerText pr.2)
    (m : Headers) :
    parseHeaders (pairs.map (fun pr => pr.1 ++ ':' :: pr.2) ++ [[]]) m
      = .ok (pairs.foldl (fun m p => m.set p.1 p.2) m) := by
  induction pairs generalizing m with
  | nil => simp [parseHeaders]
  | cons pr pairs ih =>
    obtain ⟨name, value⟩ := pr
    obtain ⟨h1, h2, -, h4⟩ := hall (name, value) (List.mem_cons_self _ _)
    have hne : name ++ ':' :: value ≠ [] := by simp
    simp only [List.map_cons, List.cons_append, parseHeaders, if_neg hne,
      Split_line name value h2 h4, index_zero, index_one, Outcome.bind, List.foldl_cons]
    exact ih (fun q hq => hall q (List.mem_cons_of_mem _ hq)) _

theorem SubexpIndex_command : sockJSRegex.SubexpIndex "command" = 1 := by decide

theorem SubexpIndex_headers : sockJSRegex.SubexpIndex "headers" = 2 := by decide

theorem SubexpIndex_body : sockJSRegex.SubexpIndex "body" = 3 := by decide

/-- What `ParseSockJSMessage` returns once the pattern has matched: a frame with the command
group as its command and the pairs of the header block as its headers; its body is absent when
the body group is empty, and otherwise what the JSON decoder makes of that group, whose error is
returned as it is. -/
theorem ParseSockJSMessage_matched (unmarshal : Str → Except GoError JSONMap)
    (data command : Str) (pairs : List (Str × Str)) (body : Str)
    (h1 : data ≠ "o".toList) (h2 : data ≠ "a[\"\\n\"]".toList)
    (hsub : sockJSRegex.FindStringSubmatch data = [data, command, encodeHeaders pairs, body])
    (hall : ∀ pr ∈ pairs, pr.1 ≠ [] ∧ headerText pr.1 ∧ pr.2 ≠ [] ∧ headerText pr.2) :
    ParseSockJSMessage unmarshal data =
      if body ≠ [] then
        match unmarshal (ReplaceAll body "\\\"".toList "\"".toList) with
        | .error err => .ok (none, some err)
        | .ok m => .ok (some ⟨command, Headers.ofPairs pairs, some m⟩, none)
      else .ok (some ⟨command, Headers.ofPairs pairs, none⟩, none) := by
  have hidx1 : index [data, command, encodeHeaders pairs, body] 1 = .ok command := rfl
  have hidx2 : index [data, command, encodeHeaders pairs, body] 2 = .ok (encodeHeaders pairs) :=
    rfl
  have hidx3 : index [data, command, encodeHeaders pairs, body] 3 = .ok body := rfl
  rw [ParseSockJSMessage, if_neg h1, if_neg h2]
  simp only [hsub, SubexpIndex_command, SubexpIndex_headers, SubexpIndex_body, hidx1, hidx2,
    hidx3, Outcome.bind, Split_encodeHeaders pairs hall, parseHeaders_lines pairs hall,
    Headers.ofPairs]
  simp

theorem envelope_length (pre command : Str) (pairs : List (Str × Str)) (body : Str) :
    12 ≤ (envelope pre command pairs body).length := by
  simp [envelope]
  omega

theorem envelope_ne_sentinel (pre command : Str) (pairs : List (Str × Str)) (body : Str) :
    envelope pre command pairs body ≠ "o".toList ∧
      envelope pre command pairs body ≠ "a[\"\\n\"]".toList := by
  have h := envelope_length pre command pairs body
  constructor
  · intro e
    rw [e] at h
    simp at h
  · intro e
    rw [e] at h
    simp at h

/-! ## Decimal integers -/

theorem digitChar_toNat (d : Nat) (h : d < 10) : (digitChar d).toNat = 48 + d := by
  interval_cases d <;> rfl

theorem digitChar_header (d : Nat) (h : d < 10) : inClass headerClass (digitChar d) = true := by
  interval_cases d <;> decide

theorem digitChar_ne_dash (d : Nat) (h : d < 10) : digitChar d ≠ '-' := by
  interval_cases d <;> decide

theorem formatNatGo_chars (fuel n : Nat) :
    ∀ c ∈ formatNatGo fuel n, ∃ d, d < 10 ∧ c = digitChar d := by
  induction fuel generalizing n with
  | zero => simp [formatNatGo]
  | succ fuel ih =>
    intro c hc
    rw [formatNatGo] at hc
    by_cases hn : n < 10
    · rw [if_pos hn, List.mem_singleton] at hc
      exact ⟨n, hn, hc⟩
    · rw [if_neg hn] at hc
      rcases List.mem_append.mp hc with hc | hc
      · exact ih _ c hc
      · rw [List.mem_singleton] at hc
        exact ⟨n % 10, Nat.mod_lt _ (by decide), hc⟩

theorem digitsValue_append (s : Str) (c : Char) :
    digitsValue (s ++ [c]) = digitsValue s * 10 + (c.toNat - 48) := by
  simp [digitsValue, List.foldl_append]

theorem digitsValue_formatNatGo (fuel n : Nat) (h : n < fuel) :
    digitsValue (formatNatGo fuel n) = n := by
  induction fuel generalizing n with
  | zero => omega
  | succ fuel ih =>
    rw [formatNatGo]
    by_cases hn : n < 10
    · rw [if_pos hn]
      simp [digitsValue, digitChar_toNat n hn]
    · rw [if_neg hn, digitsValue_append, ih (n / 10) (by omega),
        digitChar_toNat _ (Nat.mod_lt _ (by decide))]
      omega

theorem digitsValue_formatNat (n : Nat) : digitsValue (formatNat n) = n :=
  digitsValue_formatNatGo (n + 1) n (Nat.lt_succ_self n)

theorem formatNat_head_ne_dash (n : Nat) : (formatNat n).head? ≠ some '-' := by
  intro h
  cases hf : formatNat n with
  | nil => rw [hf] at h; simp at h
  | cons c s =>
    rw [hf] at h
    simp only [List.head?_cons, Option.some.injEq] at h
    obtain ⟨d, hd, hc⟩ := formatNatGo_chars (n + 1) n c (by
      have : c ∈ formatNat n := by rw [hf]; exact List.mem_cons_self _ _
      exact this)
    rw [h] at hc
    exact digitChar_ne_dash d hd hc.symm

/-- The decimal text determines the integer. -/
theorem formatInt_injective (i j : Int) (h : formatInt i = formatInt j) : i = j := by
  unfold formatInt at h
  by_cases hi : i < 0 <;> by_cases hj : j < 0
  · rw [if_pos hi, if_pos hj] at h
    injection h with _ h
    have := congrArg digitsValue h
    rw [digitsValue_formatNat, digitsValue_formatNat] at this
    omega
  · rw [if_pos hi, if_neg hj] at h
    exact absurd (by rw [← h]; rfl) (formatNat_head_ne_dash j.toNat)
  · rw [if_neg hi, if_pos hj] at h
    exact absurd (by rw [h]; rfl) (formatNat_head_ne_dash i.toNat)
  · rw [if_neg hi, if_neg hj] at h
    have := congrArg digitsValue h
    rw [digitsValue_formatNat, digitsValue_formatNat] at this
    omega

theorem dash_header : inClass headerClass '-' = true := by decide

theorem formatInt_headerText (i : Int) : headerText (formatInt i) := by
  intro c hc
  unfold formatInt at hc
  have digits : ∀ n, ∀ c ∈ formatNat n, inClass headerClass c = true := by
    intro n c hc
    obtain ⟨d, hd, rfl⟩ := formatNatGo_chars (n + 1) n c hc
    exact digitChar_header d hd
  by_cases hi : i < 0
  · rw [if_pos hi] at hc
    rcases List.mem_cons.mp hc with rfl | hc
    · exact dash_header
    · exact digits _ c hc
  · rw [if_neg hi] at hc
    exact digits _ c hc

theorem subscriptionID_headerText (sessionID : Str) (counter : Int) (h : headerText sessionID) :
    subscriptionID sessionID counter ≠ [] ∧ headerText (subscriptionID sessionID counter) := by
  constructor
  · simp [subscriptionID]
  · intro c hc
    simp only [subscriptionID, List.mem_append] at hc
    rcases hc with (hc | hc) | hc
    · exact h c hc
    · have hd : "-".toList = ['-'] := rfl
      rw [hd, List.mem_singleton] at hc
      rw [hc]
      exact dash_header
    · exact formatInt_headerText counter c hc

theorem subscriptionID_injective (sessionID : Str) (i j : Int)
    (h : subscriptionID sessionID i = subscriptionID sessionID j) : i = j := by
  simp only [subscriptionID, List.append_assoc, List.append_cancel_left_eq] at h
  exact formatInt_injective i j h

theorem wrapInt64_of_range (x : Int) (h1 : -(2 ^ 63) ≤ x) (h2 : x < 2 ^ 63) :
    wrapInt64 x = x := by
  unfold wrapInt64
  omega

/-! ## `Split` at a single character, and header maps -/

theorem splitGo_length (e : Char) (s : Str) (acc : Str) :
    (splitGo [e] 0 acc s).length = s.count e + 1 := by
  induction s generalizing acc with
  | nil => simp [splitGo]
  | cons c s ih =>
    by_cases hc : c = e
    · subst hc
      simp [splitGo, List.isPrefixOf, ih]
    · have hp : [e].isPrefixOf (c :: s) = false := by
        simp [List.isPrefixOf, Ne.symm hc]
      rw [splitGo, hp]
      simp only [Bool.false_eq_true, if_false]
      rw [ih, List.count_cons_of_ne (Ne.symm hc)]

theorem Split_length (e : Char) (s : Str) : (Split s [e]).length = s.count e + 1 := by
  rw [Split, if_neg (by simp), splitGo_length]

theorem Split_pair (e : Char) (a b : Str) (ha : e ∉ a) (hb : e ∉ b) :
    Split (a ++ e :: b) [e] = [a, b] := by
  have h1 := splitGo_piece e [] a (fun d hd hde => ha (hde ▸ hd)) [] b
  have h2 := splitGo_last e [] b (fun d hd hde => hb (hde ▸ hd)) []
  have e' : a ++ [e] ++ b = a ++ e :: b := by simp
  rw [e'] at h1
  rw [Split, if_neg (by simp), h1, h2]
  simp

theorem Headers.get_set (m : Headers) (key value key' : Str) :
    (m.set key value).get key' = if key = key' then some value else m.get key' := by
  induction m with
  | nil =>
    by_cases h : key = key' <;> simp [Headers.set, Headers.get, List.find?, h]
  | cons kv m ih =>
    obtain ⟨k, v⟩ := kv
    unfold Headers.get at ih
    by_cases hk : k = key
    · subst hk
      by_cases h : k = key' <;> simp [Headers.set, Headers.get, List.find?, h]
    · by_cases h' : k = key'
      · subst h'
        simp [Headers.set, Headers.get, List.find?, hk, Ne.symm hk]
      · simp only [Headers.set, if_neg hk, Headers.get, List.find?, h', decide_False]
        exact ih

/-- In the header map of a list of pairs, a name all of whose pairs carry the same value maps
to that value. -/
theorem Headers.get_ofPairs (pairs : List (Str × Str)) (name value : Str)
    (hmem : (name, value) ∈ pairs) (hsame : ∀ pr ∈ pairs, pr.1 = name → pr.2 = value) :
    (Headers.ofPairs pairs).get name = some value := by
  have gen : ∀ (ps : List (Str × Str)) (m : Headers),
      (∀ pr ∈ ps, pr.1 = name → pr.2 = value) →
      ((name, value) ∈ ps ∨ m.get name = some value) →
      (ps.foldl (fun m p => m.set p.1 p.2) m).get name = some value := by
    intro ps
    induction ps with
    | nil =>
      intro m _ h
      rcases h with h | h
      · simp at h
      · exact h
    | cons pr ps ih =>
      intro m hs h
      rw [List.foldl_cons]
      apply ih _ (fun q hq => hs q (List.mem_cons_of_mem _ hq))
      by_cases hp : pr.1 = name
      · right
        rw [Headers.get_set, if_pos hp, hs pr (List.mem_cons_self _ _) hp]
      · rcases h with h | h
        · rcases List.mem_cons.mp h with h | h
          · exact absurd (by rw [← h]) hp
          · exact Or.inl h
        · right
          rw [Headers.get_set, if_neg hp]
          exact h
  exact gen pairs [] hsame (Or.inl hmem)

theorem Headers.get_foldl_mem (pairs : List (Str × Str)) (key value : Str) :
    ∀ m : Headers, (pairs.foldl (fun m p => m.set p.1 p.2) m).get key = some value →
      (key, value) ∈ pairs ∨ m.get key = some value := by
  induction pairs with
  | nil =>
    intro m h
    exact Or.inr h
  | cons pr pairs ih =>
    intro m h
    rw [List.foldl_cons] at h
    rcases ih _ h with h | h
    · exact Or.inl (List.mem_cons_of_mem _ h)
    · rw [Headers.get_set] at h
      by_cases hk : pr.1 = key
      · rw [if_pos hk] at h
        injection h with h
        left
        rw [← hk, ← h]
        exact List.mem_cons_self _ _
      · rw [if_neg hk] at h
        exact Or.inr h

/-- A header of the map built from a list of pairs is one of the pairs. -/
theorem Headers.get_ofPairs_mem (pairs : List (Str × Str)) (key value : Str)
    (h : (Headers.ofPairs pairs).get key = some value) : (key, value) ∈ pairs := by
  rcases Headers.get_foldl_mem pairs key value [] h with h | h
  · exact h
  · simp [Headers.get] at h

/-- Every result of `ParseSockJSMessage`: it never panics, and it returns no frame and no error
(the two sentinels), or the parse error that quotes the payload (outside `PatternEnvelope`),
or the JSON decoder's error, or a frame whose headers are the pairs of a header block over the
header alphabet. -/
theorem ParseSockJSMessage_cases (unmarshal : Str → Except GoError JSONMap) (data : Str) :
    ((data = "o".toList ∨ data = "a[\"\\n\"]".toList) ∧
      ParseSockJSMessage unmarshal data = .ok (none, none)) ∨
    (¬ PatternEnvelope data ∧ ParseSockJSMessage unmarshal data =
      .ok (none, some ⟨"failed to parse SockJS message: ".toList ++ data⟩)) ∨
    (PatternEnvelope data ∧ ∃ body err,
      unmarshal (ReplaceAll body "\\\"".toList "\"".toList) = .error err ∧
      ParseSockJSMessage unmarshal data = .ok (none, some err)) ∨
    (PatternEnvelope data ∧ ∃ (command : Str) (pairs : List (Str × Str)) (body : Option JSONMap),
      (∀ pr ∈ pairs, pr.1 ≠ [] ∧ headerText pr.1 ∧ pr.2 ≠ [] ∧ headerText pr.2) ∧
      ParseSockJSMessage unmarshal data =
        .ok (some ⟨command, Headers.ofPairs pairs, body⟩, none)) := by
  by_cases h1 : data = "o".toList
  · left
    refine ⟨Or.inl h1, ?_⟩
    rw [h1]
    rfl
  by_cases h2 : data = "a[\"\\n\"]".toList
  · left
    refine ⟨Or.inr h2, ?_⟩
    rw [h2]
    rfl
  right
  by_cases hlen : (sockJSRegex.FindStringSubmatch data).length = 0
  · left
    refine ⟨fun hg => (FindStringSubmatch_iff_grammar data).mpr hg hlen, ?_⟩
    rw [ParseSockJSMessage, if_neg h1, if_neg h2]
    simp only [hlen, if_true, Errorf]
  · right
    have hg := (FindStringSubmatch_iff_grammar data).mp hlen
    obtain ⟨pre, command, pairs, body, _, _, _, _, hall, _, hsub⟩ :=
      FindStringSubmatch_sound data hlen
    have hm := ParseSockJSMessage_matched unmarshal data command pairs body h1 h2 hsub hall
    by_cases hb : body = []
    · right
      rw [if_neg (by simp [hb])] at hm
      exact ⟨hg, command, pairs, none, hall, hm⟩
    · rw [if_pos hb] at hm
      cases hu : unmarshal (ReplaceAll body "\\\"".toList "\"".toList) with
      | error err =>
        left
        rw [hu] at hm
        exact ⟨hg, body, err, hu, hm⟩
      | ok m =>
        right
        rw [hu] at hm
        exact ⟨hg, command, pairs, some m, hall, hm⟩

/-- The header values of a frame that `ParseSockJSMessage` returns are non-empty text over the
header alphabet. -/
theorem ParseSockJSMessage_header_value (unmarshal : Str → Except GoError JSONMap)
    (data : Str) (msg : SockJSMessage) (key value : Str)
    (hp : ParseSockJSMessage unmarshal data = .ok (some msg, none))
    (hv : msg.Headers.get key = some value) : value ≠ [] ∧ headerText value := by
  rcases ParseSockJSMessage_cases unmarshal data with
    ⟨_, h⟩ | ⟨_, h⟩ | ⟨_, _, _, _, h⟩ | ⟨_, command, pairs, body, hall, h⟩
  · rw [h] at hp
    simp at hp
  · rw [h] at hp
    simp at hp
  · rw [h] at hp
    simp at hp
  · rw [h] at hp
    injection hp with hp
    injection hp with hp _
    injection hp with hp
    rw [← hp] at hv
    have := hall _ (Headers.get_ofPairs_mem pairs key value hv)
    exact ⟨this.2.2.1, this.2.2.2⟩

/-! ## The claims about the frame codec -/

/-- C1: `ParseSockJSMessage` applied to the open-signal payload `o` and to the heartbeat-only
envelope (an `a`, a bracket, a quote, backslash-n, a quote, a bracket) returns no frame and no
error, for both payloads. -/
theorem C1_sentinels_no_frame_no_error (unmarshal : Str → Except GoError JSONMap) :
    ParseSockJSMessage unmarshal "o".toList = .ok (none, none) ∧
    ParseSockJSMessage unmarshal "a[\"\\n\"]".toList = .ok (none, none) :=
  ⟨rfl, rfl⟩

theorem subscribeFrame_eq_envelope (id destination : Str) :
    subscribeFrame id destination =
      envelope [] "SUBSCRIBE".toList [("id".toList, id), ("destination".toList, destination)]
        [] := by
  simp [subscribeFrame, envelope, encodeHeaders]

set_option maxRecDepth 100000 in
theorem parse_connectFrame (unmarshal : Str → Except GoError JSONMap) :
    ParseSockJSMessage unmarshal connectFrame =
      .ok (some ⟨"CONNECT".toList,
        [("accept-version".toList, "1.2".toList), ("heart-beat".toList, "10000,10000".toList)],
        none⟩, none) := rfl

/-- C2: for the control frames the client encodes, that is the CONNECT frame and the SUBSCRIBE
frame that `Subscribe` builds on a client with any counter value, a session id over the header
alphabet and a non-empty destination over the header alphabet, `ParseSockJSMessage` of the
encoded text returns a frame whose command is the encoded command, whose header map is exactly
the encoded header set, and whose body is absent. -/
theorem C2_control_frames_round_trip (unmarshal : Str → Except GoError JSONMap)
    (c : SockJSClient) (destination : Str) (writeErr : Option GoError)
    (hs : headerText c.sessionID) (hne : destination ≠ []) (hd : headerText destination) :
    ParseSockJSMessage unmarshal connectFrame =
      .ok (some ⟨"CONNECT".toList,
        [("accept-version".toList, "1.2".toList), ("heart-beat".toList, "10000,10000".toList)],
        none⟩, none) ∧
    ParseSockJSMessage unmarshal (c.Subscribe destination writeErr).2.1 =
      .ok (some ⟨"SUBSCRIBE".toList,
        [("id".toList, subscriptionID c.sessionID (wrapInt64 (c.msgCounter + 1))),
         ("destination".toList, destination)],
        none⟩, none) := by
  refine ⟨parse_connectFrame unmarshal, ?_⟩
  have hid := subscriptionID_headerText c.sessionID (wrapInt64 (c.msgCounter + 1)) hs
  have hall : ∀ pr ∈ [("id".toList, subscriptionID c.sessionID (wrapInt64 (c.msgCounter + 1))),
      ("destination".toList, destination)],
      pr.1 ≠ [] ∧ headerText pr.1 ∧ pr.2 ≠ [] ∧ headerText pr.2 := by
    intro pr hpr
    simp only [List.mem_cons, List.mem_singleton, List.not_mem_nil, or_false] at hpr
    have hk1 : "id".toList ≠ [] ∧ headerText "id".toList := by decide
    have hk2 : "destination".toList ≠ [] ∧ headerText "destination".toList := by decide
    rcases hpr with rfl | rfl
    · exact ⟨hk1.1, hk1.2, hid.1, hid.2⟩
    · exact ⟨hk2.1, hk2.2, hne, hd⟩
  have hsub := FindStringSubmatch_envelope [] "SUBSCRIBE".toList _ [] (Or.inl rfl) (by decide)
    (by decide) hall (by decide)
  have hsent := envelope_ne_sentinel [] "SUBSCRIBE".toList
    [("id".toList, subscriptionID c.sessionID (wrapInt64 (c.msgCounter + 1))),
      ("destination".toList, destination)] []
  show ParseSockJSMessage unmarshal
    (subscribeFrame (subscriptionID c.sessionID (wrapInt64 (c.msgCounter + 1))) destination) = _
  rw [subscribeFrame_eq_envelope,
    ParseSockJSMessage_matched unmarshal _ _ _ _ hsent.1 hsent.2 hsub hall]
  have hkey : ("id".toList = "destination".toList) = False := by decide
  simp [Headers.ofPairs, Headers.set, hkey]

/-- Witness for C2: a fresh session with id `a1b2` subscribing to the result topic. -/
theorem C2_control_frames_round_trip_witness :
    headerText (SockJSClient.fresh "a1b2".toList).sessionID ∧
    "/user/topic/newResults".toList ≠ [] ∧
    headerText "/user/topic/newResults".toList ∧
    ParseSockJSMessage decodeNothing
        ((SockJSClient.fresh "a1b2".toList).Subscribe "/user/topic/newResults".toList none).2.1 =
      .ok (some ⟨"SUBSCRIBE".toList,
        [("id".toList, subscriptionID (SockJSClient.fresh "a1b2".toList).sessionID
            (wrapInt64 ((SockJSClient.fresh "a1b2".toList).msgCounter + 1))),
         ("destination".toList, "/user/topic/newResults".toList)],
        none⟩, none) :=
  ⟨by decide, by decide, by decide,
    (C2_control_frames_round_trip decodeNothing (SockJSClient.fresh "a1b2".toList)
      "/user/topic/newResults".toList none (by decide) (by decide) (by decide)).2⟩

/-- Two texts that agree and are each cut at a first occurrence of a character are cut at the
same place. -/
theorem append_cons_split (c : Char) :
    ∀ (u v x y : Str), c ∉ u → c ∉ v → u ++ c :: x = v ++ c :: y → u = v ∧ x = y := by
  intro u
  induction u with
  | nil =>
    intro v x y _ hv h
    cases v with
    | nil =>
      simp only [List.nil_append, List.cons.injEq, true_and] at h
      exact ⟨rfl, h⟩
    | cons d v =>
      simp only [List.nil_append, List.cons_append, List.cons.injEq] at h
      exact absurd (h.1 ▸ List.mem_cons_self _ _) hv
  | cons e u ih =>
    intro v x y hu hv h
    cases v with
    | nil =>
      simp only [List.nil_append, List.cons_append, List.cons.injEq] at h
      exact absurd (h.1 ▸ List.mem_cons_self _ _) hu
    | cons d v =>
      simp only [List.cons_append, List.cons.injEq] at h
      obtain ⟨h1, h2⟩ := ih v x y (fun hm => hu (List.mem_cons_of_mem _ hm))
        (fun hm => hv (List.mem_cons_of_mem _ hm)) h.2
      exact ⟨by rw [h.1, h1], h2⟩

/-- A text cannot reach one mark first when read one way and another mark first when read
another way. -/
theorem first_mark (a b : Char) (hab : a ≠ b) :
    ∀ (u v x y : Str), b ∉ u → a ∉ v → u ++ a :: x = v ++ b :: y → False := by
  intro u
  induction u with
  | nil =>
    intro v x y _ hv h
    cases v with
    | nil =>
      simp only [List.nil_append, List.cons.injEq] at h
      exact hab h.1
    | cons d v =>
      simp only [List.nil_append, List.cons_append, List.cons.injEq] at h
      exact hv (h.1 ▸ List.mem_cons_self _ _)
  | cons e u ih =>
    intro v x y hu hv h
    cases v with
    | nil =>
      simp only [List.nil_append, List.cons_append, List.cons.injEq] at h
      exact hu (h.1 ▸ List.mem_cons_self _ _)
    | cons d v =>
      simp only [List.cons_append, List.cons.injEq] at h
      exact ih v x y (fun hm => hu (List.mem_cons_of_mem _ hm))
        (fun hm => hv (List.mem_cons_of_mem _ hm)) h.2

/-- In an envelope of the specification that starts with `a["`, the command is the text up to
the first backslash, and what follows the escaped newline is the header block, the blank escaped
newline, the body and the terminator. -/
theorem SpecEnvelope_command (w rest : Str) (hw : '\\' ∉ w)
    (h : SpecEnvelope ('a' :: '[' :: '"' :: (w ++ '\\' :: 'n' :: rest))) :
    specText w ∧ ∃ (pairs : List (Str × Str)) (body : Str),
      (∀ p ∈ pairs, p.1 ≠ [] ∧ specText p.1 ∧ ':' ∉ p.1 ∧ specText p.2) ∧
      rest = encodeHeaders pairs ++ "\\n".toList ++ body ++ "\\u0000\"]".toList := by
  obtain ⟨pre, command, pairs, body, hdata, hpre, -, hcmd, hall, -⟩ := h
  have hq : "[\"".toList = ['[', '"'] := rfl
  have hn : "\\n".toList = ['\\', 'n'] := rfl
  rcases hpre with rfl | rfl
  · rw [envelope, hq] at hdata
    simp only [List.nil_append, List.cons_append, List.cons.injEq] at hdata
    exact absurd hdata.1 (by decide)
  · rw [envelope, hq, hn] at hdata
    simp only [List.cons_append, List.nil_append, List.append_assoc, List.cons.injEq,
      true_and] at hdata
    have hc : '\\' ∉ command := fun hm => (hcmd _ hm).1 rfl
    obtain ⟨h1, h2⟩ := append_cons_split '\\' w command _ _ hw hc hdata
    refine ⟨h1 ▸ hcmd, pairs, body, hall, ?_⟩
    simp only [List.cons.injEq, true_and] at h2
    rw [h2, hn]
    simp only [List.cons_append, List.nil_append, List.append_assoc]

set_option maxRecDepth 100000 in
/-- C3 (counterexample): two payloads that deviate from the envelope grammar of the
specification and for which `ParseSockJSMessage` returns a frame, not an error. In the first the
header block holds the line `foo`, which is no `name:value` pair; in the second the array has two
elements. The pattern takes the text up to its last escaped newlines as the command. -/
theorem C3_counterexample :
    ¬ SpecEnvelope "a[\"MESSAGE\\nfoo\\n\\n\\u0000\"]".toList ∧
    ParseSockJSMessage decodeNothing "a[\"MESSAGE\\nfoo\\n\\n\\u0000\"]".toList =
      .ok (some ⟨"MESSAGE\\nfoo".toList, [], none⟩, none) ∧
    ¬ SpecEnvelope "a[\"x\",\"y\\n\\n\\u0000\"]".toList ∧
    ParseSockJSMessage decodeNothing "a[\"x\",\"y\\n\\n\\u0000\"]".toList =
      .ok (some ⟨"x\",\"y".toList, [], none⟩, none) := by
  refine ⟨?_, rfl, ?_, rfl⟩
  · intro h
    obtain ⟨-, pairs, body, hall, hrest⟩ :=
      SpecEnvelope_command "MESSAGE".toList "foo\\n\\n\\u0000\"]".toList (by decide) h
    cases pairs with
    | nil =>
      simp [encodeHeaders] at hrest
    | cons p pairs =>
      obtain ⟨name, value⟩ := p
      obtain ⟨-, hname, hcolon, -⟩ := hall (name, value) (List.mem_cons_self _ _)
      have hb : '\\' ∉ name := fun hm => (hname _ hm).1 rfl
      have hfoo : "foo\\n\\n\\u0000\"]".toList =
          "foo".toList ++ '\\' :: "n\\n\\u0000\"]".toList := rfl
      rw [hfoo, encodeHeaders] at hrest
      simp only [List.append_assoc, List.cons_append] at hrest
      exact first_mark ':' '\\' (by decide) name "foo".toList _ _ hb (by decide) hrest.symm
  · intro h
    obtain ⟨htext, -⟩ :=
      SpecEnvelope_command "x\",\"y".toList "\\n\\u0000\"]".toList (by decide) h
    exact (htext '"' (by decide)).2.1 rfl

/-- C3 (amended): for every raw payload that is neither of the two sentinels and is not a text
that the pattern accepts (`PatternEnvelope`), `ParseSockJSMessage` returns an error and no frame,
and the message of that error ends with the raw payload text. -/
theorem C3_deviation_is_error_with_payload (unmarshal : Str → Except GoError JSONMap)
    (data : Str) (h1 : data ≠ "o".toList) (h2 : data ≠ "a[\"\\n\"]".toList)
    (hg : ¬ PatternEnvelope data) :
    ParseSockJSMessage unmarshal data =
      .ok (none, some ⟨"failed to parse SockJS message: ".toList ++ data⟩) := by
  have hlen : (sockJSRegex.FindStringSubmatch data).length = 0 := by
    by_contra hne
    obtain ⟨pre, command, pairs, body, e, hpre, hc1, hc2, hall, hb, _⟩ :=
      FindStringSubmatch_sound data hne
    exact hg ⟨pre, command, pairs, body, e, hpre, hc1, hc2, hall, hb⟩
  rw [ParseSockJSMessage, if_neg h1, if_neg h2]
  simp only [hlen, if_true, Errorf]

theorem PatternEnvelope_suffix (data : Str) (h : PatternEnvelope data) :
    "\\u0000\"]".toList <:+ data := by
  obtain ⟨pre, command, pairs, body, rfl, _⟩ := h
  exact ⟨_, rfl⟩

/-- Witness for C3: an envelope that lacks the escaped NUL terminator. -/
theorem C3_deviation_is_error_with_payload_witness :
    "a[\"MESSAGE\\n\\n\"]".toList ≠ "o".toList ∧
    "a[\"MESSAGE\\n\\n\"]".toList ≠ "a[\"\\n\"]".toList ∧
    ¬ PatternEnvelope "a[\"MESSAGE\\n\\n\"]".toList ∧
    ParseSockJSMessage decodeNothing "a[\"MESSAGE\\n\\n\"]".toList =
      .ok (none, some ⟨"failed to parse SockJS message: ".toList ++
        "a[\"MESSAGE\\n\\n\"]".toList⟩) :=
  ⟨by decide, by decide, fun h => absurd (PatternEnvelope_suffix _ h) (by decide),
    C3_deviation_is_error_with_payload decodeNothing "a[\"MESSAGE\\n\\n\"]".toList
      (by decide) (by decide) (fun h => absurd (PatternEnvelope_suffix _ h) (by decide))⟩

set_option maxRecDepth 100000 in
/-- C4, counterexample: in the envelope with command `MESSAGE` and the single header line
`foo:bar:baz`, whose value `bar:baz` contains a colon, the returned frame has no header at all:
the line has become part of the command. -/
theorem C4_counterexample :
    ParseSockJSMessage decodeNothing "a[\"MESSAGE\\nfoo:bar:baz\\n\\n\\u0000\"]".toList =
      .ok (some ⟨"MESSAGE\\nfoo:bar:baz".toList, [], none⟩, none) ∧
    Headers.get [] "foo".toList = none :=
  ⟨rfl, rfl⟩

/-- C4, amended: for every envelope whose command has no backslash, whose header block consists
of lines `name:value` with name and value non-empty text over the header alphabet (so that a
value contains no colon), and whose body is empty or decodes, `ParseSockJSMessage` returns a
frame in which each header name maps to the whole text after the colon of its line (when a name
repeats, all its lines being required to carry that value). -/
theorem C4_header_value_after_colon (unmarshal : Str → Except GoError JSONMap)
    (pre command : Str) (pairs : List (Str × Str)) (body name value : Str)
    (hpre : pre = [] ∨ pre = ['a'])
    (hne : command ≠ []) (hcmd : ∀ d ∈ command, d ≠ '\n' ∧ d ≠ '\\')
    (hall : ∀ pr ∈ pairs, pr.1 ≠ [] ∧ headerText pr.1 ∧ pr.2 ≠ [] ∧ headerText pr.2)
    (hbody : noNewline body)
    (hdec : body = [] ∨ ∃ m, unmarshal (ReplaceAll body "\\\"".toList "\"".toList) = .ok m)
    (hmem : (name, value) ∈ pairs) (hsame : ∀ pr ∈ pairs, pr.1 = name → pr.2 = value) :
    ∃ msg, ParseSockJSMessage unmarshal (envelope pre command pairs body) = .ok (some msg, none) ∧
      msg.Command = command ∧ msg.Headers.get name = some value := by
  have hsub := FindStringSubmatch_envelope pre command pairs body hpre hne hcmd hall hbody
  have hsent := envelope_ne_sentinel pre command pairs body
  rw [ParseSockJSMessage_matched unmarshal _ _ _ _ hsent.1 hsent.2 hsub hall]
  by_cases hb : body = []
  · rw [if_neg (by simp [hb])]
    exact ⟨_, rfl, rfl, Headers.get_ofPairs pairs name value hmem hsame⟩
  · rcases hdec with hdec | ⟨m, hm⟩
    · exact absurd hdec hb
    · rw [if_pos hb, hm]
      exact ⟨_, rfl, rfl, Headers.get_ofPairs pairs name value hmem hsame⟩

/-- Witness for C4, amended: a MESSAGE envelope with a destination header and no body. -/
theorem C4_header_value_after_colon_witness :
    ∃ msg, ParseSockJSMessage decodeNothing
        (envelope ['a'] "MESSAGE".toList
          [("destination".toList, "/user/topic/newResults".toList)] []) = .ok (some msg, none) ∧
      msg.Command = "MESSAGE".toList ∧
      msg.Headers.get "destination".toList = some "/user/topic/newResults".toList :=
  C4_header_value_after_colon decodeNothing ['a'] "MESSAGE".toList
    [("destination".toList, "/user/topic/newResults".toList)] []
    "destination".toList "/user/topic/newResults".toList
    (Or.inr rfl) (by decide) (by decide) (by decide) (by decide) (Or.inl rfl) (by decide)
    (by decide)

/-! ## The claims about the session -/

/-- C5, the failing input: when the handshake reply is one of the two payloads that decode to no
frame, `handleConnect` does not return an error: it dereferences the nil message and panics. -/
theorem C5_handleConnect_panics_on_no_frame (unmarshal : Str → Except GoError JSONMap)
    (first : ReadResult) :
    handleConnect unmarshal first ⟨TextMessage, "o".toList, none⟩ =
      .panic "invalid memory address or nil pointer dereference" ∧
    handleConnect unmarshal first ⟨TextMessage, "a[\"\\n\"]".toList, none⟩ =
      .panic "invalid memory address or nil pointer dereference" :=
  ⟨rfl, rfl⟩

theorem handleConnect_of_frame (unmarshal : Str → Except GoError JSONMap)
    (first reply : ReadResult) (msg : SockJSMessage) (sessionID heartbeat : Str)
    (hr : reply.err = none) (ht : reply.messageType = TextMessage)
    (hp : ParseSockJSMessage unmarshal reply.data = .ok (some msg, none))
    (hs : msg.Headers.get "session".toList = some sessionID)
    (hh : msg.Headers.get "heart-beat".toList = some heartbeat) :
    handleConnect unmarshal first reply =
      if (Split heartbeat ",".toList).length ≠ 2 then
        .ok (.fail ⟨"invalid heartbeat format".toList⟩)
      else
        (index (Split heartbeat ",".toList) 0).bind fun part =>
        match (Atoi part).2 with
        | some err => .ok (.fail err)
        | none => .ok ⟨sessionID, none, some (Atoi part).1⟩ := by
  simp only [handleConnect, hr, ht, hp, Outcome.bind, hs, hh, ne_eq, not_true_eq_false,
    if_false]

set_option maxRecDepth 100000 in
/-- C6, counterexample: the reply carries `session:s1` and `heart-beat:10000,x`. The second part
`x` is not an integer, and yet `handleConnect` succeeds, with cadence 10000. -/
theorem C6_counterexample :
    handleConnect decodeNothing openRead
        ⟨TextMessage, "a[\"CONNECTED\\nsession:s1\\nheart-beat:10000,x\\n\\n\\u0000\"]".toList,
          none⟩ =
      .ok ⟨"s1".toList, none, some 10000⟩ ∧
    (Atoi "x".toList).2 ≠ none :=
  ⟨rfl, by decide⟩

/-- C6, amended: for every handshake reply that decodes to a frame carrying both headers,
`handleConnect` succeeds exactly when the `heart-beat` value has exactly one comma and the part
before it is an integer as `strconv.Atoi` reads it; the ping cadence is then that first
interval, and the part after the comma is not examined. A value whose first part is not an
integer yields the error of `Atoi`, and a value with no comma or with several yields the error
`invalid heartbeat format`. -/
theorem C6_heartbeat_first_interval (unmarshal : Str → Except GoError JSONMap)
    (first reply : ReadResult) (msg : SockJSMessage) (sessionID heartbeat : Str)
    (hr : reply.err = none) (ht : reply.messageType = TextMessage)
    (hp : ParseSockJSMessage unmarshal reply.data = .ok (some msg, none))
    (hs : msg.Headers.get "session".toList = some sessionID)
    (hh : msg.Headers.get "heart-beat".toList = some heartbeat) :
    (∀ a b : Str, heartbeat = a ++ ',' :: b → ',' ∉ a → ',' ∉ b →
      ((Atoi a).2 = none →
        handleConnect unmarshal first reply = .ok ⟨sessionID, none, some (Atoi a).1⟩) ∧
      (∀ e, (Atoi a).2 = some e → handleConnect unmarshal first reply = .ok (.fail e))) ∧
    (heartbeat.count ',' ≠ 1 →
      handleConnect unmarshal first reply = .ok (.fail ⟨"invalid heartbeat format".toList⟩)) := by
  have hc : ",".toList = [','] := rfl
  rw [handleConnect_of_frame unmarshal first reply msg sessionID heartbeat hr ht hp hs hh, hc]
  constructor
  · intro a b hab ha hb
    rw [hab, Split_pair ',' a b ha hb]
    constructor
    · intro hok
      simp [index_zero, Outcome.bind, hok]
    · intro e he
      simp [index_zero, Outcome.bind, he]
  · intro hcount
    rw [if_pos (by rw [Split_length]; omega)]

set_option maxRecDepth 100000 in
/-- Witness for C6, amended: the reply with `session:s1` and `heart-beat:10000,x`. -/
theorem C6_heartbeat_first_interval_witness :
    handleConnect decodeNothing openRead
        ⟨TextMessage, "a[\"CONNECTED\\nsession:s1\\nheart-beat:10000,x\\n\\n\\u0000\"]".toList,
          none⟩ =
      .ok ⟨"s1".toList, none, some (Atoi "10000".toList).1⟩ :=
  ((C6_heartbeat_first_interval decodeNothing openRead
      ⟨TextMessage, "a[\"CONNECTED\\nsession:s1\\nheart-beat:10000,x\\n\\n\\u0000\"]".toList,
        none⟩
      ⟨"CONNECTED".toList,
        [("session".toList, "s1".toList), ("heart-beat".toList, "10000,x".toList)], none⟩
      "s1".toList "10000,x".toList rfl rfl rfl rfl rfl).1
    "10000".toList "x".toList rfl (by decide) (by decide)).1 (by decide)

theorem subscribeAll_get (calls : List (Str × Option GoError)) :
    ∀ (c : SockJSClient) (m k : Nat), c.msgCounter = (m : Int) → 1 ≤ k → k ≤ calls.length →
      m + k < 2 ^ 63 →
      ∃ call, calls.get? (k - 1) = some call ∧
        (subscribeAll c calls).get? (k - 1) =
          some (subscribeFrame (subscriptionID c.sessionID ((m + k : Nat) : Int)) call.1) := by
  induction calls with
  | nil =>
    intro c m k _ h1 h2 _
    simp at h2
    omega
  | cons call calls ih =>
    intro c m k hm h1 h2 h3
    obtain ⟨destination, writeErr⟩ := call
    have hw : wrapInt64 (c.msgCounter + 1) = ((m + 1 : Nat) : Int) := by
      rw [hm, wrapInt64_of_range] <;> push_cast <;> omega
    by_cases hk : k = 1
    · subst hk
      refine ⟨(destination, writeErr), rfl, ?_⟩
      simp only [subscribeAll, SockJSClient.Subscribe, Nat.sub_self, List.get?_cons_zero, hw]
    · obtain ⟨call, hc1, hc2⟩ := ih (c.Subscribe destination writeErr).1 (m + 1) (k - 1)
        (by simp only [SockJSClient.Subscribe]; exact hw) (by omega)
        (by simp only [List.length_cons] at h2; omega) (by omega)
      have hk' : k - 1 = (k - 1 - 1) + 1 := by omega
      refine ⟨call, ?_, ?_⟩
      · rw [hk', List.get?_cons_succ]
        exact hc1
      · rw [subscribeAll, hk', List.get?_cons_succ, hc2]
        have : m + 1 + (k - 1) = m + k := by omega
        simp only [SockJSClient.Subscribe, this]

/-- C7: on a session with id `s` whose counter is at its initial value 0, the `k`-th of a
sequence of `Subscribe` calls (for `k` from 1 up to the range of the 64-bit counter) writes the
SUBSCRIBE frame with id `s-k`, whatever the destinations are and whatever the writes answer; and
ids formed from different counter values differ. The text written is given character by
character: the opening of the frame, `id:`, the session id, a dash, the decimal digits of `k`,
`destination:` with the destination, and the terminator. -/
theorem C7_subscription_ids (c : SockJSClient) (calls : List (Str × Option GoError)) (k : Nat)
    (h0 : c.msgCounter = 0) (h1 : 1 ≤ k) (h2 : k ≤ calls.length) (h3 : k < 2 ^ 63) :
    (∃ call, calls.get? (k - 1) = some call ∧
      (subscribeAll c calls).get? (k - 1) =
        some (subscribeFrame (c.sessionID ++ "-".toList ++ formatInt (k : Int)) call.1)) ∧
    (∀ i j : Int, subscriptionID c.sessionID i = subscriptionID c.sessionID j → i = j) ∧
    (∃ call digits, calls.get? (k - 1) = some call ∧
      (subscribeAll c calls).get? (k - 1) =
        some ("[\"SUBSCRIBE\\nid:".toList ++ c.sessionID ++ '-' :: digits ++
          "\\ndestination:".toList ++ call.1 ++ "\\n\\n\\u0000\"]".toList) ∧
      digits ≠ [] ∧ (∀ ch ∈ digits, isDigit ch = true) ∧ digitsValue digits = k) := by
  obtain ⟨call, hc1, hc2⟩ := subscribeAll_get calls c 0 k (by simpa using h0) h1 h2 (by omega)
  refine ⟨⟨call, hc1, ?_⟩, subscriptionID_injective c.sessionID, call, formatNat k, hc1, ?_, ?_,
    ?_, digitsValue_formatNat k⟩
  · rw [hc2]
    simp [subscriptionID]
  · rw [hc2]
    have hk : formatInt ((0 + k : Nat) : Int) = formatNat k := by
      rw [formatInt, if_neg (by omega)]
      simp
    simp only [subscribeFrame, subscriptionID, hk]
    simp
  · intro hnil
    have := digitsValue_formatNat k
    rw [hnil] at this
    simp [digitsValue] at this
    omega
  · intro ch hch
    obtain ⟨d, hd, rfl⟩ := formatNatGo_chars (k + 1) k ch hch
    interval_cases d <;> rfl

/-- Witness for C7: the second of two calls on a fresh session `abc`, the first of which fails
to write. -/
theorem C7_subscription_ids_witness :
    (∃ call, [("/user/topic/newSubmissions".toList, some (GoError.mk "write failed".toList)),
          ("/user/topic/newResults".toList, none)].get? (2 - 1) = some call ∧
      (subscribeAll (SockJSClient.fresh "abc".toList)
          [("/user/topic/newSubmissions".toList, some (GoError.mk "write failed".toList)),
           ("/user/topic/newResults".toList, none)]).get? (2 - 1) =
        some (subscribeFrame ((SockJSClient.fresh "abc".toList).sessionID ++ "-".toList ++
          formatInt ((2 : Nat) : Int)) call.1)) ∧
    (∀ i j : Int, subscriptionID (SockJSClient.fresh "abc".toList).sessionID i =
      subscriptionID (SockJSClient.fresh "abc".toList).sessionID j → i = j) ∧
    (∃ call digits,
      [("/user/topic/newSubmissions".toList, some (GoError.mk "write failed".toList)),
          ("/user/topic/newResults".toList, none)].get? (2 - 1) = some call ∧
      (subscribeAll (SockJSClient.fresh "abc".toList)
          [("/user/topic/newSubmissions".toList, some (GoError.mk "write failed".toList)),
           ("/user/topic/newResults".toList, none)]).get? (2 - 1) =
        some ("[\"SUBSCRIBE\\nid:".toList ++ (SockJSClient.fresh "abc".toList).sessionID ++
          '-' :: digits ++ "\\ndestination:".toList ++ call.1 ++
          "\\n\\n\\u0000\"]".toList) ∧
      digits ≠ [] ∧ (∀ ch ∈ digits, isDigit ch = true) ∧ digitsValue digits = 2) :=
  C7_subscription_ids (SockJSClient.fresh "abc".toList)
    [("/user/topic/newSubmissions".toList, some (GoError.mk "write failed".toList)),
     ("/user/topic/newResults".toList, none)] 2 rfl (by decide) (by decide) (by decide)

/-- C8, the failing input: on every open session the first `Close` succeeds and closes the
socket and the three channels, but leaves `isClosed` unset; a second `Close` therefore does not
return early and panics on closing the done channel again. -/
theorem C8_second_Close_panics (counter : Int) (sessionID : Str) :
    SockJSClient.Close ⟨false, counter, sessionID, false, false, false, false⟩ =
      .ok ⟨true, counter, sessionID, true, true, true, false⟩ ∧
    SockJSClient.Close ⟨true, counter, sessionID, true, true, true, false⟩ =
      .panic "close of closed channel" :=
  ⟨rfl, rfl⟩

/-- What holds of the rest of C5: on a text reply, a decode error is returned as the error of
`handleConnect`; a frame that lacks the `session` or the `heart-beat` header gives an error; and a
session id that is returned without error is non-empty. -/
theorem handleConnect_errors_and_session (unmarshal : Str → Except GoError JSONMap)
    (first reply : ReadResult) (hr : reply.err = none) (ht : reply.messageType = TextMessage) :
    (∀ e, ParseSockJSMessage unmarshal reply.data = .ok (none, some e) →
      handleConnect unmarshal first reply = .ok (.fail e)) ∧
    (∀ msg, ParseSockJSMessage unmarshal reply.data = .ok (some msg, none) →
      msg.Headers.get "session".toList = none ∨ msg.Headers.get "heart-beat".toList = none →
      ∃ e, handleConnect unmarshal first reply = .ok (.fail e)) ∧
    (∀ sessionID interval,
      handleConnect unmarshal first reply = .ok ⟨sessionID, none, interval⟩ → sessionID ≠ []) := by
  refine ⟨?_, ?_, ?_⟩
  · intro e hp
    simp only [handleConnect, hr, ht, hp, Outcome.bind, ne_eq, not_true_eq_false, if_false]
  · intro msg hp hmiss
    cases hs : msg.Headers.get "session".toList with
    | none =>
      exact ⟨⟨"session ID not found in CONNECT message".toList⟩, by
        simp only [handleConnect, hr, ht, hp, Outcome.bind, hs, ne_eq, not_true_eq_false,
          if_false]⟩
    | some sid =>
      rcases hmiss with hmiss | hmiss
      · rw [hs] at hmiss
        exact absurd hmiss (by simp)
      · exact ⟨⟨"heartbeat not found in CONNECT message".toList⟩, by
          simp only [handleConnect, hr, ht, hp, Outcome.bind, hs, hmiss, ne_eq,
            not_true_eq_false, if_false]⟩
  · intro sessionID interval h
    rcases ParseSockJSMessage_cases unmarshal reply.data with
      ⟨_, hp⟩ | ⟨_, hp⟩ | ⟨_, _, _, _, hp⟩ | ⟨_, command, pairs, body, hall, hp⟩
    · simp only [handleConnect, hr, ht, hp, Outcome.bind, ne_eq, not_true_eq_false,
        if_false] at h
      exact absurd h (by simp)
    · simp only [handleConnect, hr, ht, hp, Outcome.bind, ne_eq, not_true_eq_false,
        if_false, ConnectResult.fail] at h
      injection h with h
      injection h with _ h _
      exact absurd h (by simp)
    · simp only [handleConnect, hr, ht, hp, Outcome.bind, ne_eq, not_true_eq_false,
        if_false, ConnectResult.fail] at h
      injection h with h
      injection h with _ h _
      exact absurd h (by simp)
    · cases hs : Headers.get (Headers.ofPairs pairs) "session".toList with
      | none =>
        simp only [handleConnect, hr, ht, hp, Outcome.bind, hs, ne_eq, not_true_eq_false,
          if_false, ConnectResult.fail] at h
        injection h with h
        injection h with _ h _
        exact absurd h (by simp)
      | some sid =>
        have hsid := (hall _ (Headers.get_ofPairs_mem pairs _ sid hs)).2.2.1
        cases hh : Headers.get (Headers.ofPairs pairs) "heart-beat".toList with
        | none =>
          simp only [handleConnect, hr, ht, hp, Outcome.bind, hs, hh, ne_eq, not_true_eq_false,
            if_false, ConnectResult.fail] at h
          injection h with h
          injection h with _ h _
          exact absurd h (by simp)
        | some hb =>
          rw [handleConnect_of_frame unmarshal first reply _ sid hb hr ht hp hs hh] at h
          by_cases hl : (Split hb ",".toList).length ≠ 2
          · rw [if_pos hl] at h
            injection h with h
            injection h with _ h _
            exact absurd h (by simp)
          · rw [if_neg hl] at h
            cases hi : index (Split hb ",".toList) 0 with
            | panic w =>
              rw [hi] at h
              simp [Outcome.bind] at h
            | ok part =>
              rw [hi] at h
              simp only [Outcome.bind] at h
              cases ha : (Atoi part).2 with
              | some err =>
                rw [ha] at h
                injection h with h
                injection h with _ h _
                exact absurd h (by simp)
              | none =>
                rw [ha] at h
                injection h with h
                injection h with h _ _
                rw [← h]
                exact hsid

/-! ## The claims about the retrigger controller -/

theorem getD_eq_iff (o : Option Str) (t : Str) (ht : t ≠ []) : o.getD [] = t ↔ o = some t := by
  cases o with
  | none => simp [Ne.symm ht]
  | some v => simp

theorem handleWSMessage_submission (overflow : ℚ → Int) (g : Globals) (client : ArtemisClient)
    (task : Task) (msg : SockJSMessage) (hmsg : isSubmissionNotification msg) :
    handleWSMessage overflow g client task (some msg) =
      .ok ⟨⟨true, g.isExiting⟩, client, none, g.expectingResult⟩ := by
  obtain ⟨hc, hd⟩ := hmsg
  obtain ⟨e, x⟩ := g
  cases e <;>
    simp only [handleWSMessage, hc, hd, ne_eq, not_true_eq_false, if_false, Option.getD_some,
      if_true, Bool.false_eq_true]

/-- A frame that is not a result notification leaves `isExiting` and the client as they are and
does not clear `expectingResult`. -/
theorem handleWSMessage_not_result (overflow : ℚ → Int) (g : Globals) (client : ArtemisClient)
    (task : Task) (msg : SockJSMessage) (hmsg : ¬ isResultNotification msg)
    (he : g.expectingResult = true) :
    ∃ retrigger, handleWSMessage overflow g client task (some msg) =
      .ok ⟨g, client, none, retrigger⟩ := by
  unfold handleWSMessage
  by_cases hc : msg.Command = "MESSAGE".toList
  · by_cases hs : (msg.Headers.get "destination".toList).getD [] =
        "/user/topic/newSubmissions".toList
    · exact ⟨true, by simp only [hc, hs, he, ne_eq, not_true_eq_false, if_false, if_true]⟩
    · by_cases hr : (msg.Headers.get "destination".toList).getD [] =
          "/user/topic/newResults".toList
      · exact absurd ⟨hc, (getD_eq_iff _ _ (by decide)).mp hr⟩ hmsg
      · exact ⟨false, by simp only [hc, hs, hr, ne_eq, not_true_eq_false, if_false]⟩
  · exact ⟨false, by simp only [hc, ne_eq, not_false_eq_true, if_true]⟩

theorem handleFrames_not_result (overflow : ℚ → Int) (task : Task) (client : ArtemisClient)
    (between : List SockJSMessage) (hb : ∀ m ∈ between, ¬ isResultNotification m) :
    ∀ g : Globals, g.expectingResult = true →
      handleFrames overflow task g client between = .ok (g, client) := by
  induction between with
  | nil =>
    intro g _
    rfl
  | cons m between ih =>
    intro g he
    obtain ⟨retrigger, hm⟩ :=
      handleWSMessage_not_result overflow g client task m (hb m (List.mem_cons_self _ _)) he
    rw [handleFrames, hm]
    exact ih (fun q hq => hb q (List.mem_cons_of_mem _ hq)) g he

/-- C9: for every MESSAGE frame whose destination is the submission topic, `handleWSMessage`
requests a retrigger and leaves `expectingResult` true when `expectingResult` is true, and sets
`expectingResult` to true and requests no retrigger when it is false; either way `isExiting` and
the client are unchanged and no error is returned. Consequently, after a submission notification,
a second one requests a retrigger, whatever frames other than result notifications are handled
between the two. -/
theorem C9_submission_notification (overflow : ℚ → Int) (g : Globals) (client : ArtemisClient)
    (task : Task) (msg : SockJSMessage) (hmsg : isSubmissionNotification msg) :
    (g.expectingResult = true →
      handleWSMessage overflow g client task (some msg) = .ok ⟨g, client, none, true⟩) ∧
    (g.expectingResult = false →
      handleWSMessage overflow g client task (some msg) =
        .ok ⟨{ g with expectingResult := true }, client, none, false⟩) ∧
    (∀ (between : List SockJSMessage) (second : SockJSMessage),
      (∀ m ∈ between, ¬ isResultNotification m) → isSubmissionNotification second →
      ∃ h g' client', handleWSMessage overflow g client task (some msg) = .ok h ∧
        handleFrames overflow task h.globals h.client between = .ok (g', client') ∧
        handleWSMessage overflow g' client' task (some second) =
          .ok ⟨g', client', none, true⟩) := by
  have hfirst := handleWSMessage_submission overflow g client task msg hmsg
  refine ⟨?_, ?_, ?_⟩
  · intro he
    rw [hfirst]
    obtain ⟨e, x⟩ := g
    simp only at he
    subst he
    rfl
  · intro he
    rw [hfirst]
    obtain ⟨e, x⟩ := g
    simp only at he
    subst he
    rfl
  · intro between second hb hsecond
    refine ⟨_, ⟨true, g.isExiting⟩, client, hfirst, ?_, ?_⟩
    · exact handleFrames_not_result overflow task client between hb ⟨true, g.isExiting⟩ rfl
    · rw [handleWSMessage_submission overflow _ client task second hsecond]

/-- Witness for C9: a submission notification arriving while `expectingResult` is false. -/
theorem C9_submission_notification_witness :
    handleWSMessage (fun _ => 0) ⟨false, false⟩ ⟨SockJSClient.fresh "abc".toList⟩
        ⟨"1".toList, "2".toList, 0, 100⟩
        (some ⟨"MESSAGE".toList,
          [("destination".toList, "/user/topic/newSubmissions".toList)], none⟩) =
      .ok ⟨⟨true, false⟩, ⟨SockJSClient.fresh "abc".toList⟩, none, false⟩ :=
  (C9_submission_notification (fun _ => 0) ⟨false, false⟩ ⟨SockJSClient.fresh "abc".toList⟩
    ⟨"1".toList, "2".toList, 0, 100⟩
    ⟨"MESSAGE".toList, [("destination".toList, "/user/topic/newSubmissions".toList)], none⟩
    ⟨rfl, rfl⟩).2.1 rfl

theorem Close_of_isOpen (c : SockJSClient) (h : c.isOpen) : c.Close = .ok c.closed := by
  obtain ⟨h1, _, h3, h4, h5⟩ := h
  simp [SockJSClient.Close, closeChan, Outcome.bind, h1, h3, h4, h5, SockJSClient.closed]

/-- C10: for every MESSAGE frame on the result topic whose body has a numeric score `s`, and
every desired percentage `d`, with `p` the score truncated toward zero (within the range of
`int`, outside of which Go leaves the conversion to the implementation): if `p >= d`,
`handleWSMessage` sets `isExiting`, closes the open session and requests no retrigger; if
`p < d`, it clears `expectingResult`, requests a retrigger, and leaves `isExiting` and the
session as they are. -/
theorem C10_result_notification (overflow : ℚ → Int) (g : Globals) (client : ArtemisClient)
    (task : Task) (msg : SockJSMessage) (body : JSONMap) (s : ℚ)
    (hmsg : isResultNotification msg) (hb : msg.Body = some body)
    (hs : body.get "score".toList = some (.number s))
    (hlo : -(2 ^ 63) ≤ truncate s) (hhi : truncate s < 2 ^ 63) :
    (task.DesiredPercentage ≤ truncate s → client.WS.isOpen →
      handleWSMessage overflow g client task (some msg) =
        .ok ⟨{ g with isExiting := true }, ⟨client.WS.closed⟩, none, false⟩) ∧
    (truncate s < task.DesiredPercentage →
      handleWSMessage overflow g client task (some msg) =
        .ok ⟨{ g with expectingResult := false }, client, none, true⟩) := by
  obtain ⟨hc, hd⟩ := hmsg
  have hconv : floatToInt overflow s = truncate s := by
    rw [floatToInt, if_pos ⟨hlo, hhi⟩]
  have hne : ¬ ("/user/topic/newResults".toList = "/user/topic/newSubmissions".toList) := by
    decide
  constructor
  · intro hge hopen
    simp only [handleWSMessage, hc, hd, hb, hs, hconv, ne_eq, not_true_eq_false, if_false,
      Option.getD_some, hne, if_true, ge_iff_le, hge, ArtemisClient.Close,
      Close_of_isOpen _ hopen, Outcome.bind]
  · intro hlt
    simp only [handleWSMessage, hc, hd, hb, hs, hconv, ne_eq, not_true_eq_false, if_false,
      Option.getD_some, hne, if_true, ge_iff_le, not_le.mpr hlt]

/-- Witness for C10: a result with score 60 when 100 is desired. -/
theorem C10_result_notification_witness :
    handleWSMessage (fun _ => 0) ⟨true, false⟩ ⟨SockJSClient.fresh "abc".toList⟩
        ⟨"1".toList, "2".toList, 0, 100⟩
        (some ⟨"MESSAGE".toList, [("destination".toList, "/user/topic/newResults".toList)],
          some [("score".toList, .number 60)]⟩) =
      .ok ⟨⟨false, false⟩, ⟨SockJSClient.fresh "abc".toList⟩, none, true⟩ :=
  (C10_result_notification (fun _ => 0) ⟨true, false⟩ ⟨SockJSClient.fresh "abc".toList⟩
    ⟨"1".toList, "2".toList, 0, 100⟩
    ⟨"MESSAGE".toList, [("destination".toList, "/user/topic/newResults".toList)],
      some [("score".toList, .number 60)]⟩
    [("score".toList, .number 60)] 60 ⟨rfl, rfl⟩ rfl rfl (by decide) (by decide)).2 (by decide)

/-! ## The attempt loop -/

/-- For a desired percentage of at least 1, a score is below it exactly when its truncation is. -/
theorem truncate_lt_iff (s : ℚ) (d : Int) (hd : 1 ≤ d) : truncate s < d ↔ s < (d : ℚ) := by
  have hden : (0 : Int) < s.den := by exact_mod_cast s.den_pos
  have key : s < (d : ℚ) ↔ s.num < d * s.den := by
    rw [Rat.lt_def]
    simp
  rw [key, truncate]
  by_cases hneg : s.num < 0
  · have h1 : Int.tdiv s.num s.den ≤ 0 := by
      have h3 : 0 ≤ Int.tdiv (-s.num) s.den := Int.tdiv_nonneg (by omega) (le_of_lt hden)
      rw [Int.neg_tdiv] at h3
      omega
    have h2 : 0 < d * s.den := by positivity
    constructor
    · intro _; omega
    · intro _; omega
  · have h0 : 0 ≤ s.num := not_lt.mp hneg
    rw [Int.tdiv_eq_ediv h0 (le_of_lt hden)]
    exact Int.ediv_lt_iff_lt_mul hden

/-- A result below the desired percentage clears `expectingResult` and asks for a retrigger. -/
theorem handleWSMessage_failing (overflow : ℚ → Int) (g : Globals) (client : ArtemisClient)
    (task : Task) (msg : SockJSMessage)
    (h : isFailingResult overflow task.DesiredPercentage msg) :
    handleWSMessage overflow g client task (some msg) =
      .ok ⟨{ g with expectingResult := false }, client, none, true⟩ := by
  obtain ⟨s, ⟨⟨hc, hd⟩, body, hb, hs⟩, hlt⟩ := h
  have hne : ¬ ("/user/topic/newResults".toList = "/user/topic/newSubmissions".toList) := by
    decide
  simp only [handleWSMessage, hc, hd, hb, hs, ne_eq, not_true_eq_false, if_false,
    Option.getD_some, hne, if_true, ge_iff_le, not_le.mpr hlt]

/-- A result at or above the desired percentage sets `isExiting` and closes the open session. -/
theorem handleWSMessage_passing (overflow : ℚ → Int) (g : Globals) (client : ArtemisClient)
    (task : Task) (msg : SockJSMessage)
    (h : isPassingResult overflow task.DesiredPercentage msg) (hopen : client.WS.isOpen) :
    handleWSMessage overflow g client task (some msg) =
      .ok ⟨{ g with isExiting := true }, ⟨client.WS.closed⟩, none, false⟩ := by
  obtain ⟨s, ⟨⟨hc, hd⟩, body, hb, hs⟩, hge⟩ := h
  have hne : ¬ ("/user/topic/newResults".toList = "/user/topic/newSubmissions".toList) := by
    decide
  simp only [handleWSMessage, hc, hd, hb, hs, ne_eq, not_true_eq_false, if_false,
    Option.getD_some, hne, if_true, ge_iff_le, hge, ArtemisClient.Close,
    Close_of_isOpen _ hopen, Outcome.bind]

/-- A round that receives from the closed message channel, or from the closed error channel,
ends the goroutine with a nil dereference: after `Close` these two cases of the `select` are
ready as well as the closure signal. -/
theorem loopEvents_closed_channel (overflow : ℚ → Int) (task : Task) (st : LoopState)
    (rest : List Event) :
    loopEvents overflow task st (Event.message none :: rest) =
      .panic "invalid memory address or nil pointer dereference" ∧
    loopEvents overflow task st (Event.error none :: rest) =
      .panic "invalid memory address or nil pointer dereference" :=
  ⟨rfl, rfl⟩

/-- The rounds of an attempt that receives result notifications one per retrigger, all failing
but the last: the timer is armed at the start and again by each failing result only, so that the
rounds below are the ones the `select` can take while the session is open; they perform one
retrigger for the first timer and one for each failing result, and they leave the session
closed with `isExiting` set. -/
theorem loopSelect_results (overflow : ℚ → Int) (task : Task) (client : ArtemisClient)
    (passing : SockJSMessage) (hopen : client.WS.isOpen)
    (hpass : isPassingResult overflow task.DesiredPercentage passing) :
    ∀ (failing : List SockJSMessage) (g : Globals) (retriggers resets : Nat),
      (∀ m ∈ failing, isFailingResult overflow task.DesiredPercentage m) →
      ∃ g', loopSelect overflow task false ⟨g, client, retriggers, resets⟩
          (failing.flatMap (fun m => [Event.message (some m), Event.timer none]) ++
            [Event.message (some passing)]) =
        some (.selecting ⟨g', ⟨client.WS.closed⟩, retriggers + failing.length,
          resets + failing.length⟩) ∧ g'.isExiting = true := by
  have hmsg : client.WS.msgChanClosed = false := hopen.2.2.2.1
  intro failing
  induction failing with
  | nil =>
    intro g retriggers resets _
    refine ⟨{ g with isExiting := true }, ?_, rfl⟩
    simp only [List.flatMap_nil, List.nil_append, loopSelect, Event.ready, hmsg, Bool.not_false,
      if_true, loopEvents, handleWSMessage_passing overflow g client task passing hpass hopen,
      Bool.false_eq_true, if_false, Nat.add_zero, List.length_nil]
  | cons msg rest ih =>
    intro g retriggers resets hfail
    have hm := hfail msg (List.mem_cons_self _ _)
    obtain ⟨g', hrun, hex⟩ := ih { g with expectingResult := false } (retriggers + 1)
      (resets + 1) (fun m hx => hfail m (List.mem_cons_of_mem _ hx))
    refine ⟨g', ?_, hex⟩
    have hlt : decide (resets < resets + 1) = true := by simp
    have hl : (msg :: rest).flatMap (fun m => [Event.message (some m), Event.timer none]) ++
          [Event.message (some passing)] =
        Event.message (some msg) :: Event.timer none ::
          (rest.flatMap (fun m => [Event.message (some m), Event.timer none]) ++
            [Event.message (some passing)]) := by
      simp only [List.flatMap_cons, List.cons_append, List.nil_append, List.append_assoc]
    rw [hl]
    generalize rest.flatMap (fun m => [Event.message (some m), Event.timer none]) ++
      [Event.message (some passing)] = tail at hrun
    simp only [loopSelect, Event.ready, hmsg, Bool.not_false, if_true, loopEvents,
      handleWSMessage_failing overflow g client task msg hm, Bool.false_or, hlt]
    rw [hrun, List.length_cons]
    congr 3 <;> omega

set_option maxRecDepth 100000 in
/-- C12, the failing input: 80 is desired and the results 40, 55 and 80 arrive one per
retrigger on an open session. The rounds up to the last result perform exactly three retriggers
(a timer round is ready only after the start and after each failing result) and leave the
session closed with `isExiting` set. In the next round three cases of the `select` are ready:
on the closure signal `loop` returns false, but on the closed message channel and on the closed
error channel it receives nil and ends in a nil dereference instead of returning. -/
theorem C12_panics_after_last_result :
    loopSelect (fun _ => 0) ⟨"1".toList, "2".toList, 0, 80⟩ true
        ⟨Globals.initial, ⟨SockJSClient.fresh "abc".toList⟩, 0, 0⟩
        [.timer none, .message (some (resultNotification 40)), .timer none,
          .message (some (resultNotification 55)), .timer none,
          .message (some (resultNotification 80))] =
      some (.selecting ⟨⟨false, true⟩, ⟨(SockJSClient.fresh "abc".toList).closed⟩, 3, 2⟩) ∧
    loopSelect (fun _ => 0) ⟨"1".toList, "2".toList, 0, 80⟩ true
        ⟨Globals.initial, ⟨SockJSClient.fresh "abc".toList⟩, 0, 0⟩
        [.timer none, .message (some (resultNotification 40)), .timer none,
          .message (some (resultNotification 55)), .timer none,
          .message (some (resultNotification 80)), .message none] =
      some (.panic "invalid memory address or nil pointer dereference") ∧
    loopSelect (fun _ => 0) ⟨"1".toList, "2".toList, 0, 80⟩ true
        ⟨Globals.initial, ⟨SockJSClient.fresh "abc".toList⟩, 0, 0⟩
        [.timer none, .message (some (resultNotification 40)), .timer none,
          .message (some (resultNotification 55)), .timer none,
          .message (some (resultNotification 80)), .error none] =
      some (.panic "invalid memory address or nil pointer dereference") ∧
    loopSelect (fun _ => 0) ⟨"1".toList, "2".toList, 0, 80⟩ true
        ⟨Globals.initial, ⟨SockJSClient.fresh "abc".toList⟩, 0, 0⟩
        [.timer none, .message (some (resultNotification 40)), .timer none,
          .message (some (resultNotification 55)), .timer none,
          .message (some (resultNotification 80)), .done] =
      some (.returned false ⟨false, true⟩ 3) ∧
    loopSelect (fun _ => 0) ⟨"1".toList, "2".toList, 0, 80⟩ true
        ⟨Globals.initial, ⟨SockJSClient.fresh "abc".toList⟩, 0, 0⟩
        [.timer none, .timer none] = none ∧
    loopSelect (fun _ => 0) ⟨"1".toList, "2".toList, 0, 80⟩ true
        ⟨Globals.initial, ⟨SockJSClient.fresh "abc".toList⟩, 0, 0⟩
        [.timer none, .message (some (resultNotification 40)), .timer none,
          .message (some (resultNotification 55)), .timer none,
          .message (some (resultNotification 80)), .timer none] = none := by
  decide

/-! ## The flag `expectingResult` -/

/-- After one frame, `expectingResult` is true exactly when the frame is a submission
notification, or the flag was true and the frame is not a failing result. -/
theorem handleWSMessage_expectingResult (overflow : ℚ → Int) (g : Globals)
    (client : ArtemisClient) (task : Task) (m : SockJSMessage) (h : Handled)
    (hh : handleWSMessage overflow g client task (some m) = .ok h) :
    h.globals.expectingResult = true ↔
      isSubmissionNotification m ∨
        (¬ isFailingResult overflow task.DesiredPercentage m ∧ g.expectingResult = true) := by
  unfold handleWSMessage at hh
  simp only at hh
  by_cases hc : m.Command = "MESSAGE".toList
  · simp only [hc, ne_eq, not_true_eq_false, if_false] at hh
    by_cases hs : (m.Headers.get "destination".toList).getD [] =
        "/user/topic/newSubmissions".toList
    · have hsub : isSubmissionNotification m := ⟨hc, (getD_eq_iff _ _ (by decide)).mp hs⟩
      simp only [hs, if_true] at hh
      by_cases he : g.expectingResult = true
      · simp only [he, if_true, Outcome.ok.injEq] at hh
        rw [← hh]
        exact ⟨fun _ => Or.inl hsub, fun _ => he⟩
      · simp only [he, Bool.false_eq_true, if_false, Outcome.ok.injEq] at hh
        rw [← hh]
        exact ⟨fun _ => Or.inl hsub, fun _ => rfl⟩
    · have hnsub : ¬ isSubmissionNotification m := by
        intro hx
        apply hs
        rw [hx.2]
        rfl
      simp only [hs, if_false] at hh
      by_cases hr : (m.Headers.get "destination".toList).getD [] =
          "/user/topic/newResults".toList
      · simp only [hr, if_true] at hh
        have hdest := (getD_eq_iff _ _ (by decide)).mp hr
        cases hb : m.Body with
        | none =>
          rw [hb] at hh
          simp at hh
        | some body =>
          rw [hb] at hh
          simp only at hh
          cases hv : body.get "score".toList with
          | none =>
            rw [hv] at hh
            simp at hh
          | some v =>
            rw [hv] at hh
            cases v with
            | number f =>
              simp only at hh
              have hscore : ∀ s, hasScore m s → s = f := by
                intro s hx
                obtain ⟨_, body1, hb1, hs1⟩ := hx
                rw [hb] at hb1
                cases hb1
                rw [hv] at hs1
                cases hs1
                rfl
              by_cases hge : floatToInt overflow f ≥ task.DesiredPercentage
              · simp only [hge, if_true, ArtemisClient.Close] at hh
                have hnf : ¬ isFailingResult overflow task.DesiredPercentage m := by
                  intro hx
                  obtain ⟨s, hx1, hx2⟩ := hx
                  rw [hscore s hx1] at hx2
                  omega
                cases hcl : client.WS.Close with
                | panic why =>
                  rw [hcl] at hh
                  simp [Outcome.bind] at hh
                | ok closed =>
                  rw [hcl] at hh
                  simp only [Outcome.bind, Outcome.ok.injEq] at hh
                  rw [← hh]
                  constructor
                  · intro hx
                    exact Or.inr ⟨hnf, hx⟩
                  · intro hx
                    rcases hx with h1 | ⟨_, h2⟩
                    · exact absurd h1 hnsub
                    · exact h2
              · simp only [hge, if_false, Outcome.ok.injEq] at hh
                rw [← hh]
                constructor
                · intro hx
                  cases hx
                · intro hx
                  rcases hx with h1 | ⟨h2, _⟩
                  · exact absurd h1 hnsub
                  · exact absurd ⟨f, ⟨⟨hc, hdest⟩, body, hb, hv⟩, not_le.mp hge⟩ h2
            | null => simp at hh
            | bool b => simp at hh
            | string s => simp at hh
            | array xs => simp at hh
            | object kvs => simp at hh
      · simp only [hr, if_false, Outcome.ok.injEq] at hh
        rw [← hh]
        have hnf : ¬ isFailingResult overflow task.DesiredPercentage m := by
          intro hx
          obtain ⟨s, ⟨⟨_, hx1⟩, _⟩, _⟩ := hx
          apply hr
          rw [hx1]
          rfl
        constructor
        · intro hx
          exact Or.inr ⟨hnf, hx⟩
        · intro hx
          rcases hx with h1 | ⟨_, h2⟩
          · exact absurd h1 hnsub
          · exact h2
  · simp only [hc, ne_eq, not_false_eq_true, if_true, Outcome.ok.injEq] at hh
    rw [← hh]
    constructor
    · intro hx
      exact Or.inr ⟨fun hf => by
        obtain ⟨s, ⟨⟨hx1, _⟩, _⟩, _⟩ := hf
        exact hc hx1, hx⟩
    · intro hx
      rcases hx with h1 | ⟨_, h2⟩
      · exact absurd h1.1 hc
      · exact h2

/-- How `loop` begins: either it ends before its `select` loop with the package-level
variables untouched (it returns, or the construction of the client or of the task panics), or it
runs the rounds from a state that holds the package-level variables it was called with. -/
theorem loop_start (overflow : ℚ → Int) (unmarshal : Str → Except GoError JSONMap)
    (env : AttemptEnv) (g : Globals) (courseID taskID : Str) (desiredPercentage : Int) :
    (∃ shouldRunAgain, loop overflow unmarshal env g courseID taskID desiredPercentage =
      .returned shouldRunAgain g 0) ∨
    (∃ why, loop overflow unmarshal env g courseID taskID desiredPercentage = .panic why) ∨
    (∃ task client, loop overflow unmarshal env g courseID taskID desiredPercentage =
      loopEvents overflow task ⟨g, client, 0, 0⟩ env.events) := by
  unfold loop
  split
  · exact Or.inr (Or.inl ⟨_, rfl⟩)
  · split
    · exact Or.inl ⟨_, rfl⟩
    · split
      · exact Or.inr (Or.inl ⟨_, rfl⟩)
      · split
        · exact Or.inr (Or.inl ⟨_, rfl⟩)
        · split
          · exact Or.inl ⟨_, rfl⟩
          · split
            · exact Or.inr (Or.inl ⟨_, rfl⟩)
            · split
              · exact Or.inl ⟨_, rfl⟩
              · split
                · exact Or.inl ⟨_, rfl⟩
                · split
                  · exact Or.inl ⟨_, rfl⟩
                  · exact Or.inr (Or.inr ⟨_, _, rfl⟩)

set_option maxRecDepth 100000 in
/-- C13 (counterexample): a result that reaches the desired percentage, processed after a
submission notification, leaves `expectingResult` true; and an attempt that follows an attempt
in which a submission notification was the last notification starts with `expectingResult` true,
before it has processed any notification: its `select` loop waits in that state, and when its
first retrigger fails the flag is still true. -/
theorem C13_counterexample :
    handleFrames (fun _ => 0) ⟨"1".toList, "2".toList, 0, 100⟩ ⟨false, false⟩
        ⟨SockJSClient.fresh "abc".toList⟩
        [⟨"MESSAGE".toList, [("destination".toList, "/user/topic/newSubmissions".toList)],
          none⟩, resultNotification 100] =
      .ok (⟨true, true⟩, ⟨(SockJSClient.fresh "abc".toList).closed⟩) ∧
    loop (fun _ => 0) decodeNothing
        ⟨none, none, openRead,
          ⟨TextMessage, "a[\"CONNECTED\\nsession:s1\\nheart-beat:10000,10000\\n\\n\\u0000\"]".toList,
            none⟩,
          ⟨⟨none, 200, ⟨[⟨[], [], [], [], []⟩]⟩⟩, none, none⟩, none, none,
          [.timer none, .message (some (resultNotification 40)),
            .message (some ⟨"MESSAGE".toList,
              [("destination".toList, "/user/topic/newSubmissions".toList)], none⟩),
            .timer (some ⟨"push failed".toList⟩)]⟩
        Globals.initial "1".toList "2".toList 100 =
      .returned true ⟨true, false⟩ 2 ∧
    (∃ client, loop (fun _ => 0) decodeNothing
        ⟨none, none, openRead,
          ⟨TextMessage, "a[\"CONNECTED\\nsession:s1\\nheart-beat:10000,10000\\n\\n\\u0000\"]".toList,
            none⟩,
          ⟨⟨none, 200, ⟨[⟨[], [], [], [], []⟩]⟩⟩, none, none⟩, none, none, []⟩
        ⟨true, false⟩ "1".toList "2".toList 100 =
      .selecting ⟨⟨true, false⟩, client, 0, 0⟩) ∧
    supervise (fun _ => 0) decodeNothing "1".toList "2".toList 100 Globals.initial
        [⟨none, none, openRead,
          ⟨TextMessage, "a[\"CONNECTED\\nsession:s1\\nheart-beat:10000,10000\\n\\n\\u0000\"]".toList,
            none⟩,
          ⟨⟨none, 200, ⟨[⟨[], [], [], [], []⟩]⟩⟩, none, none⟩, none, none,
          [.timer none, .message (some (resultNotification 40)),
            .message (some ⟨"MESSAGE".toList,
              [("destination".toList, "/user/topic/newSubmissions".toList)], none⟩),
            .timer (some ⟨"push failed".toList⟩)]⟩,
         ⟨none, none, openRead,
          ⟨TextMessage, "a[\"CONNECTED\\nsession:s1\\nheart-beat:10000,10000\\n\\n\\u0000\"]".toList,
            none⟩,
          ⟨⟨none, 200, ⟨[⟨[], [], [], [], []⟩]⟩⟩, none, none⟩, none, none,
          [.timer (some ⟨"push failed".toList⟩)]⟩] 0 0 =
      .pending 2 2 ⟨true, false⟩ := by
  refine ⟨rfl, by decide, ⟨_, rfl⟩, by decide⟩

/-- C13 (amended): along every sequence of frames that `handleWSMessage` handles without a
run-time failure from a state of the package-level variables, `expectingResult` is true
afterwards exactly when either a submission notification has been processed and no result below
the desired percentage has been processed after it, or the flag was true before the sequence and
no result below the desired percentage has been processed at all. The flag is not reset when an
attempt starts: the supervising loop calls the next attempt with the package-level variables
that the previous attempt left, and `loop` runs its rounds from the variables it is called
with. -/
theorem C13_expectingResult_invariant (overflow : ℚ → Int)
    (unmarshal : Str → Except GoError JSONMap) (task : Task)
    (frames : List SockJSMessage) (g g' : Globals) (client client' : ArtemisClient)
    (hrun : handleFrames overflow task g client frames = .ok (g', client')) :
    (g'.expectingResult = true ↔
      (∃ pre sub post, frames = pre ++ sub :: post ∧ isSubmissionNotification sub ∧
        ∀ m ∈ post, ¬ isFailingResult overflow task.DesiredPercentage m) ∨
      (g.expectingResult = true ∧
        ∀ m ∈ frames, ¬ isFailingResult overflow task.DesiredPercentage m)) ∧
    (∀ (env : AttemptEnv) (envs : List AttemptEnv) (before left : Globals)
        (courseID taskID : Str) (desiredPercentage : Int) (retriggers attempts sleeps : Nat),
      loop overflow unmarshal env before courseID taskID desiredPercentage =
        .returned true left retriggers →
      supervise overflow unmarshal courseID taskID desiredPercentage before (env :: envs)
          attempts sleeps =
        supervise overflow unmarshal courseID taskID desiredPercentage left envs (attempts + 1)
          (sleeps + 1)) ∧
    (∀ (env : AttemptEnv) (before : Globals) (courseID taskID : Str) (desiredPercentage : Int),
      (∃ shouldRunAgain, loop overflow unmarshal env before courseID taskID desiredPercentage =
        .returned shouldRunAgain before 0) ∨
      (∃ why, loop overflow unmarshal env before courseID taskID desiredPercentage =
        .panic why) ∨
      (∃ attemptTask attemptClient,
        loop overflow unmarshal env before courseID taskID desiredPercentage =
          loopEvents overflow attemptTask ⟨before, attemptClient, 0, 0⟩ env.events)) := by
  refine ⟨?_, ?_, fun env before courseID taskID desiredPercentage =>
    loop_start overflow unmarshal env before courseID taskID desiredPercentage⟩
  · induction frames generalizing g client with
    | nil =>
      simp only [handleFrames, Outcome.ok.injEq, Prod.mk.injEq] at hrun
      rw [← hrun.1]
      constructor
      · intro hx
        exact Or.inr ⟨hx, fun m hm => absurd hm (List.not_mem_nil m)⟩
      · intro hx
        rcases hx with ⟨pre, sub, post, hx1, _⟩ | ⟨hx2, _⟩
        · exact absurd hx1 (by simp)
        · exact hx2
    | cons m rest ih =>
      rw [handleFrames] at hrun
      cases hh : handleWSMessage overflow g client task (some m) with
      | panic why =>
        rw [hh] at hrun
        simp [Outcome.bind] at hrun
      | ok h =>
        rw [hh] at hrun
        simp only [Outcome.bind] at hrun
        have hstep := handleWSMessage_expectingResult overflow g client task m h hh
        rw [ih h.globals h.client hrun, hstep]
        constructor
        · intro hx
          rcases hx with ⟨pre, sub, post, hx1, hx2, hx3⟩ | ⟨hx4 | ⟨hx5, hx6⟩, hx7⟩
          · exact Or.inl ⟨m :: pre, sub, post, by rw [hx1]; rfl, hx2, hx3⟩
          · exact Or.inl ⟨[], m, rest, rfl, hx4, hx7⟩
          · refine Or.inr ⟨hx6, ?_⟩
            intro q hq
            rcases List.mem_cons.mp hq with rfl | hq1
            · exact hx5
            · exact hx7 q hq1
        · intro hx
          rcases hx with ⟨pre, sub, post, hx1, hx2, hx3⟩ | ⟨hx4, hx5⟩
          · cases pre with
            | nil =>
              simp only [List.nil_append, List.cons.injEq] at hx1
              obtain ⟨hx6, hx7⟩ := hx1
              refine Or.inr ⟨Or.inl (hx6 ▸ hx2), ?_⟩
              rw [hx7]
              exact hx3
            | cons p pre1 =>
              simp only [List.cons_append, List.cons.injEq] at hx1
              exact Or.inl ⟨pre1, sub, post, hx1.2, hx2, hx3⟩
          · exact Or.inr ⟨Or.inr ⟨hx5 m (List.mem_cons_self _ _), hx4⟩,
              fun q hq => hx5 q (List.mem_cons_of_mem _ hq)⟩
  · intro env envs before left courseID taskID desiredPercentage retriggers attempts sleeps hl
    simp only [supervise, hl, if_true]

/-- Witness for C13: a failing result followed by a submission notification. -/
theorem C13_expectingResult_invariant_witness :
    (true = true ↔
      (∃ pre sub post,
        [resultNotification 40, ⟨"MESSAGE".toList,
          [("destination".toList, "/user/topic/newSubmissions".toList)], none⟩] =
            pre ++ sub :: post ∧ isSubmissionNotification sub ∧
        ∀ m ∈ post, ¬ isFailingResult (fun _ => 0) 100 m) ∨
      ((⟨false, false⟩ : Globals).expectingResult = true ∧
        ∀ m ∈ [resultNotification 40, ⟨"MESSAGE".toList,
          [("destination".toList, "/user/topic/newSubmissions".toList)], none⟩],
          ¬ isFailingResult (fun _ => 0) 100 m)) :=
  (C13_expectingResult_invariant (fun _ => 0) decodeNothing ⟨"1".toList, "2".toList, 0, 100⟩
    [resultNotification 40, ⟨"MESSAGE".toList,
      [("destination".toList, "/user/topic/newSubmissions".toList)], none⟩]
    ⟨false, false⟩ ⟨true, false⟩ ⟨SockJSClient.fresh "abc".toList⟩
    ⟨SockJSClient.fresh "abc".toList⟩ rfl).1

/-! ## Failure to construct the session -/

/-- C14 (counterexample): an attempt whose dial is refused, and an attempt whose handshake reply
is not a frame, make `loop` return false; the supervising loop stops after that one attempt,
without a sleep and without using the answers prepared for a second attempt. -/
theorem C14_counterexample :
    loop (fun _ => 0) decodeNothing
        ⟨none, some ⟨"connection refused".toList⟩, openRead, openRead,
          ⟨⟨none, 200, ⟨[]⟩⟩, none, none⟩, none, none, []⟩
        Globals.initial "1".toList "2".toList 100 =
      .returned false Globals.initial 0 ∧
    supervise (fun _ => 0) decodeNothing "1".toList "2".toList 100 Globals.initial
        [⟨none, some ⟨"connection refused".toList⟩, openRead, openRead,
            ⟨⟨none, 200, ⟨[]⟩⟩, none, none⟩, none, none, []⟩,
          ⟨none, none, openRead, openRead, ⟨⟨none, 200, ⟨[]⟩⟩, none, none⟩, none, none, []⟩]
        0 0 =
      .stopped 1 0 Globals.initial ∧
    supervise (fun _ => 0) decodeNothing "1".toList "2".toList 100 Globals.initial
        [⟨none, none, openRead, ⟨TextMessage, "x".toList, none⟩,
            ⟨⟨none, 200, ⟨[]⟩⟩, none, none⟩, none, none, []⟩,
          ⟨none, none, openRead, openRead, ⟨⟨none, 200, ⟨[]⟩⟩, none, none⟩, none, none, []⟩]
        0 0 =
      .stopped 1 0 Globals.initial := by
  refine ⟨rfl, rfl, ?_⟩
  decide

/-- C14 (amended): whenever constructing the session for an attempt fails with a connection or
handshake error, `loop` returns false, leaving the package-level variables as they are, and the
supervising loop stops after this attempt: it does not sleep and starts no new attempt. -/
theorem C14_session_failure_stops (overflow : ℚ → Int)
    (unmarshal : Str → Except GoError JSONMap) (env : AttemptEnv) (envs : List AttemptEnv)
    (g : Globals) (courseID taskID : Str) (desiredPercentage : Int) (attempts sleeps : Nat)
    (hauth : env.authErr = none)
    (hfail : env.dialErr ≠ none ∨
      ∃ connected e, handleConnect unmarshal env.first env.reply = .ok connected ∧
        connected.err = some e) :
    loop overflow unmarshal env g courseID taskID desiredPercentage = .returned false g 0 ∧
    supervise overflow unmarshal courseID taskID desiredPercentage g (env :: envs) attempts
        sleeps =
      .stopped (attempts + 1) sleeps g := by
  have hmade : ∃ e, NewArtemisClient unmarshal env.authErr env.dialErr env.first env.reply =
      .ok (none, some e) := by
    rw [hauth]
    cases hdial : env.dialErr with
    | some e => exact ⟨e, rfl⟩
    | none =>
      rcases hfail with h1 | ⟨connected, e, h2, h3⟩
      · exact absurd hdial h1
      · exact ⟨e, by simp only [NewArtemisClient, NewSockJSClient, h2, h3, Outcome.bind]⟩
  obtain ⟨e, hmade⟩ := hmade
  have hloop : loop overflow unmarshal env g courseID taskID desiredPercentage =
      .returned false g 0 := by
    simp only [loop, hmade]
  refine ⟨hloop, ?_⟩
  simp only [supervise, hloop, Bool.false_eq_true, if_false]

/-- Witness for C14: the dial is refused. -/
theorem C14_session_failure_stops_witness :
    loop (fun _ => 0) decodeNothing
        ⟨none, some ⟨"connection refused".toList⟩, openRead, openRead,
          ⟨⟨none, 200, ⟨[]⟩⟩, none, none⟩, none, none, []⟩
        Globals.initial "1".toList "2".toList 100 = .returned false Globals.initial 0 ∧
    supervise (fun _ => 0) decodeNothing "1".toList "2".toList 100 Globals.initial
        (⟨none, some ⟨"connection refused".toList⟩, openRead, openRead,
          ⟨⟨none, 200, ⟨[]⟩⟩, none, none⟩, none, none, []⟩ :: []) 0 0 =
      .stopped (0 + 1) 0 Globals.initial :=
  C14_session_failure_stops (fun _ => 0) decodeNothing
    ⟨none, some ⟨"connection refused".toList⟩, openRead, openRead,
      ⟨⟨none, 200, ⟨[]⟩⟩, none, none⟩, none, none, []⟩ [] Globals.initial
    "1".toList "2".toList 100 0 0 rfl (Or.inl (by simp))

/-! ## The size encoding of the packfile -/

/-- C15, the failing input: for the size 8 the function returns the single byte `0x88`, whose
high bit announces a byte that does not follow, where the encoding of git is the single byte
`0x08`; decoding the produced bytes by the rule of the format fails. The same happens for the
size 1024, whose second and last byte has the high bit set. Sizes next to them (7, 16, 250,
2048) are encoded as the format asks and decode to themselves. -/
theorem C15_continuation_bit_on_last_byte :
    encodeAsVariableLengthInt 8 = [0x88] ∧
    decodeVariableLengthInt (encodeAsVariableLengthInt 8) = none ∧
    decodeVariableLengthInt [0x08] = some (8, []) ∧
    encodeAsVariableLengthInt 1024 = [0x80, 0xc0] ∧
    decodeVariableLengthInt (encodeAsVariableLengthInt 1024) = none ∧
    decodeVariableLengthInt [0x80, 0x40] = some (1024, []) ∧
    decodeVariableLengthInt (encodeAsVariableLengthInt 7) = some (7, []) ∧
    decodeVariableLengthInt (encodeAsVariableLengthInt 16) = some (16, []) ∧
    decodeVariableLengthInt (encodeAsVariableLengthInt 250) = some (250, []) ∧
    decodeVariableLengthInt (encodeAsVariableLengthInt 2048) = some (2048, []) := by
  decide

set_option maxRecDepth 1000000 in
/-- Among the sizes below 256, the produced bytes decode to the size exactly for those outside
8 to 15, the sizes of four bits, whose last bit fills the first byte. -/
theorem encodeAsVariableLengthInt_below_256 :
    ∀ n : Nat, n < 256 → 0 < n →
      (decodeVariableLengthInt (encodeAsVariableLengthInt (n : Int)) = some (n, []) ↔
        ¬ (8 ≤ n ∧ n < 16)) := by
  decide

/-! ## Totality of the parser -/

/-- C16: `ParseSockJSMessage` is total: for every payload, and whatever the JSON decoder does, it
returns its pair of results (a frame, no frame, or an error) and no index is out of range; and
whenever the pattern matches, every non-empty line of the header block it captures splits at `:`
into exactly two parts, a name and a value, both non-empty. -/
theorem C16_parser_total (unmarshal : Str → Except GoError JSONMap) (data : Str) :
    (∃ r, ParseSockJSMessage unmarshal data = .ok r) ∧
    ((sockJSRegex.FindStringSubmatch data).length ≠ 0 →
      ∃ headers,
        index (sockJSRegex.FindStringSubmatch data) (sockJSRegex.SubexpIndex "headers") =
          .ok headers ∧
        ∀ header ∈ Split headers "\\n".toList, header ≠ [] →
          ∃ name value, Split header ":".toList = [name, value] ∧ name ≠ [] ∧ value ≠ []) := by
  constructor
  · rcases ParseSockJSMessage_cases unmarshal data with
      ⟨-, h⟩ | ⟨-, h⟩ | ⟨-, _, _, -, h⟩ | ⟨-, _, _, _, -, h⟩
    · exact ⟨_, h⟩
    · exact ⟨_, h⟩
    · exact ⟨_, h⟩
    · exact ⟨_, h⟩
  · intro hm
    obtain ⟨pre, command, pairs, body, -, -, -, -, hall, -, hsub⟩ :=
      FindStringSubmatch_sound data hm
    refine ⟨encodeHeaders pairs, ?_, ?_⟩
    · rw [hsub, SubexpIndex_headers]
      rfl
    · intro header hmem hne
      rw [Split_encodeHeaders pairs hall] at hmem
      rcases List.mem_append.mp hmem with h1 | h1
      · obtain ⟨pr, hpr, rfl⟩ := List.mem_map.mp h1
        obtain ⟨h2, h3, h4, h5⟩ := hall pr hpr
        exact ⟨pr.1, pr.2, Split_line pr.1 pr.2 h3 h5, h2, h4⟩
      · rw [List.mem_singleton] at h1
        exact absurd h1 hne

set_option maxRecDepth 100000 in
/-- Witness for C16: a CONNECTED reply with two header lines. -/
theorem C16_parser_total_witness :
    ∃ headers,
      index (sockJSRegex.FindStringSubmatch
          "a[\"CONNECTED\\nsession:s1\\nheart-beat:0,0\\n\\n\\u0000\"]".toList)
        (sockJSRegex.SubexpIndex "headers") = .ok headers ∧
      ∀ header ∈ Split headers "\\n".toList, header ≠ [] →
        ∃ name value, Split header ":".toList = [name, value] ∧ name ≠ [] ∧ value ≠ [] :=
  (C16_parser_total decodeNothing
    "a[\"CONNECTED\\nsession:s1\\nheart-beat:0,0\\n\\n\\u0000\"]".toList).2 (by decide)

/-! ## Result notifications without a score -/

set_option maxRecDepth 100000 in
/-- C17, the failing input: the payload of a MESSAGE on the result topic with an empty body is
parsed to a frame whose body is nil, and `handleWSMessage` fails at run time on it (nil pointer
dereference) instead of returning. A body without a `score` entry fails too, at the type
assertion. -/
theorem C17_result_without_score_panics (overflow : ℚ → Int) (g : Globals)
    (client : ArtemisClient) (task : Task) :
    ParseSockJSMessage decodeNothing
        "a[\"MESSAGE\\ndestination:/user/topic/newResults\\n\\n\\u0000\"]".toList =
      .ok (some ⟨"MESSAGE".toList,
        [("destination".toList, "/user/topic/newResults".toList)], none⟩, none) ∧
    handleWSMessage overflow g client task
        (some ⟨"MESSAGE".toList, [("destination".toList, "/user/topic/newResults".toList)],
          none⟩) =
      .panic "invalid memory address or nil pointer dereference" ∧
    handleWSMessage overflow g client task
        (some ⟨"MESSAGE".toList, [("destination".toList, "/user/topic/newResults".toList)],
          some []⟩) =
      .panic "interface conversion: interface \x7b\x7d is not float64" :=
  ⟨rfl, rfl, rfl⟩

/-! ## The heartbeat interval -/

set_option maxRecDepth 100000 in
/-- C18, the failing input: `handleConnect` accepts a reply whose `heart-beat` header is `0,0`,
with the interval 0, and one whose header is `-5,0`, with the interval -5; the ticker of the
heartbeat is then created with a duration that is not positive, on which `time.NewTicker`
panics. -/
theorem C18_zero_heartbeat_accepted :
    handleConnect decodeNothing openRead
        ⟨TextMessage, "a[\"CONNECTED\\nsession:s1\\nheart-beat:0,0\\n\\n\\u0000\"]".toList,
          none⟩ =
      .ok ⟨"s1".toList, none, some 0⟩ ∧
    heartbeatTicker 0 = .panic "non-positive interval for NewTicker" ∧
    handleConnect decodeNothing openRead
        ⟨TextMessage, "a[\"CONNECTED\\nsession:s1\\nheart-beat:-5,0\\n\\n\\u0000\"]".toList,
          none⟩ =
      .ok ⟨"s1".toList, none, some (-5)⟩ ∧
    heartbeatTicker (-5) = .panic "non-positive interval for NewTicker" :=
  ⟨rfl, rfl, rfl, rfl⟩

/-! ## The most recent score -/

/-- No result with an id above the current one: the loop keeps the current score. -/
theorem mostRecentLoop_keep (overflow : ℚ → Int) (results : List ParticipationResult) :
    ∀ (mostRecentID mostRecentScore : Int), (∀ x ∈ results, x.ID ≤ mostRecentID) →
      mostRecentLoop overflow results mostRecentID mostRecentScore = mostRecentScore := by
  induction results with
  | nil =>
    intro _ _ _
    rfl
  | cons x rest ih =>
    intro mostRecentID mostRecentScore h
    have hx := h x (List.mem_cons_self _ _)
    rw [mostRecentLoop, if_neg (by omega)]
    exact ih _ _ (fun y hy => h y (List.mem_cons_of_mem _ hy))

/-- The loop ends with the score of the first result that carries the greatest id, when that id
is above the starting one. -/
theorem mostRecentLoop_first_greatest (overflow : ℚ → Int) (r : ParticipationResult)
    (post : List ParticipationResult) (hpost : ∀ x ∈ post, x.ID ≤ r.ID)
    (pre : List ParticipationResult) :
    ∀ (mostRecentID mostRecentScore : Int), mostRecentID < r.ID → (∀ x ∈ pre, x.ID < r.ID) →
      mostRecentLoop overflow (pre ++ r :: post) mostRecentID mostRecentScore =
        floatToInt overflow r.Score := by
  induction pre with
  | nil =>
    intro mostRecentID mostRecentScore hlt _
    rw [List.nil_append, mostRecentLoop, if_pos (by omega)]
    exact mostRecentLoop_keep overflow post _ _ hpost
  | cons x pre ih =>
    intro mostRecentID mostRecentScore hlt hpre
    have hx := hpre x (List.mem_cons_self _ _)
    have hrest : ∀ y ∈ pre, y.ID < r.ID := fun y hy => hpre y (List.mem_cons_of_mem _ hy)
    rw [List.cons_append, mostRecentLoop]
    by_cases hgt : x.ID > mostRecentID
    · rw [if_pos hgt]
      exact ih _ _ hx hrest
    · rw [if_neg hgt]
      exact ih _ _ hlt hrest

/-- C19 (counterexample): the first participation has the single result with id 0 and score 50;
the score of the result with the greatest id, truncated, is 50, and `GetMostRecentScore` returns
0. -/
theorem C19_counterexample :
    ExerciseDetails.GetMostRecentScore (fun _ => 0) ⟨[⟨[⟨0, 50⟩], [], [], [], []⟩]⟩ = .ok 0 ∧
    truncate 50 = 50 := by
  exact ⟨rfl, by decide⟩

/-- C19 (amended): for every exercise-details value with at least one student participation,
`GetMostRecentScore` returns 0 when the first participation has no results, and also when none of
its results has a positive id; otherwise it returns the score, truncated toward zero (within the
range of `int`), of the first result that carries the greatest id among that participation's
results. -/
theorem C19_most_recent_score (overflow : ℚ → Int) (d : ExerciseDetails)
    (participation : StudentParticipation) (others : List StudentParticipation)
    (hd : d.StudentParticipations = participation :: others) :
    (participation.Results = [] → d.GetMostRecentScore overflow = .ok 0) ∧
    ((∀ x ∈ participation.Results, x.ID ≤ 0) → d.GetMostRecentScore overflow = .ok 0) ∧
    (∀ (pre : List ParticipationResult) (r : ParticipationResult)
        (post : List ParticipationResult),
      participation.Results = pre ++ r :: post → 0 < r.ID →
      (∀ x ∈ pre, x.ID < r.ID) → (∀ x ∈ post, x.ID ≤ r.ID) →
      -(2 ^ 63) ≤ truncate r.Score → truncate r.Score < 2 ^ 63 →
      d.GetMostRecentScore overflow = .ok (truncate r.Score)) := by
  have hnone : (∀ x ∈ participation.Results, x.ID ≤ 0) →
      d.GetMostRecentScore overflow = .ok 0 := by
    intro h
    rw [ExerciseDetails.GetMostRecentScore, hd, index_zero]
    simp only [Outcome.bind]
    by_cases hl : participation.Results.length = 0
    · rw [if_pos hl]
    · rw [if_neg hl, mostRecentLoop_keep overflow _ 0 0 h]
  refine ⟨?_, hnone, ?_⟩
  · intro h
    apply hnone
    rw [h]
    intro x hx
    exact absurd hx (List.not_mem_nil x)
  · intro pre r post hres hpos hpre hpost hlo hhi
    rw [ExerciseDetails.GetMostRecentScore, hd, index_zero]
    simp only [Outcome.bind]
    have hl : ¬ participation.Results.length = 0 := by
      rw [hres]
      simp
    rw [if_neg hl, hres, mostRecentLoop_first_greatest overflow r post hpost pre 0 0 hpos hpre,
      floatToInt, if_pos ⟨hlo, hhi⟩]

/-- Witness for C19: results with the ids 3, 7 and 5; the score of the result with id 7 is
returned, truncated. -/
theorem C19_most_recent_score_witness :
    ExerciseDetails.GetMostRecentScore (fun _ => 0)
        ⟨[⟨[⟨3, 40⟩, ⟨7, 61⟩, ⟨5, 90⟩], [], [], [], []⟩]⟩ =
      .ok (truncate 61) :=
  (C19_most_recent_score (fun _ => 0) ⟨[⟨[⟨3, 40⟩, ⟨7, 61⟩, ⟨5, 90⟩], [], [], [], []⟩]⟩
    ⟨[⟨3, 40⟩, ⟨7, 61⟩, ⟨5, 90⟩], [], [], [], []⟩ [] rfl).2.2
    [⟨3, 40⟩] ⟨7, 61⟩ [⟨5, 90⟩] rfl (by decide) (by decide) (by decide) (by decide)
    (by decide)

end ArtemisBot
